import Mathlib

/-!
# nocand : node identity registry and firmware transfer engine

A shallow embedding of `models/node.go` (hardware identifiers, nodes, the
`NodeCollection` registry) and of `controllers/firmware.go` (the bootloader
upload job), followed by the properties established about them.

Conventions of the embedding.
* A Go `*Node` is an address (a natural number) into an explicit heap of `Node`
  objects; `nil` is `none`.
* The registry methods are sequential: the `sync.RWMutex` is not modelled.
* `time.Now()` is an explicit argument.
* Unsigned 32-bit arithmetic is arithmetic on `Nat` reduced modulo `2^32`.
-/

namespace Nocand

/-! ## models/node.go : identifiers -/

/-- Go's `byte`. -/
abbrev Byte := Fin 256

/-- The type `Udid8 [8]byte`: an array of exactly eight bytes. -/
abbrev Udid8 := { l : List Byte // l.length = 8 }

/-- The variable `NullUdid8 = Udid8{0, 0, 0, 0, 0, 0, 0, 0}`. -/
def NullUdid8 : Udid8 := ⟨[0, 0, 0, 0, 0, 0, 0, 0], rfl⟩

/-- The type `NodeState` with its constants (`NodeStateCount` is only the array size). -/
inductive NodeState where
  | Unknown
  | Connecting
  | Connected
  | Bootloader
  | Running
  | Programming
  | Unresponsive
deriving DecidableEq, Repr

/-- Modelled from the spec: `nocan.NodeId` is declared outside the two source files.
Section 3 of the specification gives it as the BusAddress, an integer in [0,127]; this
is also exactly the index range of the table `Nodes [128]*Node`. -/
abbrev NodeId := Fin 128

/-- The struct `Node`. `LastSeen` is a time stamp (an abstract clock value, `0` for the
zero `time.Time`), `Attributes` the `map[string]string` as an association list. -/
structure Node where
  State : NodeState
  Id : NodeId
  Udid : Udid8
  LastSeen : Nat
  Attributes : List (String × String)
deriving DecidableEq

/-- The struct `NodeCollection` without its mutex: the table `Nodes [128]*Node` and the
reverse mapping `Udids map[Udid8]*Node`. A `*Node` is a heap address. -/
structure NodeCollection where
  Nodes : NodeId → Option Nat
  Udids : Udid8 → Option Nat

/-! ## The persistent identity cache (external collaborator) -/

/-- Modelled from the spec: the Persistent Identity Cache, whose storage and functions
(`NodeCacheLookup`, `NodeCacheReverseLookup`, `NodeCacheSetEntry`) are not part of the two
source files. It is a durable mapping HardwareId → BusAddress in which an identifier
"owns" an address. The cache is represented by the history of its `SetEntry` calls,
newest first. -/
abbrev NodeCache := List (Udid8 × NodeId)

/-- Modelled from the spec: `LookupAddress(hwid) -> address-or-none`, with `0` for
"none" as the caller tests `node_id != 0`. The address of `hwid` is the one of its newest
entry, unless that address has since been associated with another identifier
(section 4.1 step 3c: claiming a slot overwrites its cache association). -/
def NodeCacheLookup : NodeCache → Udid8 → NodeId
  | [], _ => 0
  | (v, a) :: rest, u =>
    if v = u then a
    else if NodeCacheLookup rest u = a then 0
    else NodeCacheLookup rest u

/-- Modelled from the spec: `IsReserved(address) -> bool`, true if some hardware
identifier owns that address in the cache. The call in the source passes the address
only. -/
def NodeCacheReverseLookup (c : NodeCache) (id : NodeId) : Bool :=
  decide (id ≠ 0) && c.any (fun e => decide (NodeCacheLookup c e.1 = id))

/-- Modelled from the spec: `SetEntry(hwid, address)` records the association of `hwid`
with `address`. -/
def NodeCacheSetEntry (c : NodeCache) (udid : Udid8) (id : NodeId) : NodeCache :=
  (udid, id) :: c

/-! ## The machine state -/

/-- Everything the registry methods read or write: the Go heap of `Node` objects
(`heap p` is the object at address `p`, `next` the next address handed out by an
allocation), the collection itself, and the persistent cache. -/
structure World where
  heap : Nat → Node
  next : Nat
  nc : NodeCollection
  cache : NodeCache

/-- The function `NewNode`: allocates
`&Node{State: NodeStateUnknown, Udid: udid, Id: id, Attributes: make(map[string]string)}`
and returns its address. -/
def NewNode (w : World) (id : NodeId) (udid : Udid8) : Nat × World :=
  (w.next,
   { w with
     heap := Function.update w.heap w.next
       { State := NodeState.Unknown, Id := id, Udid := udid, LastSeen := 0, Attributes := [] }
     next := w.next + 1 })

/-- The method `(n *Node) Touch()`: `n.LastSeen = time.Now()`. -/
def Touch (w : World) (node : Nat) (now : Nat) : World :=
  { w with heap := Function.update w.heap node { w.heap node with LastSeen := now } }

/-- The function `NewNodeCollection`: an empty table and an empty map. -/
def NewNodeCollection : NodeCollection :=
  { Nodes := fun _ => none, Udids := fun _ => none }

/-- The method `Find`: `if id < 0 { return nil }; return nc.Nodes[id]`. -/
def Find (nc : NodeCollection) (id : NodeId) : Option Nat :=
  if (id.val : Int) < 0 then none else nc.Nodes id

/-- The method `Lookup`: `if node, ok := nc.Udids[udid]; ok { return node }; return nil`. -/
def Lookup (nc : NodeCollection) (udid : Udid8) : Option Nat :=
  match nc.Udids udid with
  | some node => some node
  | none => none

/-- The error text of `Register` for the null identifier (the spec's InvalidIdentifier). -/
def InvalidIdentifier : String := "Cannot register a node with a NULL udid"

/-- The error text of `Register` when no slot is left (the spec's RegistryFull). -/
def RegistryFull : String := "Maximum number of nodes (127) has been reached!"

/-- The block that each of the three passes of `Register` runs on the slot it picked:
`node := NewNode(id, udid); nc.Nodes[id] = node; nc.Udids[udid] = node; node.Touch();
NodeCacheSetEntry(udid, id); return node, nil`. -/
def claimSlot (w : World) (udid : Udid8) (id : NodeId) (now : Nat) :
    Except String Nat × World :=
  let (node, w1) := NewNode w id udid
  let w2 := { w1 with nc := { w1.nc with Nodes := Function.update w1.nc.Nodes id (some node) } }
  let w3 := { w2 with nc := { w2.nc with Udids := Function.update w2.nc.Udids udid (some node) } }
  let w4 := Touch w3 node now
  let w5 := { w4 with cache := NodeCacheSetEntry w4.cache udid id }
  (Except.ok node, w5)

/-- The loop `for i := 1; i < 128; i++ { if cond(i) { ...; return } }` of `Register`:
`scanSlots cond i fuel` runs it from counter `i` for at most `fuel` rounds and gives the
first slot at which the condition holds. -/
def scanSlots (cond : NodeId → Bool) : Nat → Nat → Option NodeId
  | _, 0 => none
  | i, fuel + 1 =>
    if h : i < 128 then
      if cond ⟨i, h⟩ then some ⟨i, h⟩ else scanSlots cond (i + 1) fuel
    else none

/-- The method `Register`. The result is the pair `(*Node, error)` as an `Except` (the
error text, or the address of the node) together with the new machine state. -/
def Register (w : World) (udid : Udid8) (now : Nat) : Except String Nat × World :=
  if udid = NullUdid8 then (Except.error InvalidIdentifier, w)
  else
    match Lookup w.nc udid with
    | some node =>
      (Except.ok node,
       { w with heap := Function.update w.heap node
                  { w.heap node with State := NodeState.Connecting } })
    | none =>
      let node_id := NodeCacheLookup w.cache udid
      if node_id ≠ 0 ∧ w.nc.Nodes node_id = none then claimSlot w udid node_id now
      else
        match scanSlots (fun i => decide (w.nc.Nodes i = none)
                                    && (NodeCacheReverseLookup w.cache i == false)) 1 127 with
        | some i => claimSlot w udid i now
        | none =>
          match scanSlots (fun i => decide (w.nc.Nodes i = none)) 1 127 with
          | some i => claimSlot w udid i now
          | none => (Except.error RegistryFull, w)

/-- The method `Unregister`: `delete(nc.Udids, node.Udid); nc.Nodes[node.Id] = nil;
return true`. -/
def Unregister (w : World) (node : Nat) : Bool × World :=
  let w1 := { w with nc := { w.nc with Udids := Function.update w.nc.Udids (w.heap node).Udid none } }
  let w2 := { w1 with nc := { w1.nc with Nodes := Function.update w1.nc.Nodes (w1.heap node).Id none } }
  (true, w2)

/-- The method `Clear`: a fresh map, and every table slot set to nil. -/
def Clear (w : World) : World :=
  { w with nc := { Nodes := fun _ => none, Udids := fun _ => none } }

/-- A machine state with an empty registry: the given heap and cache, and
`NewNodeCollection()`. -/
def emptyWorld (heap : Nat → Node) (next : Nat) (cache : NodeCache) : World :=
  { heap := heap, next := next, nc := NewNodeCollection, cache := cache }

/-! ## Registry invariants and call sequences -/

/-- The registry invariants of section 3 of the specification, on a machine state:
(1) an occupied slot `i` holds a node whose `Id` is `i`; (2) a node is in the table iff the
reverse mapping sends its hardware identifier to that same node (`fwd`, `bwd`; `key` says
that a map entry is filed under the identifier of its node); (3) slot 0 is empty. -/
structure RegistryInv (w : World) : Prop where
  addr : ∀ (i : NodeId) (p : Nat), w.nc.Nodes i = some p → (w.heap p).Id = i
  fwd : ∀ (i : NodeId) (p : Nat), w.nc.Nodes i = some p → w.nc.Udids (w.heap p).Udid = some p
  key : ∀ (u : Udid8) (p : Nat), w.nc.Udids u = some p → (w.heap p).Udid = u
  bwd : ∀ (u : Udid8) (p : Nat), w.nc.Udids u = some p → w.nc.Nodes (w.heap p).Id = some p
  zero : w.nc.Nodes 0 = none

/-- Every address stored in the table or in the reverse mapping has been allocated. -/
structure Allocated (w : World) : Prop where
  table : ∀ (i : NodeId) (p : Nat), w.nc.Nodes i = some p → p < w.next
  map : ∀ (u : Udid8) (p : Nat), w.nc.Udids u = some p → p < w.next

/-- A sample identifier `00:00:00:00:00:00:00:nn`. -/
def sampleUdid (n : Nat) : Udid8 := ⟨[0, 0, 0, 0, 0, 0, 0, Fin.ofNat n], rfl⟩

/-- A heap whose objects are all the zero `Node`. -/
def zeroHeap : Nat → Node :=
  fun _ => { State := NodeState.Unknown, Id := 0, Udid := NullUdid8, LastSeen := 0,
             Attributes := [] }

/-- A machine state with one registered node: `sampleUdid 1` at address 1. -/
def oneNodeWorld : World := (Register (emptyWorld zeroHeap 0 []) (sampleUdid 1) 0).2

/-- A machine state in which only slot 5 is free among 1..127, and the cache reserves
address 5 for `sampleUdid 9`. -/
def crowdedWorld : World :=
  { heap := zeroHeap, next := 200,
    nc := { Nodes := fun i => if i = 0 ∨ i = 5 then none else some i.val,
            Udids := fun _ => none },
    cache := [(sampleUdid 9, 5)] }

/-- A run of `Register` calls, one per request (identifier, time of the call), in order.
Each result is the error text, or the returned `*Node` together with the `Node` object it
points to right after the call. -/
def RegisterAll (w : World) : List (Udid8 × Nat) → List (Except String (Nat × Node)) × World
  | [] => ([], w)
  | (udid, now) :: rest =>
    let r := Register w udid now
    let out : Except String (Nat × Node) :=
      match r.1 with
      | Except.ok p => Except.ok (p, r.2.heap p)
      | Except.error e => Except.error e
    let rs := RegisterAll r.2 rest
    (out :: rs.1, rs.2)

/-- The set of occupied table slots. -/
def occupied (w : World) : Finset NodeId :=
  Finset.univ.filter (fun i => w.nc.Nodes i ≠ none)

/-- The 126 requests for `sampleUdid 2`, ..., `sampleUdid 127`. -/
def restRequests : List (Udid8 × Nat) :=
  (List.range 126).map (fun i => (sampleUdid (i + 2), i + 1))

/-- The 127 requests for `sampleUdid 1`, ..., `sampleUdid 127`. -/
def sampleRequests : List (Udid8 × Nat) :=
  (sampleUdid 1, 0) :: restRequests

/-- A call of one of the three mutating registry methods. -/
inductive Call where
  | Register (udid : Udid8) (now : Nat)
  | Unregister (node : Nat)
  | Clear

/-- Runs a sequence of calls from state `w`, `returned` being the nodes that `Register`
has returned so far. `Unregister` is only applied to a node previously returned by
`Register`; a sequence that does otherwise has no run (`none`). -/
def runCalls (w : World) (returned : List Nat) : List Call → Option (World × List Nat)
  | [] => some (w, returned)
  | Call.Register udid now :: rest =>
    match (Register w udid now).1 with
    | Except.ok p => runCalls (Register w udid now).2 (p :: returned) rest
    | Except.error _ => runCalls (Register w udid now).2 returned rest
  | Call.Unregister node :: rest =>
    if node ∈ returned then runCalls (Unregister w node).2 returned rest else none
  | Call.Clear :: rest => runCalls (Clear w) returned rest

/-- The calls that fill the empty registry with `sampleRequests` (node 0 is the one
returned for `sampleUdid 1`), unregister node 0 and register the new identifier
`sampleUdid 200`: node 0 is then a stale node. -/
def staleCalls : List Call :=
  sampleRequests.map (fun r => Call.Register r.1 r.2)
    ++ [Call.Unregister 0, Call.Register (sampleUdid 200) 0]

/-! ## controllers/firmware.go -/

/-- The constant `FLASH_ORIGIN`. -/
def FLASH_ORIGIN : Nat := 0

/-- The constant `FLASH_LENGTH`. -/
def FLASH_LENGTH : Nat := 0x40000

/-- The constant `FLASH_APP_ORIGIN = FLASH_ORIGIN + 0x2000` (8K bootloader). -/
def FLASH_APP_ORIGIN : Nat := FLASH_ORIGIN + 0x2000

/-- The constant `FLASH_APP_LENGTH = FLASH_LENGTH - 0x2000`. -/
def FLASH_APP_LENGTH : Nat := FLASH_LENGTH - 0x2000

/-- The constant `FLASH_PAGE_SIZE`. -/
def FLASH_PAGE_SIZE : Nat := 64

/-- The function `uint32ToBytes`: `byte(u >> 24), byte(u >> 16), byte(u >> 8), byte(u)`.
The conversion to `byte` keeps the low eight bits, so the result only depends on `u`
modulo `2^32`. -/
def uint32ToBytes (u : Nat) : List Byte :=
  [Fin.ofNat (u / 2 ^ 24), Fin.ofNat (u / 2 ^ 16), Fin.ofNat (u / 2 ^ 8), Fin.ofNat u]

/-- One entry of `crc32.IEEETable` (Go standard library, `simpleMakeTable` with the
polynomial `0xedb88320`): eight rounds of
`if crc&1 == 1 { crc = (crc >> 1) ^ poly } else { crc >>= 1 }` starting from `i`. -/
def crcTableEntry (i : Nat) : Nat :=
  (fun c => if c % 2 = 1 then (c / 2) ^^^ 0xEDB88320 else c / 2)^[8] i

/-- The function `crc32.Update(crc, crc32.IEEETable, p)` of the Go standard library
(`simpleUpdate`): `crc = ^crc; for v in p { crc = tab[byte(crc)^v] ^ (crc >> 8) };
return ^crc`, on 32-bit values. -/
def crc32Update (crc : Nat) (p : List Byte) : Nat :=
  0xFFFFFFFF ^^^
    p.foldl (fun c v => crcTableEntry ((c % 256) ^^^ v.val) ^^^ (c / 256)) (0xFFFFFFFF ^^^ crc)

/-- The bootloader function codes `nocan.SYS_BOOTLOADER_*` used by the engine (the
constants are declared outside the two source files; only their identity matters). -/
inductive MessageType where
  | SYS_BOOTLOADER_SET_ADDRESS
  | SYS_BOOTLOADER_SET_ADDRESS_ACK
  | SYS_BOOTLOADER_ERASE
  | SYS_BOOTLOADER_ERASE_ACK
  | SYS_BOOTLOADER_WRITE
  | SYS_BOOTLOADER_WRITE_ACK
  | SYS_BOOTLOADER_READ
  | SYS_BOOTLOADER_READ_ACK
deriving DecidableEq, Repr

/-- Modelled from the spec: a FirmwareBlock `{Offset: absolute flash address, Data: byte
sequence}` (the type lives in the `socket` package, outside the two source files). -/
structure Block where
  Offset : Nat
  Data : List Byte
deriving DecidableEq

/-- Modelled from the spec: a FirmwareImage, the ordered sequence `Code` of blocks and
the read-length `Limit` (`socket.NodeFirmware`, outside the two source files). -/
structure NodeFirmware where
  Code : List Block
  Limit : Nat
deriving DecidableEq

/-- Modelled from the spec: `AppendBlock(offset, data)` appends one new block at the end
of the image (`socket.NodeFirmware.AppendBlock`, outside the two source files). -/
def NodeFirmware.AppendBlock (fw : NodeFirmware) (offset : Nat) (data : List Byte) :
    NodeFirmware :=
  { fw with Code := fw.Code ++ [{ Offset := offset, Data := data }] }

/-- The value passed to the client with a `NodeFirmwareProgressEvent`: the results of
`op.Progress.Failed()`, `op.Progress.Update(percent, bytes)` and `op.Progress.Success()`.
`percent` is the 32-bit value the engine computes, before `socket.ProgressReport(...)`
(a type declared outside the two source files) converts it. -/
inductive Progress where
  | Failed
  | Update (percent : Nat) (bytes : Nat)
  | Success
deriving DecidableEq

/-- What the engine does that is visible outside: a `Bus.SendSystemMessage` call, a
`Bus.ExpectSystemMessage` call, and the two kinds of `op.Client.Put` calls. -/
inductive Event where
  | Send (node : NodeId) (fn : MessageType) (param : Nat) (data : List Byte)
  | Expect (node : NodeId) (fn : MessageType)
  | PutProgress (p : Progress)
  | PutDownload (fw : NodeFirmware)
deriving DecidableEq

/-- The environment of a job. `expect t` is what `Bus.ExpectSystemMessage` returns (the
payload of the reply, or an error) and `put t` what `op.Client.Put` returns (`none` for
nil) when `t` is everything that has happened so far, the call itself included. -/
structure Env where
  expect : List Event → Except String (List Byte)
  put : List Event → Option String

/-- The call `Bus.ExpectSystemMessage(node, fn)`. -/
def ExpectSystemMessage (env : Env) (t : List Event) (node : NodeId) (fn : MessageType) :
    Except String (List Byte) × List Event :=
  (env.expect (t ++ [Event.Expect node fn]), t ++ [Event.Expect node fn])

/-- The call `op.Client.Put(...)`, `e` being the event put. -/
def Put (env : Env) (t : List Event) (e : Event) : Option String × List Event :=
  (env.put (t ++ [e]), t ++ [e])

/-- The errors a job returns: one constructor per `fmt.Errorf` format of the source,
carrying the values it formats (the node, the address where there is one, the error of
the wait), and `Sink` for an error of `op.Client.Put` returned unchanged. -/
inductive FwError where
  | SetAddressBeforeErase (node : NodeId) (cause : String)
  | Erase (node : NodeId) (cause : String)
  | SetAddress (node : NodeId) (address : Nat) (cause : String)
  | Write (node : NodeId) (address : Nat) (cause : String)
  | FinalWrite (node : NodeId) (address : Nat) (cause : String)
  | DownloadSetAddress (node : NodeId) (address : Nat) (cause : String)
  | DownloadRead (node : NodeId) (address : Nat) (cause : String)
  | Sink (cause : String)
deriving DecidableEq

/-- How a job, or one of its loops, ends: it returns nil (a loop: runs to its end), it
returns an error, it is still running when the fuel of the model is used up, or it stops
in the run-time panic of an integer division by zero. -/
inductive JobResult where
  | ok
  | error (e : FwError)
  | unfinished
  | panic
deriving DecidableEq

/-- The values `0, 8, ..., 56` that `page_pos` takes under `page_pos < FLASH_PAGE_SIZE`
with `page_pos += 8`. -/
def pagePositions : List Nat := [0, 8, 16, 24, 32, 40, 48, 56]

/-- The inner loop of `uploadFirmware`,
`for page_pos := 0; page_pos < FLASH_PAGE_SIZE && page_offset+page_pos < blocksize; page_pos += 8`,
over the remaining values of `page_pos`. `address` is the variable of that name, which
the error formats print. The result is the checksum so far, or the error returned. -/
def writeChunks (env : Env) (node : NodeId) (block : Block) (blocksize page_offset address : Nat) :
    List Nat → Nat → List Event → Except FwError Nat × List Event
  | [], crc, t => (Except.ok crc, t)
  | page_pos :: rest, crc, t =>
    if (page_offset + page_pos) % 2 ^ 32 < blocksize then
      let data := (block.Data.drop ((page_offset + page_pos) % 2 ^ 32)).take 8
      let crc1 := crc32Update crc data
      let t1 := t ++ [Event.Send node MessageType.SYS_BOOTLOADER_WRITE 0 data]
      match ExpectSystemMessage env t1 node MessageType.SYS_BOOTLOADER_WRITE_ACK with
      | (Except.error err, t2) =>
        (Except.error (FwError.Write node address err),
         (Put env t2 (Event.PutProgress Progress.Failed)).2)
      | (Except.ok _, t2) =>
        writeChunks env node block blocksize page_offset address rest crc1 t2
    else (Except.ok crc, t)

/-- The page loop of `uploadFirmware`,
`for page_offset := uint32(0); page_offset < blocksize; page_offset += FLASH_PAGE_SIZE`,
run for at most `fuel` pages from the given `page_offset`. -/
def uploadPages (env : Env) (node : NodeId) (block : Block) (blocksize address : Nat) :
    Nat → Nat → List Event → JobResult × List Event
  | 0, page_offset, t =>
    if page_offset < blocksize then (JobResult.unfinished, t) else (JobResult.ok, t)
  | fuel + 1, page_offset, t =>
    if page_offset < blocksize then
      let base_address := (block.Offset + page_offset) % 2 ^ 32
      let t1 := t ++ [Event.Send node MessageType.SYS_BOOTLOADER_SET_ADDRESS 70
                        (uint32ToBytes base_address)]
      match ExpectSystemMessage env t1 node MessageType.SYS_BOOTLOADER_SET_ADDRESS_ACK with
      | (Except.error err, t2) =>
        (JobResult.error (FwError.SetAddress node address err),
         (Put env t2 (Event.PutProgress Progress.Failed)).2)
      | (Except.ok _, t2) =>
        match writeChunks env node block blocksize page_offset address pagePositions 0 t2 with
        | (Except.error e, t3) => (JobResult.error e, t3)
        | (Except.ok crc, t3) =>
          let t4 := t3 ++ [Event.Send node MessageType.SYS_BOOTLOADER_WRITE 1
                            (uint32ToBytes crc)]
          match ExpectSystemMessage env t4 node MessageType.SYS_BOOTLOADER_WRITE_ACK with
          | (Except.error err, t5) =>
            (JobResult.error (FwError.FinalWrite node address err),
             (Put env t5 (Event.PutProgress Progress.Failed)).2)
          | (Except.ok _, t5) =>
            if blocksize = 0 then (JobResult.panic, t5)
            else
              match Put env t5 (Event.PutProgress
                      (Progress.Update ((page_offset * 100) % 2 ^ 32 / blocksize) 0)) with
              | (some err, t6) => (JobResult.error (FwError.Sink err), t6)
              | (none, t6) =>
                uploadPages env node block blocksize address fuel
                  ((page_offset + FLASH_PAGE_SIZE) % 2 ^ 32) t6
    else (JobResult.ok, t)

/-- The block loop of `uploadFirmware`, `for _, block := range op.Firmware.Code`, with
`blocksize := uint32(len(block.Data))`. -/
def uploadBlocks (env : Env) (node : NodeId) (address fuel : Nat) :
    List Block → List Event → JobResult × List Event
  | [], t => (JobResult.ok, t)
  | block :: rest, t =>
    match uploadPages env node block (block.Data.length % 2 ^ 32) address fuel 0 t with
    | (JobResult.ok, t1) => uploadBlocks env node address fuel rest t1
    | (r, t1) => (r, t1)

/-- The function `uploadFirmware(node, op)`: `firmware` is `op.Firmware`, the bus and
`op.Client` are in `env`, and `fuel` bounds the number of pages written per block. The
result is what the function returns and the events in the order they happened. The
variable `address` is declared and never assigned: it is `0` throughout. -/
def uploadFirmware (env : Env) (node : Node) (firmware : NodeFirmware) (fuel : Nat) :
    JobResult × List Event :=
  let address := 0
  let t1 := [Event.Send node.Id MessageType.SYS_BOOTLOADER_SET_ADDRESS 70
              (uint32ToBytes FLASH_APP_ORIGIN)]
  match ExpectSystemMessage env t1 node.Id MessageType.SYS_BOOTLOADER_SET_ADDRESS_ACK with
  | (Except.error err, t2) =>
    (JobResult.error (FwError.SetAddressBeforeErase node.Id err),
     (Put env t2 (Event.PutProgress Progress.Failed)).2)
  | (Except.ok _, t2) =>
    let t3 := t2 ++ [Event.Send node.Id MessageType.SYS_BOOTLOADER_ERASE 0 []]
    match ExpectSystemMessage env t3 node.Id MessageType.SYS_BOOTLOADER_ERASE_ACK with
    | (Except.error err, t4) =>
      (JobResult.error (FwError.Erase node.Id err),
       (Put env t4 (Event.PutProgress Progress.Failed)).2)
    | (Except.ok _, t4) =>
      match uploadBlocks env node.Id address fuel firmware.Code t4 with
      | (JobResult.ok, t5) =>
        match Put env t5 (Event.PutProgress Progress.Success) with
        | (some err, t6) => (JobResult.error (FwError.Sink err), t6)
        | (none, t6) => (JobResult.ok, t6)
      | (r, t5) => (r, t5)

/-- The inner loop of `downloadFirmware`, `for pos := uint32(0); pos < FLASH_PAGE_SIZE;
pos += 8`, over the remaining values of `pos`: the bytes read so far and `address`, or the
error returned. -/
def readChunks (env : Env) (node : NodeId) :
    List Nat → Nat → List Byte → List Event → Except FwError (Nat × List Byte) × List Event
  | [], address, block, t => (Except.ok (address, block), t)
  | _ :: rest, address, block, t =>
    let t1 := t ++ [Event.Send node MessageType.SYS_BOOTLOADER_READ 8 []]
    match ExpectSystemMessage env t1 node MessageType.SYS_BOOTLOADER_READ_ACK with
    | (Except.error err, t2) =>
      (Except.error (FwError.DownloadRead node address err),
       (Put env t2 (Event.PutProgress Progress.Failed)).2)
    | (Except.ok response, t2) =>
      readChunks env node rest ((address + 8) % 2 ^ 32) (block ++ response) t2

/-- The page loop of `downloadFirmware`, `for i = 0; i < memlength/FLASH_PAGE_SIZE; i++`,
with `remaining` pages still to read from page `i`: how the loop ends, and the bytes read
so far. -/
def downloadPages (env : Env) (node : NodeId) (memlength : Nat) :
    Nat → Nat → List Byte → List Event → JobResult × List Byte × List Event
  | 0, _, block, t => (JobResult.ok, block, t)
  | remaining + 1, i, block, t =>
    let address := (FLASH_APP_ORIGIN + i * FLASH_PAGE_SIZE) % 2 ^ 32
    let t1 := t ++ [Event.Send node MessageType.SYS_BOOTLOADER_SET_ADDRESS 70
                      (uint32ToBytes address)]
    match ExpectSystemMessage env t1 node MessageType.SYS_BOOTLOADER_SET_ADDRESS_ACK with
    | (Except.error err, t2) =>
      (JobResult.error (FwError.DownloadSetAddress node address err), block,
       (Put env t2 (Event.PutProgress Progress.Failed)).2)
    | (Except.ok _, t2) =>
      match readChunks env node pagePositions address block t2 with
      | (Except.error e, t3) => (JobResult.error e, block, t3)
      | (Except.ok (address1, block1), t3) =>
        if memlength = 0 then (JobResult.panic, block1, t3)
        else
          match Put env t3 (Event.PutProgress
                  (Progress.Update
                    (((address1 + 2 ^ 32 - FLASH_APP_ORIGIN) % 2 ^ 32 * 100) % 2 ^ 32
                      / memlength)
                    ((address1 + 2 ^ 32 - FLASH_APP_ORIGIN) % 2 ^ 32))) with
          | (some err, t4) => (JobResult.error (FwError.Sink err), block1, t4)
          | (none, t4) => downloadPages env node memlength remaining (i + 1) block1 t4

/-- The function `downloadFirmware(node, op)`: `firmware` is `op.Firmware`. The result is
what the function returns, the events in the order they happened, and the image
`op.Firmware` as the function leaves it. -/
def downloadFirmware (env : Env) (node : Node) (firmware : NodeFirmware) :
    JobResult × List Event × NodeFirmware :=
  let memlength := if firmware.Limit > FLASH_APP_LENGTH then FLASH_APP_LENGTH else firmware.Limit
  match downloadPages env node.Id memlength (memlength / FLASH_PAGE_SIZE) 0 [] [] with
  | (JobResult.ok, block, t1) =>
    let t2 := (Put env t1 (Event.PutProgress Progress.Success)).2
    let firmware1 := firmware.AppendBlock FLASH_APP_ORIGIN block
    match Put env t2 (Event.PutDownload firmware1) with
    | (some err, t3) => (JobResult.error (FwError.Sink err), t3, firmware1)
    | (none, t3) => (JobResult.ok, t3, firmware1)
  | (r, _, t1) => (r, t1, firmware)

/-! ### Reading a trace -/

/-- The commands sent, in order: the `Send` events of a trace. -/
def sends (t : List Event) : List Event :=
  t.filter (fun e => match e with
    | Event.Send _ _ _ _ => true
    | _ => false)

/-- The number of `WRITE` commands sent in a trace. -/
def countWrites (t : List Event) : Nat :=
  t.countP (fun e => match e with
    | Event.Send _ MessageType.SYS_BOOTLOADER_WRITE _ _ => true
    | _ => false)

/-- The number of Failed progress events put in a trace. -/
def countFailed (t : List Event) : Nat :=
  t.countP (fun e => decide (e = Event.PutProgress Progress.Failed))

/-- The number of terminal progress events (Success or Failed) put in a trace. -/
def countTerminal (t : List Event) : Nat :=
  t.countP (fun e => decide (e = Event.PutProgress Progress.Failed)
                      || decide (e = Event.PutProgress Progress.Success))

/-- The percent values of the Update progress events of a trace, in order. -/
def percents : List Event → List Nat
  | [] => []
  | Event.PutProgress (Progress.Update percent _) :: rest => percent :: percents rest
  | _ :: rest => percents rest

/-- The state of an upload in which the N-th WRITE has not been sent: fewer than `N`
WRITE commands so far, and no Failed event. -/
def BeforeNthWrite (N : Nat) (t : List Event) : Prop :=
  countWrites t < N ∧ countFailed t = 0

/-- The trace of an upload that stopped at its N-th WRITE: it ends with that WRITE, the
wait for its acknowledgment and one Failed event, and has no Failed event before. -/
def StoppedAtNthWrite (N : Nat) (node : NodeId) (t : List Event) : Prop :=
  ∃ (pre : List Event) (param : Nat) (data : List Byte),
    t = pre ++ [Event.Send node MessageType.SYS_BOOTLOADER_WRITE param data,
                Event.Expect node MessageType.SYS_BOOTLOADER_WRITE_ACK,
                Event.PutProgress Progress.Failed]
    ∧ countWrites pre + 1 = N ∧ countFailed pre = 0

/-- A transport that fails exactly the wait for the acknowledgment of the N-th WRITE:
every wait made while fewer than `N` WRITE commands have been sent succeeds, and the wait
for a WRITE acknowledgment when exactly `N` have been sent fails. -/
def FailsNthWrite (env : Env) (N : Nat) : Prop :=
  (∀ t : List Event, countWrites t < N → ∃ payload, env.expect t = Except.ok payload)
  ∧ (∀ (t : List Event) (node : NodeId), countWrites t = N →
      t.getLast? = some (Event.Expect node MessageType.SYS_BOOTLOADER_WRITE_ACK) →
      ∃ err, env.expect t = Except.error err)

/-- What holds of an upload, or of one of its loops, under `FailsNthWrite env N`: either
the N-th WRITE has not been sent, or the run stopped at it with a WRITE error. -/
def NthWritePost (N : Nat) (node : NodeId) (r : JobResult) (t : List Event) : Prop :=
  BeforeNthWrite N t
  ∨ ((∃ a c, r = JobResult.error (FwError.Write node a c)
            ∨ r = JobResult.error (FwError.FinalWrite node a c))
      ∧ StoppedAtNthWrite N node t)

/-- A node at bus address 5, for the examples. -/
def sampleNode : Node :=
  { State := NodeState.Bootloader, Id := 5, Udid := sampleUdid 1, LastSeen := 0,
    Attributes := [] }

/-- An environment whose transport acknowledges every request (with an empty payload)
until two WRITE commands have been sent and fails every wait from then on, and whose
client accepts every event. -/
def nackSecondWrite : Env :=
  { expect := fun t => if countWrites t < 2 then Except.ok [] else Except.error "timeout",
    put := fun _ => none }

/-- An image of one block of three bytes at the start of the application region. -/
def smallImage : NodeFirmware :=
  { Code := [{ Offset := 0x2000, Data := [1, 2, 3] }], Limit := 0 }

/-! ### The undisturbed upload -/

/-- The bytes of the page of `data` that starts at `page_offset`:
`data[page_offset .. min(page_offset+64, len))`. -/
def pageBytes (data : List Byte) (page_offset : Nat) : List Byte :=
  (data.drop page_offset).take 64

/-- At most `n` successive chunks of at most 8 bytes of `rest`, none of them empty. -/
def chunks8 : Nat → List Byte → List (List Byte)
  | 0, _ => []
  | n + 1, rest => if rest = [] then [] else rest.take 8 :: chunks8 n (rest.drop 8)

/-- The chunks of the page of `data` that starts at `page_offset`. -/
def pageChunks (data : List Byte) (page_offset : Nat) : List (List Byte) :=
  chunks8 8 (data.drop page_offset)

/-- The events of one page of an upload in which every wait and every Put succeeds:
`SET_ADDRESS` for the page's absolute address, a `WRITE` (parameter 0) per chunk, the
terminating `WRITE` (parameter 1) with the CRC-32 of the page, and the Update event. -/
def pageEvents (node : NodeId) (block : Block) (page_offset : Nat) : List Event :=
  [Event.Send node MessageType.SYS_BOOTLOADER_SET_ADDRESS 70
      (uint32ToBytes (block.Offset + page_offset)),
    Event.Expect node MessageType.SYS_BOOTLOADER_SET_ADDRESS_ACK]
  ++ (pageChunks block.Data page_offset).flatMap (fun c =>
        [Event.Send node MessageType.SYS_BOOTLOADER_WRITE 0 c,
         Event.Expect node MessageType.SYS_BOOTLOADER_WRITE_ACK])
  ++ [Event.Send node MessageType.SYS_BOOTLOADER_WRITE 1
        (uint32ToBytes (crc32Update 0 (pageBytes block.Data page_offset))),
      Event.Expect node MessageType.SYS_BOOTLOADER_WRITE_ACK,
      Event.PutProgress (Progress.Update (page_offset * 100 % 2 ^ 32 / block.Data.length) 0)]

/-- The events of the pages of a block from `page_offset` on, at most `n` of them. -/
def blockEventsFrom (node : NodeId) (block : Block) : Nat → Nat → List Event
  | 0, _ => []
  | n + 1, page_offset =>
    if page_offset < block.Data.length then
      pageEvents node block page_offset ++ blockEventsFrom node block n (page_offset + 64)
    else []

/-- The events of all pages of a block, in ascending order of page offset. -/
def blockEvents (node : NodeId) (block : Block) : List Event :=
  blockEventsFrom node block block.Data.length 0

/-- The events of an upload in which every wait and every Put succeeds, up to the last
page: set the address to the start of the application region, erase, then the blocks in
listed order. -/
def uploadBody (node : NodeId) (firmware : NodeFirmware) : List Event :=
  [Event.Send node MessageType.SYS_BOOTLOADER_SET_ADDRESS 70 (uint32ToBytes FLASH_APP_ORIGIN),
    Event.Expect node MessageType.SYS_BOOTLOADER_SET_ADDRESS_ACK,
    Event.Send node MessageType.SYS_BOOTLOADER_ERASE 0 [],
    Event.Expect node MessageType.SYS_BOOTLOADER_ERASE_ACK]
  ++ firmware.Code.flatMap (blockEvents node)

/-- The events of an upload in which every wait and every Put succeeds: `uploadBody`,
then the Success event. -/
def uploadEvents (node : NodeId) (firmware : NodeFirmware) : List Event :=
  uploadBody node firmware ++ [Event.PutProgress Progress.Success]

/-- A run that started with trace `t`, was to produce the events `X`, and stopped early
with result `r` and trace `t1`: it produced a prefix `P` of `X` and then either a wait
failed (the engine put one Failed event and returned an error other than `Sink`), or the
client refused the Update event that ends `P` (the engine returned that error), or the
fuel of the model ran out (`U` says how). -/
def Stopped (env : Env) (X : List Event) (U : Prop) (r : JobResult) (t t1 : List Event) :
    Prop :=
  ∃ P : List Event, P <+: X ∧
    ((∃ e cause, r = JobResult.error e ∧ (∀ c, e ≠ FwError.Sink c)
        ∧ env.expect (t ++ P) = Except.error cause
        ∧ t1 = t ++ P ++ [Event.PutProgress Progress.Failed])
     ∨ (∃ c pct bytes, r = JobResult.error (FwError.Sink c)
        ∧ P.getLast? = some (Event.PutProgress (Progress.Update pct bytes))
        ∧ env.put (t ++ P) = some c ∧ t1 = t ++ P)
     ∨ (r = JobResult.unfinished ∧ U ∧ t1 = t ++ P))

/-- A run that started with trace `t` and was to produce the events `X` ended as `w`
(result and trace): it either ran to its end, producing exactly `X`, or stopped early. -/
def Ran (env : Env) (X : List Event) (U : Prop) (t : List Event)
    (w : JobResult × List Event) : Prop :=
  (w.1 = JobResult.ok ∧ w.2 = t ++ X) ∨ Stopped env X U w.1 t w.2

/-- Every block is short enough for the 32-bit page counter of the upload: its length
plus one page does not exceed `2^32`. -/
def FitsCounter (firmware : NodeFirmware) : Prop :=
  ∀ b ∈ firmware.Code, b.Data.length + 64 ≤ 2 ^ 32

/-- A transport that acknowledges every request. -/
def AllAck (env : Env) : Prop :=
  ∀ t : List Event, ∃ payload, env.expect t = Except.ok payload

/-- A client that accepts every event. -/
def AllAccept (env : Env) : Prop :=
  ∀ t : List Event, env.put t = none

/-! ### Reading the commands of a trace -/

/-- The payload of a data `WRITE` command (parameter 0); no bytes for any other event. -/
def writeData : Event → List Byte
  | Event.Send _ MessageType.SYS_BOOTLOADER_WRITE 0 data => data
  | _ => []

/-- The bytes carried by the data `WRITE` commands (parameter 0) of a trace, concatenated
in the order sent. -/
def dataWrites (t : List Event) : List Byte :=
  t.flatMap writeData

/-- The 32-bit value that four bytes encode big-endian (what the bootloader reads from
the payload of a `SET_ADDRESS`). -/
def bytesToUint32 (d : List Byte) : Nat :=
  d.foldl (fun a b => a * 256 + b.val) 0

/-- The addresses carried by the `SET_ADDRESS` commands of a trace, in the order sent. -/
def setAddresses (t : List Event) : List Nat :=
  t.filterMap (fun e => match e with
    | Event.Send _ MessageType.SYS_BOOTLOADER_SET_ADDRESS _ data => some (bytesToUint32 data)
    | _ => none)

/-- An address inside the application region: at least `FLASH_APP_ORIGIN` (0x2000) and
below `FLASH_LENGTH` (0x40000). -/
def InRegion (a : Nat) : Prop :=
  FLASH_APP_ORIGIN ≤ a ∧ a < FLASH_LENGTH

/-- A client that accepts every Update progress event. -/
def AcceptsUpdates (env : Env) : Prop :=
  ∀ (t : List Event) (percent bytes : Nat),
    env.put (t ++ [Event.PutProgress (Progress.Update percent bytes)]) = none

/-- Enough fuel for the page loop of every block of the image. -/
def EnoughFuel (firmware : NodeFirmware) (fuel : Nat) : Prop :=
  ∀ b ∈ firmware.Code, b.Data.length ≤ 64 * fuel

/-- The page offsets `0, 64, 128, ...` below `len`. -/
def pageOffsets (len : Nat) : List Nat :=
  List.range' 0 ((len + 63) / 64) 64

/-- The commands of one page as the specification lists them: `SET_ADDRESS` for the
page's absolute address, one data `WRITE` per chunk of the page, and the terminating
`WRITE` carrying the CRC-32 of the page's bytes computed in one go. -/
def pageCommands (node : NodeId) (block : Block) (page_offset : Nat) : List Event :=
  Event.Send node MessageType.SYS_BOOTLOADER_SET_ADDRESS 70
      (uint32ToBytes (block.Offset + page_offset))
    :: (pageChunks block.Data page_offset).map (fun c =>
          Event.Send node MessageType.SYS_BOOTLOADER_WRITE 0 c)
    ++ [Event.Send node MessageType.SYS_BOOTLOADER_WRITE 1
          (uint32ToBytes (crc32Update 0 (pageBytes block.Data page_offset)))]

/-- The commands of an upload as the specification lists them: `SET_ADDRESS` for the
start of the application region, `ERASE`, then the pages of each block in listed order. -/
def uploadCommands (node : NodeId) (firmware : NodeFirmware) : List Event :=
  [Event.Send node MessageType.SYS_BOOTLOADER_SET_ADDRESS 70 (uint32ToBytes FLASH_APP_ORIGIN),
   Event.Send node MessageType.SYS_BOOTLOADER_ERASE 0 []]
  ++ firmware.Code.flatMap (fun b =>
      (pageOffsets b.Data.length).flatMap (pageCommands node b))

/-! ### Environments and images for the examples -/

/-- An environment whose transport acknowledges every request with an empty payload and
whose client accepts every event. -/
def quietEnv : Env :=
  { expect := fun _ => Except.ok [], put := fun _ => none }

/-- An environment whose transport acknowledges every request with an empty payload and
whose client refuses every Update progress event (and accepts the other events). -/
def deafClientEnv : Env :=
  { expect := fun _ => Except.ok [],
    put := fun t => match t.getLast? with
      | some (Event.PutProgress (Progress.Update _ _)) => some "client gone"
      | _ => none }

/-- An image of two blocks of one byte each. -/
def twoSmallBlocks : NodeFirmware :=
  { Code := [{ Offset := 0x2000, Data := [1] }, { Offset := 0x2040, Data := [2] }],
    Limit := 0 }

/-- An image of two blocks of two pages (65 bytes) each, with a read length of two
pages. -/
def twoBlockImage : NodeFirmware :=
  { Code := [{ Offset := 0x2000, Data := List.replicate 65 0 },
             { Offset := 0x3000, Data := List.replicate 65 0 }], Limit := 128 }

/-- An image of one block of one byte whose `Offset` is 0, inside the bootloader's part
of the flash. -/
def lowImage : NodeFirmware :=
  { Code := [{ Offset := 0, Data := [1] }], Limit := 0 }

/-- An image of one block of one byte whose `Offset` is `0x40000`, the first address
past the end of the flash. -/
def highImage : NodeFirmware :=
  { Code := [{ Offset := 0x40000, Data := [1] }], Limit := 0 }

/-- An image of one block of `2^32 + 10` zero bytes: its length does not fit 32 bits. -/
def hugeImage : NodeFirmware :=
  { Code := [{ Offset := 0x2000, Data := List.replicate (2 ^ 32 + 10) 0 }], Limit := 0 }

/-! ### The undisturbed download -/

/-- The effective length of a download: `memlength`, the smaller of `Limit` and
`FLASH_APP_LENGTH`. -/
def effectiveLength (firmware : NodeFirmware) : Nat :=
  if firmware.Limit > FLASH_APP_LENGTH then FLASH_APP_LENGTH else firmware.Limit

/-- The events of `n` successive reads: a `READ` request for 8 bytes and the wait for
its acknowledgment, `n` times. -/
def readEvents (node : NodeId) : Nat → List Event
  | 0 => []
  | n + 1 =>
    Event.Send node MessageType.SYS_BOOTLOADER_READ 8 []
      :: Event.Expect node MessageType.SYS_BOOTLOADER_READ_ACK :: readEvents node n

/-- The events of page `i` of a download in which every wait and every Put succeeds:
`SET_ADDRESS` for the address of the page, 8 reads, and the Update event. -/
def dlPageEvents (node : NodeId) (memlength i : Nat) : List Event :=
  [Event.Send node MessageType.SYS_BOOTLOADER_SET_ADDRESS 70
      (uint32ToBytes (FLASH_APP_ORIGIN + 64 * i)),
    Event.Expect node MessageType.SYS_BOOTLOADER_SET_ADDRESS_ACK]
  ++ readEvents node 8
  ++ [Event.PutProgress (Progress.Update (64 * (i + 1) * 100 / memlength) (64 * (i + 1)))]

/-- The events of `n` pages of an undisturbed download, from page `i` on. -/
def dlBodyFrom (node : NodeId) (memlength : Nat) : Nat → Nat → List Event
  | 0, _ => []
  | n + 1, i => dlPageEvents node memlength i ++ dlBodyFrom node memlength n (i + 1)

/-- The events of the pages of an undisturbed download of effective length `memlength`:
`memlength / 64` pages, in ascending order. -/
def dlBody (node : NodeId) (memlength : Nat) : List Event :=
  dlBodyFrom node memlength (memlength / 64) 0

/-- The payload that the wait `e` brings when it happens after the trace `t`: the payload
of the acknowledgment if `e` is a wait for a `READ` acknowledgment that succeeds, nothing
otherwise. -/
def replyOf (env : Env) (t : List Event) (e : Event) : List Byte :=
  match e, env.expect (t ++ [e]) with
  | Event.Expect _ MessageType.SYS_BOOTLOADER_READ_ACK, Except.ok payload => payload
  | _, _ => []

/-- The payloads of the `READ` acknowledgments that the transport gives while the events
`X` happen after the trace `t`, concatenated in arrival order. -/
def readReplies (env : Env) : List Event → List Event → List Byte
  | _, [] => []
  | t, e :: rest => replyOf env t e ++ readReplies env (t ++ [e]) rest

/-- The commands of a download as the specification lists them: for each page
`i = 0 .. memlength/64 - 1` in ascending order, `SET_ADDRESS` for `0x2000 + 64*i` followed
by 8 `READ` requests. -/
def downloadCommands (node : NodeId) (memlength : Nat) : List Event :=
  (List.range (memlength / 64)).flatMap (fun i =>
    Event.Send node MessageType.SYS_BOOTLOADER_SET_ADDRESS 70 (uint32ToBytes (0x2000 + 64 * i))
      :: List.replicate 8 (Event.Send node MessageType.SYS_BOOTLOADER_READ 8 []))

/-- An environment whose transport acknowledges every request with the same payload of
8 bytes and whose client accepts every event. -/
def eightByteEnv : Env :=
  { expect := fun _ => Except.ok [0, 1, 2, 3, 4, 5, 6, 7], put := fun _ => none }

/-- The percent values of the pages of a block of `len` bytes, as the engine computes
them: `(page_offset * 100) / len` on 32 bits, for the page offsets `0, 64, ...` below
`len`. -/
def blockPercents (len : Nat) : List Nat :=
  (pageOffsets len).map (fun page_offset => page_offset * 100 % 2 ^ 32 / len)

/-- The address that the error of an upload reports: the value formatted as
`address=0x%x` by the errors for a page's `SET_ADDRESS`, data WRITE and checksum WRITE;
`none` when the job returns no such error. -/
def reportedAddress : JobResult → Option Nat
  | JobResult.error (FwError.SetAddress _ a _) => some a
  | JobResult.error (FwError.Write _ a _) => some a
  | JobResult.error (FwError.FinalWrite _ a _) => some a
  | _ => none

/-! ### Attribute templates

A Go `string` is modelled by a Lean string, and where the code indexes or slices it by the
list of its characters. The patterns searched for, `$(` and `)`, are ASCII, so a search
over the characters and a search over the bytes of the UTF-8 encoding find the same
places. -/

/-- The table `hextable = "0123456789abcdef"` of the Go package `encoding/hex`. -/
def hextable : List Char :=
  "0123456789abcdef".data

/-- The function `hex.EncodeToString(src)`: for every byte `v` of `src` the characters
`hextable[v>>4]` and `hextable[v&0x0f]`. -/
def EncodeToString (src : List Byte) : List Char :=
  src.flatMap (fun v =>
    [hextable.get ⟨v.val / 16, Nat.div_lt_of_lt_mul v.isLt⟩,
     hextable.get ⟨v.val % 16, Nat.mod_lt _ (by decide)⟩])

/-- The method `(id Udid8) String()`: for `i` from 0 to `len(id) - 1`, append `":"` when
`i > 0`, then append `hex.EncodeToString(id[i : i+1])`. -/
def Udid8.String (id : Udid8) : List Char :=
  (List.range 8).foldl (fun retval i =>
    (if i > 0 then retval ++ [':'] else retval)
      ++ EncodeToString ((id.val.drop i).take 1)) []

/-- The digit of value `d < 16` in lowercase hexadecimal: `0` to `9`, then `a` to `f`. -/
def lowerHexDigit (d : Nat) : Char :=
  if d < 10 then Char.ofNat (48 + d) else Char.ofNat (87 + d)

/-- The function `fromHexChar` of `encoding/hex`: the value of a hexadecimal digit, in
either case; `none` for any other character. -/
def fromHexChar (c : Char) : Option Nat :=
  if 48 ≤ c.toNat ∧ c.toNat ≤ 57 then some (c.toNat - 48)
  else if 97 ≤ c.toNat ∧ c.toNat ≤ 102 then some (c.toNat - 97 + 10)
  else if 65 ≤ c.toNat ∧ c.toNat ≤ 70 then some (c.toNat - 65 + 10)
  else none

/-- The function `hex.Decode(dst, src)` for a source of two characters, as `DecodeString`
calls it: the byte decoded, or the error for the first character that is not a
hexadecimal digit. -/
def Decode (a b : Char) : Except String Byte :=
  match fromHexChar a, fromHexChar b with
  | none, _ => Except.error "encoding/hex: invalid byte"
  | some _, none => Except.error "encoding/hex: invalid byte"
  | some x, some y => Except.ok (Fin.ofNat (x * 16 + y))

/-- How a call of `DecodeString` ends: it returns nil, it returns an error, or it stops
in the run-time panic of a slice expression out of range. -/
inductive DecodeResult where
  | nil
  | error (msg : String)
  | outOfRange
deriving DecidableEq

/-- The loop of `DecodeString`, `for i := 0; i < len(s); i += 3`, over the remaining
values of `i`. `id[i/3 : i/3+1]` is out of range when `i/3 + 1 > 8`. `src[i : i+2]` is taken
as out of range when `i + 2` exceeds the length of the string (Go allows it up to the
capacity of `src`, which the language leaves open, and then reads bytes that are not part
of the string). The loop does not look at the number of groups. -/
def decodeSteps (src : List Char) : List Nat → DecodeResult
  | [] => DecodeResult.nil
  | i :: rest =>
    if 8 < i / 3 + 1 then DecodeResult.outOfRange
    else
      match src.get? i, src.get? (i + 1) with
      | some a, some b =>
        match Decode a b with
        | Except.error err => DecodeResult.error err
        | Except.ok _ =>
          if i > 0 ∧ src.get? (i - 1) ≠ some ':' then
            DecodeResult.error "expected ':' in hex identifier"
          else decodeSteps src rest
      | _, _ => DecodeResult.outOfRange

/-- The method `(id Udid8) DecodeString(s)`. The receiver is a copy of the array, so the
bytes decoded are not kept; what the caller gets is the error value. The test
`len(id) < 8` is on the array of 8 bytes, not on the string. -/
def Udid8.DecodeString (id : Udid8) (s : List Char) : DecodeResult :=
  if id.val.length < 8 then DecodeResult.error "Insufficient space to store node uid"
  else decodeSteps s ((List.range ((s.length + 2) / 3)).map (· * 3))

/-- The client has accepted every Update progress event of the trace `t`: for every
initial part of `t` that ends with an Update event, the Put of that event returned nil. -/
def UpdatesAccepted (env : Env) (t : List Event) : Prop :=
  ∀ (P : List Event) (percent bytes : Nat),
    P ++ [Event.PutProgress (Progress.Update percent bytes)] <+: t →
    env.put (P ++ [Event.PutProgress (Progress.Update percent bytes)]) = none

/-- The job ended at an Update progress event that the client refused: the trace `t` ends
with that event, every Update event before it was accepted, the Put of it returned an
error, and the job returned that error. -/
def RejectedUpdate (env : Env) (r : JobResult) (t : List Event) : Prop :=
  ∃ (P : List Event) (percent bytes : Nat) (c : String),
    t = P ++ [Event.PutProgress (Progress.Update percent bytes)]
    ∧ UpdatesAccepted env P
    ∧ env.put t = some c
    ∧ r = JobResult.error (FwError.Sink c)

/-! # Theorems -/

/-! ## The scan loop and the cache -/

theorem scanSlots_some {cond : NodeId → Bool} : ∀ (fuel i : Nat) (j : NodeId),
    scanSlots cond i fuel = some j →
    i ≤ j.val ∧ cond j = true ∧ ∀ k : NodeId, i ≤ k.val → k.val < j.val → cond k = false := by
  intro fuel
  induction fuel with
  | zero => intro i j h; simp [scanSlots] at h
  | succ n ih =>
    intro i j h
    unfold scanSlots at h
    split at h
    · rename_i hi
      split at h
      · rename_i hc
        cases h
        refine ⟨le_refl _, hc, ?_⟩
        intro k h1 h2
        simp at h2
        omega
      · rename_i hc
        obtain ⟨h1, h2, h3⟩ := ih (i + 1) j h
        refine ⟨by omega, h2, ?_⟩
        intro k hk1 hk2
        by_cases hki : k.val = i
        · have hk : k = ⟨i, hi⟩ := Fin.ext hki
          subst hk
          simpa using hc
        · exact h3 k (by omega) hk2
    · simp at h

theorem scanSlots_none {cond : NodeId → Bool} : ∀ (fuel i : Nat),
    scanSlots cond i fuel = none → 128 ≤ i + fuel →
    ∀ k : NodeId, i ≤ k.val → cond k = false := by
  intro fuel
  induction fuel with
  | zero =>
    intro i _ hf k hk
    have := k.isLt
    omega
  | succ n ih =>
    intro i h hf k hk
    unfold scanSlots at h
    split at h
    · rename_i hi
      split at h
      · simp at h
      · rename_i hc
        by_cases hki : k.val = i
        · have hk2 : k = ⟨i, hi⟩ := Fin.ext hki
          subst hk2
          simpa using hc
        · exact ih (i + 1) h (by omega) k (by omega)
    · have := k.isLt
      omega

theorem nodeId_ne_zero_iff (k : NodeId) : k ≠ 0 ↔ 1 ≤ k.val := by
  constructor
  · intro h
    rcases Nat.eq_zero_or_pos k.val with h0 | h0
    · exact absurd (Fin.ext h0) h
    · exact h0
  · intro h h0
    rw [h0] at h
    simp at h

theorem NodeCacheLookup_mem : ∀ (c : NodeCache) (Z : Udid8),
    NodeCacheLookup c Z ≠ 0 → ∃ e ∈ c, e.1 = Z := by
  intro c
  induction c with
  | nil => intro Z h; simp [NodeCacheLookup] at h
  | cons e rest ih =>
    intro Z h
    obtain ⟨v, a⟩ := e
    by_cases hv : v = Z
    · exact ⟨(v, a), by simp, hv⟩
    · simp only [NodeCacheLookup, if_neg hv] at h
      split at h
      · exact absurd rfl h
      · obtain ⟨e, he, hz⟩ := ih Z h
        exact ⟨e, List.mem_cons_of_mem _ he, hz⟩

theorem NodeCacheLookup_inj : ∀ (c : NodeCache) (u v : Udid8),
    NodeCacheLookup c u = NodeCacheLookup c v → NodeCacheLookup c u ≠ 0 → u = v := by
  intro c
  induction c with
  | nil => intro u v _ h; simp [NodeCacheLookup] at h
  | cons e rest ih =>
    intro u v heq hne
    obtain ⟨k, a⟩ := e
    by_cases hku : k = u
    · by_cases hkv : k = v
      · rw [← hku, ← hkv]
      · simp only [NodeCacheLookup, if_pos hku, if_neg hkv] at heq hne
        split at heq
        · exact absurd heq hne
        · rename_i hva
          exact absurd heq.symm hva
    · simp only [NodeCacheLookup, if_neg hku] at heq hne
      split at hne
      · exact absurd rfl hne
      · rename_i hua
        rw [if_neg hua] at heq
        by_cases hkv : k = v
        · rw [if_pos hkv] at heq
          exact absurd heq hua
        · rw [if_neg hkv] at heq
          split at heq
          · exact absurd heq hne
          · exact ih u v heq hne

theorem NodeCacheReverseLookup_iff (c : NodeCache) (i : NodeId) :
    NodeCacheReverseLookup c i = true ↔ i ≠ 0 ∧ ∃ Z, NodeCacheLookup c Z = i := by
  unfold NodeCacheReverseLookup
  simp only [Bool.and_eq_true, decide_eq_true_eq, List.any_eq_true]
  constructor
  · rintro ⟨h0, e, _, he⟩
    exact ⟨h0, e.1, he⟩
  · rintro ⟨h0, Z, hZ⟩
    refine ⟨h0, ?_⟩
    obtain ⟨e, he, hz⟩ := NodeCacheLookup_mem c Z (by rw [hZ]; exact h0)
    exact ⟨e, he, by rw [hz]; exact hZ⟩

theorem NodeCacheReverseLookup_false_iff (c : NodeCache) (i : NodeId) (h0 : i ≠ 0) :
    NodeCacheReverseLookup c i = false ↔ ∀ Z, NodeCacheLookup c Z ≠ i := by
  rw [← Bool.not_eq_true, NodeCacheReverseLookup_iff]
  constructor
  · intro h Z hZ
    exact h ⟨h0, Z, hZ⟩
  · rintro h ⟨_, Z, hZ⟩
    exact h Z hZ

theorem NodeCacheLookup_SetEntry_self (c : NodeCache) (u : Udid8) (a : NodeId) :
    NodeCacheLookup (NodeCacheSetEntry c u a) u = a := by
  simp [NodeCacheSetEntry, NodeCacheLookup]

/-! ### The allocation block -/

theorem claimSlot_fst (w : World) (u : Udid8) (i : NodeId) (now : Nat) :
    (claimSlot w u i now).1 = Except.ok w.next := rfl

theorem claimSlot_Nodes (w : World) (u : Udid8) (i : NodeId) (now : Nat) :
    (claimSlot w u i now).2.nc.Nodes = Function.update w.nc.Nodes i (some w.next) := rfl

theorem claimSlot_Udids (w : World) (u : Udid8) (i : NodeId) (now : Nat) :
    (claimSlot w u i now).2.nc.Udids = Function.update w.nc.Udids u (some w.next) := rfl

theorem claimSlot_next (w : World) (u : Udid8) (i : NodeId) (now : Nat) :
    (claimSlot w u i now).2.next = w.next + 1 := rfl

theorem claimSlot_cache (w : World) (u : Udid8) (i : NodeId) (now : Nat) :
    (claimSlot w u i now).2.cache = NodeCacheSetEntry w.cache u i := rfl

theorem claimSlot_heap_new (w : World) (u : Udid8) (i : NodeId) (now : Nat) :
    (claimSlot w u i now).2.heap w.next =
      { State := NodeState.Unknown, Id := i, Udid := u, LastSeen := now, Attributes := [] } := by
  simp [claimSlot, NewNode, Touch]

theorem claimSlot_heap_old (w : World) (u : Udid8) (i : NodeId) (now : Nat) (p : Nat)
    (hp : p ≠ w.next) : (claimSlot w u i now).2.heap p = w.heap p := by
  simp [claimSlot, NewNode, Touch, Function.update, hp]

/-- The shape of `Register` on a non-null identifier that is not in the reverse mapping:
which of the three passes picked the slot, or that none could. -/
theorem Register_new_spec (w : World) (X : Udid8) (now : Nat)
    (hX : X ≠ NullUdid8) (hnew : w.nc.Udids X = none) :
    (∃ a : NodeId, a ≠ 0 ∧ w.nc.Nodes a = none ∧ Register w X now = claimSlot w X a now ∧
      (NodeCacheLookup w.cache X = a
       ∨ (¬ (NodeCacheLookup w.cache X ≠ 0 ∧ w.nc.Nodes (NodeCacheLookup w.cache X) = none)
          ∧ NodeCacheReverseLookup w.cache a = false
          ∧ ∀ k : NodeId, k ≠ 0 → k.val < a.val →
              ¬ (w.nc.Nodes k = none ∧ NodeCacheReverseLookup w.cache k = false))
       ∨ (¬ (NodeCacheLookup w.cache X ≠ 0 ∧ w.nc.Nodes (NodeCacheLookup w.cache X) = none)
          ∧ (∀ k : NodeId, k ≠ 0 → w.nc.Nodes k = none →
              NodeCacheReverseLookup w.cache k = true)
          ∧ ∀ k : NodeId, k ≠ 0 → k.val < a.val → w.nc.Nodes k ≠ none)))
    ∨ (Register w X now = (Except.error RegistryFull, w)
       ∧ ∀ k : NodeId, k ≠ 0 → w.nc.Nodes k ≠ none) := by
  have hL : Lookup w.nc X = none := by simp [Lookup, hnew]
  unfold Register
  rw [if_neg hX]
  simp only [hL]
  by_cases h1 : NodeCacheLookup w.cache X ≠ 0 ∧ w.nc.Nodes (NodeCacheLookup w.cache X) = none
  · rw [if_pos h1]
    exact Or.inl ⟨_, h1.1, h1.2, rfl, Or.inl rfl⟩
  · rw [if_neg h1]
    cases h2 : scanSlots (fun i => decide (w.nc.Nodes i = none)
                                    && (NodeCacheReverseLookup w.cache i == false)) 1 127 with
    | some a =>
      obtain ⟨ha1, hac, hal⟩ := scanSlots_some 127 1 a h2
      simp only [Bool.and_eq_true, decide_eq_true_eq, beq_iff_eq] at hac
      refine Or.inl ⟨a, (nodeId_ne_zero_iff a).2 ha1, hac.1, rfl, Or.inr (Or.inl ⟨h1, hac.2, ?_⟩)⟩
      intro k hk0 hka hk
      have := hal k ((nodeId_ne_zero_iff k).1 hk0) hka
      simp [hk.1, hk.2] at this
    | none =>
      have hn2 := scanSlots_none 127 1 h2 (by omega)
      have hres : ∀ k : NodeId, k ≠ 0 → w.nc.Nodes k = none →
          NodeCacheReverseLookup w.cache k = true := by
        intro k hk0 hkf
        have := hn2 k ((nodeId_ne_zero_iff k).1 hk0)
        simpa [hkf] using this
      cases h3 : scanSlots (fun i => decide (w.nc.Nodes i = none)) 1 127 with
      | some a =>
        obtain ⟨ha1, hac, hal⟩ := scanSlots_some 127 1 a h3
        simp only [decide_eq_true_eq] at hac
        refine Or.inl ⟨a, (nodeId_ne_zero_iff a).2 ha1, hac, rfl, Or.inr (Or.inr ⟨h1, hres, ?_⟩)⟩
        intro k hk0 hka hk
        have := hal k ((nodeId_ne_zero_iff k).1 hk0) hka
        simp [hk] at this
      | none =>
        have hn3 := scanSlots_none 127 1 h3 (by omega)
        refine Or.inr ⟨rfl, ?_⟩
        intro k hk0 hk
        have := hn3 k ((nodeId_ne_zero_iff k).1 hk0)
        simp [hk] at this

/-! ## Register -/

theorem Lookup_eq (nc : NodeCollection) (u : Udid8) : Lookup nc u = nc.Udids u := by
  unfold Lookup
  cases nc.Udids u <;> rfl

theorem Find_eq (nc : NodeCollection) (i : NodeId) : Find nc i = nc.Nodes i := by
  unfold Find
  rw [if_neg]
  exact not_lt.mpr (Int.ofNat_nonneg _)

/-- `Register` on an identifier that the reverse mapping knows. -/
theorem Register_known (w : World) (X : Udid8) (now : Nat) (p : Nat)
    (hX : X ≠ NullUdid8) (hreg : w.nc.Udids X = some p) :
    Register w X now =
      (Except.ok p,
       { w with heap := Function.update w.heap p
                  { w.heap p with State := NodeState.Connecting } }) := by
  have hL : Lookup w.nc X = some p := by simp [Lookup, hreg]
  unfold Register
  rw [if_neg hX]
  simp only [hL]

/-- If `Register` returns a node, the reverse mapping afterwards sends the identifier to it. -/
theorem Register_ok_Udids (w : World) (X : Udid8) (now : Nat) (p : Nat)
    (h : (Register w X now).1 = Except.ok p) :
    X ≠ NullUdid8 ∧ (Register w X now).2.nc.Udids X = some p := by
  by_cases hX : X = NullUdid8
  · simp [Register, hX] at h
  · refine ⟨hX, ?_⟩
    cases hreg : w.nc.Udids X with
    | some q =>
      rw [Register_known w X now q hX hreg] at h ⊢
      simp only [Except.ok.injEq] at h
      rw [← h]
      exact hreg
    | none =>
      rcases Register_new_spec w X now hX hreg with ⟨a, _, _, hr, _⟩ | ⟨hr, _⟩
      · rw [hr] at h ⊢
        rw [claimSlot_fst] at h
        simp only [Except.ok.injEq] at h
        rw [claimSlot_Udids, ← h]
        simp
      · rw [hr] at h
        simp at h

/-- C1. When a non-null identifier X is already registered (the reverse mapping sends it
to node p, whose address is a, in whatever state), Register(X) succeeds and returns p with
address a and state Connecting, and the table and the reverse mapping are unchanged; and
whenever a Register(X) call returns a node, the next Register(X) call returns the same
node with the same address, in state Connecting. -/
theorem Register_already_registered (w : World) (X : Udid8) (now now2 : Nat)
    (hX : X ≠ NullUdid8) :
    (∀ (p : Nat) (a : NodeId), Lookup w.nc X = some p → (w.heap p).Id = a →
      (Register w X now).1 = Except.ok p
      ∧ ((Register w X now).2.heap p).Id = a
      ∧ ((Register w X now).2.heap p).State = NodeState.Connecting
      ∧ (Register w X now).2.nc.Nodes = w.nc.Nodes
      ∧ (Register w X now).2.nc.Udids = w.nc.Udids
      ∧ (Register w X now).2.cache = w.cache)
    ∧ (∀ p : Nat, (Register w X now).1 = Except.ok p →
      (Register (Register w X now).2 X now2).1 = Except.ok p
      ∧ ((Register (Register w X now).2 X now2).2.heap p).Id
          = ((Register w X now).2.heap p).Id
      ∧ ((Register (Register w X now).2 X now2).2.heap p).State = NodeState.Connecting
      ∧ (Register (Register w X now).2 X now2).2.nc.Nodes = (Register w X now).2.nc.Nodes
      ∧ (Register (Register w X now).2 X now2).2.nc.Udids = (Register w X now).2.nc.Udids) := by
  constructor
  · intro p a hreg ha
    rw [Lookup_eq] at hreg
    rw [Register_known w X now p hX hreg]
    simp [ha]
  · intro p h
    obtain ⟨_, hU⟩ := Register_ok_Udids w X now p h
    rw [Register_known (Register w X now).2 X now2 p hX hU]
    simp

/-- Witness for C1: the state with `sampleUdid 1` registered at address 1. -/
theorem Register_already_registered_witness :
    (Register oneNodeWorld (sampleUdid 1) 5).1 = Except.ok 0
    ∧ ((Register oneNodeWorld (sampleUdid 1) 5).2.heap 0).Id = 1
    ∧ ((Register oneNodeWorld (sampleUdid 1) 5).2.heap 0).State = NodeState.Connecting
    ∧ (Register (Register oneNodeWorld (sampleUdid 1) 5).2 (sampleUdid 1) 6).1 = Except.ok 0 := by
  have h := Register_already_registered oneNodeWorld (sampleUdid 1) 5 6 (by decide)
  have h1 := h.1 0 1 (by decide) (by decide)
  exact ⟨h1.1, h1.2.1, h1.2.2.1, (h.2 0 h1.1).1⟩

/-- C6. Register with the null identifier fails with the InvalidIdentifier error, returns
no node, and leaves the whole machine state (table, reverse mapping, cache, heap)
unchanged. -/
theorem Register_null (w : World) (now : Nat) :
    Register w NullUdid8 now = (Except.error InvalidIdentifier, w) := by
  simp [Register]

/-- C3. For a non-null identifier X that is not registered, whose cached address a is
non-zero with table slot a free, Register(X) succeeds with a node of address a and
identifier X, and afterwards Find(a) and Lookup(X) both return that node. -/
theorem Register_cached_address (w : World) (X : Udid8) (now : Nat) (a : NodeId)
    (hX : X ≠ NullUdid8) (hnew : Lookup w.nc X = none)
    (hc : NodeCacheLookup w.cache X = a) (ha : a ≠ 0) (hfree : w.nc.Nodes a = none) :
    ∃ p : Nat, (Register w X now).1 = Except.ok p
      ∧ ((Register w X now).2.heap p).Id = a
      ∧ ((Register w X now).2.heap p).Udid = X
      ∧ Find (Register w X now).2.nc a = some p
      ∧ Lookup (Register w X now).2.nc X = some p := by
  have hnew2 : w.nc.Udids X = none := by
    unfold Lookup at hnew
    split at hnew
    · simp at hnew
    · assumption
  have hL : Lookup w.nc X = none := hnew
  have hr : Register w X now = claimSlot w X a now := by
    unfold Register
    rw [if_neg hX]
    simp only [hL]
    rw [if_pos ⟨by rw [hc]; exact ha, by rw [hc]; exact hfree⟩, hc]
  refine ⟨w.next, ?_, ?_, ?_, ?_, ?_⟩
  · rw [hr, claimSlot_fst]
  · rw [hr, claimSlot_heap_new]
  · rw [hr, claimSlot_heap_new]
  · rw [hr]
    simp [Find, claimSlot_Nodes]
  · rw [hr]
    simp [Lookup, claimSlot_Udids]

/-- Witness for C3: the cache maps `sampleUdid 9` to address 5; with every slot free
(also the lower ones) it is registered at address 5. -/
theorem Register_cached_address_witness :
    ∃ p : Nat, (Register (emptyWorld zeroHeap 0 [(sampleUdid 9, 5)]) (sampleUdid 9) 0).1
        = Except.ok p
      ∧ ((Register (emptyWorld zeroHeap 0 [(sampleUdid 9, 5)]) (sampleUdid 9) 0).2.heap p).Id = 5
      ∧ Find (Register (emptyWorld zeroHeap 0 [(sampleUdid 9, 5)]) (sampleUdid 9) 0).2.nc 5
          = some p := by
  obtain ⟨p, h1, h2, _, h4, _⟩ :=
    Register_cached_address (emptyWorld zeroHeap 0 [(sampleUdid 9, 5)]) (sampleUdid 9) 0 5
      (by decide) rfl (by decide) (by decide) rfl
  exact ⟨p, h1, h2, h4⟩

/-- C4. For a non-null, unregistered identifier X whose cached address is absent or
occupied: if some address i in 1..127 is free and not claimed in the cache by an
identifier other than X, then Register(X) succeeds with an address that is itself free,
non-zero and not claimed in the cache by another identifier, and that is the lowest such
address. -/
theorem Register_lowest_unreserved (w : World) (X : Udid8) (now : Nat) (i : NodeId)
    (hX : X ≠ NullUdid8) (hnew : Lookup w.nc X = none)
    (hcache : NodeCacheLookup w.cache X = 0 ∨ w.nc.Nodes (NodeCacheLookup w.cache X) ≠ none)
    (hi0 : i ≠ 0) (hifree : w.nc.Nodes i = none)
    (hires : ∀ Z : Udid8, Z ≠ X → NodeCacheLookup w.cache Z ≠ i) :
    ∃ p : Nat, (Register w X now).1 = Except.ok p
      ∧ ((Register w X now).2.heap p).Id ≠ 0
      ∧ w.nc.Nodes ((Register w X now).2.heap p).Id = none
      ∧ (∀ Z : Udid8, Z ≠ X →
          NodeCacheLookup w.cache Z ≠ ((Register w X now).2.heap p).Id)
      ∧ (∀ j : NodeId, j ≠ 0 → w.nc.Nodes j = none →
          (∀ Z : Udid8, Z ≠ X → NodeCacheLookup w.cache Z ≠ j) →
          ((Register w X now).2.heap p).Id ≤ j) := by
  rw [Lookup_eq] at hnew
  have hown : ∀ j : NodeId, j ≠ 0 → w.nc.Nodes j = none → NodeCacheLookup w.cache X ≠ j := by
    intro j hj0 hjf hxj
    rcases hcache with h | h
    · exact hj0 (by rw [← hxj, h])
    · exact h (by rw [hxj]; exact hjf)
  have hrev : ∀ j : NodeId, j ≠ 0 → w.nc.Nodes j = none →
      (∀ Z : Udid8, Z ≠ X → NodeCacheLookup w.cache Z ≠ j) →
      NodeCacheReverseLookup w.cache j = false := by
    intro j hj0 hjf hjr
    rw [NodeCacheReverseLookup_false_iff _ _ hj0]
    intro Z hZ
    by_cases hZX : Z = X
    · exact hown j hj0 hjf (by rw [← hZX]; exact hZ)
    · exact hjr Z hZX hZ
  rcases Register_new_spec w X now hX hnew with ⟨a, ha0, haf, hr, hpass⟩ | ⟨_, hfull⟩
  · refine ⟨w.next, by rw [hr, claimSlot_fst], ?_⟩
    rw [hr, claimSlot_heap_new]
    simp only
    rcases hpass with h1 | ⟨_, h2, h2min⟩ | ⟨_, h3, _⟩
    · exact absurd h1 (hown a ha0 haf)
    · refine ⟨ha0, haf, ?_, ?_⟩
      · intro Z _
        exact (NodeCacheReverseLookup_false_iff _ _ ha0).1 h2 Z
      · intro j hj0 hjf hjr
        by_contra hlt
        have hlt2 : j.val < a.val := by
          have := Fin.not_le.mp hlt
          exact this
        exact h2min j hj0 hlt2 ⟨hjf, hrev j hj0 hjf hjr⟩
    · have := h3 i hi0 hifree
      rw [hrev i hi0 hifree hires] at this
      simp at this
  · exact absurd hifree (hfull i hi0)

/-- Witness for C4: addresses 1 and 2 are cache-reserved for two other identifiers,
every slot is free, and a new identifier is given address 3. -/
theorem Register_lowest_unreserved_witness :
    ∃ p : Nat,
      (Register (emptyWorld zeroHeap 0 [(sampleUdid 7, 1), (sampleUdid 8, 2)])
        (sampleUdid 1) 0).1 = Except.ok p
      ∧ ((Register (emptyWorld zeroHeap 0 [(sampleUdid 7, 1), (sampleUdid 8, 2)])
        (sampleUdid 1) 0).2.heap p).Id = 3 := by
  have hres : ∀ Z : Udid8, Z ≠ sampleUdid 1 →
      NodeCacheLookup (emptyWorld zeroHeap 0 [(sampleUdid 7, 1), (sampleUdid 8, 2)]).cache Z
        ≠ 3 := by
    intro Z _
    simp only [emptyWorld, NodeCacheLookup]
    split_ifs <;> decide
  obtain ⟨p, hp, h0, _, hr, hmin⟩ :=
    Register_lowest_unreserved (emptyWorld zeroHeap 0 [(sampleUdid 7, 1), (sampleUdid 8, 2)])
      (sampleUdid 1) 0 3 (by decide) (by decide) (Or.inl (by decide)) (by decide) rfl hres
  refine ⟨p, hp, ?_⟩
  have hle := hmin 3 (by decide) rfl hres
  have h1 := hr (sampleUdid 7) (by decide)
  have h2 := hr (sampleUdid 8) (by decide)
  generalize ((Register (emptyWorld zeroHeap 0 [(sampleUdid 7, 1), (sampleUdid 8, 2)])
        (sampleUdid 1) 0).2.heap p).Id = a at h0 h1 h2 hle ⊢
  have e1 : NodeCacheLookup (emptyWorld zeroHeap 0 [(sampleUdid 7, 1), (sampleUdid 8, 2)]).cache
      (sampleUdid 7) = 1 := by decide
  have e2 : NodeCacheLookup (emptyWorld zeroHeap 0 [(sampleUdid 7, 1), (sampleUdid 8, 2)]).cache
      (sampleUdid 8) = 2 := by decide
  rw [e1] at h1
  rw [e2] at h2
  revert a
  decide

/-- C5. For a non-null, unregistered identifier X and any cache content: if at least one
address in 1..127 is free, Register(X) succeeds, with a non-zero address that was free,
and the cache afterwards associates X with that address; and when every free address in
1..127 is cache-reserved for an identifier other than X, the address is the lowest free
one. -/
theorem Register_never_refuses (w : World) (X : Udid8) (now : Nat) (i : NodeId)
    (hX : X ≠ NullUdid8) (hnew : Lookup w.nc X = none)
    (hi0 : i ≠ 0) (hifree : w.nc.Nodes i = none) :
    ∃ p : Nat, (Register w X now).1 = Except.ok p
      ∧ ((Register w X now).2.heap p).Id ≠ 0
      ∧ w.nc.Nodes ((Register w X now).2.heap p).Id = none
      ∧ NodeCacheLookup (Register w X now).2.cache X = ((Register w X now).2.heap p).Id
      ∧ ((∀ j : NodeId, j ≠ 0 → w.nc.Nodes j = none →
            ∃ Z : Udid8, Z ≠ X ∧ NodeCacheLookup w.cache Z = j) →
          ∀ j : NodeId, j ≠ 0 → w.nc.Nodes j = none →
            ((Register w X now).2.heap p).Id ≤ j) := by
  rw [Lookup_eq] at hnew
  rcases Register_new_spec w X now hX hnew with ⟨a, ha0, haf, hr, hpass⟩ | ⟨_, hfull⟩
  · refine ⟨w.next, by rw [hr, claimSlot_fst], ?_⟩
    rw [hr, claimSlot_heap_new, claimSlot_cache, NodeCacheLookup_SetEntry_self]
    simp only
    refine ⟨ha0, haf, trivial, ?_⟩
    intro hall j hj0 hjf
    obtain ⟨Z, hZX, hZ⟩ := hall a ha0 haf
    rcases hpass with h1 | ⟨_, h2, _⟩ | ⟨_, _, h3min⟩
    · exact absurd (NodeCacheLookup_inj w.cache Z X (by rw [hZ, h1]) (by rw [hZ]; exact ha0)) hZX
    · exact absurd hZ ((NodeCacheReverseLookup_false_iff _ _ ha0).1 h2 Z)
    · by_contra hlt
      exact h3min j hj0 (Fin.not_le.mp hlt) hjf
  · exact absurd hifree (hfull i hi0)

/-- Witness for C5: slot 5 is the only free one and is reserved for another identifier;
a new identifier is registered at address 5 and the cache then gives it address 5. -/
theorem Register_never_refuses_witness :
    ∃ p : Nat, (Register crowdedWorld (sampleUdid 1) 0).1 = Except.ok p
      ∧ ((Register crowdedWorld (sampleUdid 1) 0).2.heap p).Id = 5
      ∧ NodeCacheLookup (Register crowdedWorld (sampleUdid 1) 0).2.cache (sampleUdid 1) = 5 := by
  obtain ⟨p, hp, h0, hf, hc, _⟩ :=
    Register_never_refuses crowdedWorld (sampleUdid 1) 0 5 (by decide) rfl (by decide) rfl
  have h5 : ((Register crowdedWorld (sampleUdid 1) 0).2.heap p).Id = 5 := by
    generalize ((Register crowdedWorld (sampleUdid 1) 0).2.heap p).Id = a at h0 hf
    simp only [crowdedWorld] at hf
    by_contra h
    simp [h0, h] at hf
  exact ⟨p, hp, h5, by rw [hc, h5]⟩

theorem RegistryInv_emptyWorld (heap : Nat → Node) (next : Nat) (cache : NodeCache) :
    RegistryInv (emptyWorld heap next cache) ∧ Allocated (emptyWorld heap next cache) := by
  constructor
  · constructor <;> simp [emptyWorld, NewNodeCollection]
  · constructor <;> simp [emptyWorld, NewNodeCollection]

theorem claimSlot_preserves (w : World) (X : Udid8) (a : NodeId) (now : Nat)
    (hinv : RegistryInv w) (hal : Allocated w)
    (hnew : w.nc.Udids X = none) (ha0 : a ≠ 0) (haf : w.nc.Nodes a = none) :
    RegistryInv (claimSlot w X a now).2 ∧ Allocated (claimSlot w X a now).2 := by
  have hold : ∀ p, p < w.next → (claimSlot w X a now).2.heap p = w.heap p :=
    fun p hp => claimSlot_heap_old w X a now p (Nat.ne_of_lt hp)
  constructor
  · constructor
    · intro i p h
      rw [claimSlot_Nodes] at h
      by_cases hi : i = a
      · subst hi
        simp at h
        rw [← h, claimSlot_heap_new]
      · rw [Function.update_noteq hi] at h
        rw [hold p (hal.table i p h)]
        exact hinv.addr i p h
    · intro i p h
      rw [claimSlot_Nodes] at h
      rw [claimSlot_Udids]
      by_cases hi : i = a
      · subst hi
        simp at h
        rw [← h, claimSlot_heap_new]
        simp
      · rw [Function.update_noteq hi] at h
        rw [hold p (hal.table i p h)]
        have hf := hinv.fwd i p h
        have hne : (w.heap p).Udid ≠ X := by
          intro hx
          rw [hx, hnew] at hf
          simp at hf
        rw [Function.update_noteq hne]
        exact hf
    · intro u p h
      rw [claimSlot_Udids] at h
      by_cases hu : u = X
      · subst hu
        simp at h
        rw [← h, claimSlot_heap_new]
      · rw [Function.update_noteq hu] at h
        rw [hold p (hal.map u p h)]
        exact hinv.key u p h
    · intro u p h
      rw [claimSlot_Udids] at h
      rw [claimSlot_Nodes]
      by_cases hu : u = X
      · subst hu
        simp at h
        rw [← h, claimSlot_heap_new]
        simp
      · rw [Function.update_noteq hu] at h
        rw [hold p (hal.map u p h)]
        have hb := hinv.bwd u p h
        have hne : (w.heap p).Id ≠ a := by
          intro hx
          rw [hx, haf] at hb
          simp at hb
        rw [Function.update_noteq hne]
        exact hb
    · rw [claimSlot_Nodes, Function.update_noteq (Ne.symm ha0)]
      exact hinv.zero
  · constructor
    · intro i p h
      rw [claimSlot_Nodes] at h
      rw [claimSlot_next]
      by_cases hi : i = a
      · subst hi
        simp at h
        omega
      · rw [Function.update_noteq hi] at h
        exact Nat.lt_succ_of_lt (hal.table i p h)
    · intro u p h
      rw [claimSlot_Udids] at h
      rw [claimSlot_next]
      by_cases hu : u = X
      · subst hu
        simp at h
        omega
      · rw [Function.update_noteq hu] at h
        exact Nat.lt_succ_of_lt (hal.map u p h)

theorem setState_preserves (w : World) (p : Nat) (s : NodeState)
    (hinv : RegistryInv w) (hal : Allocated w) :
    RegistryInv { w with heap := Function.update w.heap p { w.heap p with State := s } }
    ∧ Allocated { w with heap := Function.update w.heap p { w.heap p with State := s } } := by
  have hId : ∀ q, (Function.update w.heap p { w.heap p with State := s } q).Id = (w.heap q).Id := by
    intro q
    by_cases hq : q = p
    · subst hq; simp
    · rw [Function.update_noteq hq]
  have hUd : ∀ q, (Function.update w.heap p { w.heap p with State := s } q).Udid
      = (w.heap q).Udid := by
    intro q
    by_cases hq : q = p
    · subst hq; simp
    · rw [Function.update_noteq hq]
  constructor
  · constructor
    · intro i q h
      simp only [hId]
      exact hinv.addr i q h
    · intro i q h
      simp only [hUd]
      exact hinv.fwd i q h
    · intro u q h
      simp only [hUd]
      exact hinv.key u q h
    · intro u q h
      simp only [hId]
      exact hinv.bwd u q h
    · exact hinv.zero
  · exact ⟨hal.table, hal.map⟩

/-- `Register` keeps the registry invariants. -/
theorem Register_preserves (w : World) (X : Udid8) (now : Nat)
    (hinv : RegistryInv w) (hal : Allocated w) :
    RegistryInv (Register w X now).2 ∧ Allocated (Register w X now).2 := by
  by_cases hX : X = NullUdid8
  · subst hX
    rw [Register_null]
    exact ⟨hinv, hal⟩
  · cases hreg : w.nc.Udids X with
    | some p =>
      rw [Register_known w X now p hX hreg]
      exact setState_preserves w p _ hinv hal
    | none =>
      rcases Register_new_spec w X now hX hreg with ⟨a, ha0, haf, hr, _⟩ | ⟨hr, _⟩
      · rw [hr]
        exact claimSlot_preserves w X a now hinv hal hreg ha0 haf
      · rw [hr]
        exact ⟨hinv, hal⟩

/-- `Unregister` never adds an entry, so every stored address stays allocated. -/
theorem Unregister_allocated (w : World) (p : Nat) (hal : Allocated w) :
    Allocated (Unregister w p).2 := by
  have eN : (Unregister w p).2.nc.Nodes = Function.update w.nc.Nodes (w.heap p).Id none := rfl
  have eU : (Unregister w p).2.nc.Udids = Function.update w.nc.Udids (w.heap p).Udid none := rfl
  have eX : (Unregister w p).2.next = w.next := rfl
  constructor
  · intro i q h
    rw [eN] at h
    rw [eX]
    by_cases hi : i = (w.heap p).Id
    · rw [hi] at h; simp at h
    · rw [Function.update_noteq hi] at h
      exact hal.table i q h
  · intro u q h
    rw [eU] at h
    rw [eX]
    by_cases hu : u = (w.heap p).Udid
    · rw [hu] at h; simp at h
    · rw [Function.update_noteq hu] at h
      exact hal.map u q h

/-- `Unregister` of a node that is in the table keeps the registry invariants. -/
theorem Unregister_preserves (w : World) (p : Nat)
    (hinv : RegistryInv w) (hreg : ∃ i : NodeId, w.nc.Nodes i = some p) :
    RegistryInv (Unregister w p).2 := by
  obtain ⟨i0, hi0⟩ := hreg
  have hid : (w.heap p).Id = i0 := hinv.addr i0 p hi0
  have hN : w.nc.Nodes (w.heap p).Id = some p := by rw [hid]; exact hi0
  have hU : w.nc.Udids (w.heap p).Udid = some p := hinv.fwd i0 p hi0
  have eN : (Unregister w p).2.nc.Nodes = Function.update w.nc.Nodes (w.heap p).Id none := rfl
  have eU : (Unregister w p).2.nc.Udids = Function.update w.nc.Udids (w.heap p).Udid none := rfl
  have eH : (Unregister w p).2.heap = w.heap := rfl
  have tN : ∀ (i : NodeId) (q : Nat), (Unregister w p).2.nc.Nodes i = some q →
      i ≠ (w.heap p).Id ∧ w.nc.Nodes i = some q := by
    intro i q h
    rw [eN] at h
    by_cases hi : i = (w.heap p).Id
    · rw [hi] at h; simp at h
    · rw [Function.update_noteq hi] at h
      exact ⟨hi, h⟩
  have tU : ∀ (u : Udid8) (q : Nat), (Unregister w p).2.nc.Udids u = some q →
      u ≠ (w.heap p).Udid ∧ w.nc.Udids u = some q := by
    intro u q h
    rw [eU] at h
    by_cases hu : u = (w.heap p).Udid
    · rw [hu] at h; simp at h
    · rw [Function.update_noteq hu] at h
      exact ⟨hu, h⟩
  constructor
  · intro i q h
    rw [eH]
    exact hinv.addr i q (tN i q h).2
  · intro i q h
    obtain ⟨hi, hq⟩ := tN i q h
    rw [eH, eU]
    have hf := hinv.fwd i q hq
    have hne : (w.heap q).Udid ≠ (w.heap p).Udid := by
      intro hx
      rw [hx, hU] at hf
      simp only [Option.some.injEq] at hf
      rw [← hf] at hq
      exact hi ((hinv.addr i p hq).symm)
    rw [Function.update_noteq hne]
    exact hf
  · intro u q h
    rw [eH]
    exact hinv.key u q (tU u q h).2
  · intro u q h
    obtain ⟨hu, hq⟩ := tU u q h
    rw [eH, eN]
    have hb := hinv.bwd u q hq
    have hne : (w.heap q).Id ≠ (w.heap p).Id := by
      intro hx
      rw [hx, hN] at hb
      simp only [Option.some.injEq] at hb
      rw [← hb] at hq
      exact hu ((hinv.key u p hq).symm)
    rw [Function.update_noteq hne]
    exact hb
  · rw [eN]
    by_cases h0 : (0 : NodeId) = (w.heap p).Id
    · rw [← h0]; simp
    · rw [Function.update_noteq h0]
      exact hinv.zero

/-- `Clear` establishes the registry invariants. -/
theorem Clear_preserves (w : World) : RegistryInv (Clear w) ∧ Allocated (Clear w) := by
  constructor
  · constructor <;> simp [Clear]
  · constructor <;> simp [Clear]

/-- C8. In a state that satisfies the registry invariants, for a node p that is in the
table: Unregister(p) returns true; before the call Find(p.Id) and Lookup(p.Udid) gave p,
after it both give nothing; every other table slot and every other reverse-mapping entry
is unchanged, as are the heap and the cache; and the invariants still hold. -/
theorem Unregister_registered (w : World) (p : Nat)
    (hinv : RegistryInv w) (hreg : ∃ i : NodeId, w.nc.Nodes i = some p) :
    (Unregister w p).1 = true
    ∧ Find w.nc (w.heap p).Id = some p
    ∧ Lookup w.nc (w.heap p).Udid = some p
    ∧ Find (Unregister w p).2.nc (w.heap p).Id = none
    ∧ Lookup (Unregister w p).2.nc (w.heap p).Udid = none
    ∧ (∀ j : NodeId, j ≠ (w.heap p).Id → (Unregister w p).2.nc.Nodes j = w.nc.Nodes j)
    ∧ (∀ u : Udid8, u ≠ (w.heap p).Udid → (Unregister w p).2.nc.Udids u = w.nc.Udids u)
    ∧ (Unregister w p).2.heap = w.heap
    ∧ (Unregister w p).2.cache = w.cache
    ∧ RegistryInv (Unregister w p).2 := by
  obtain ⟨i0, hi0⟩ := hreg
  have hid : (w.heap p).Id = i0 := hinv.addr i0 p hi0
  have eN : (Unregister w p).2.nc.Nodes = Function.update w.nc.Nodes (w.heap p).Id none := rfl
  have eU : (Unregister w p).2.nc.Udids = Function.update w.nc.Udids (w.heap p).Udid none := rfl
  refine ⟨rfl, ?_, ?_, ?_, ?_, ?_, ?_, rfl, rfl, ?_⟩
  · rw [Find_eq, hid]; exact hi0
  · rw [Lookup_eq]; exact hinv.fwd i0 p hi0
  · rw [Find_eq, eN]; simp
  · rw [Lookup_eq, eU]; simp
  · intro j hj
    rw [eN, Function.update_noteq hj]
  · intro u hu
    rw [eU, Function.update_noteq hu]
  · exact Unregister_preserves w p hinv ⟨i0, hi0⟩

/-- Witness for C8: unregistering the one node of `oneNodeWorld`. -/
theorem Unregister_registered_witness :
    (Unregister oneNodeWorld 0).1 = true
    ∧ Find (Unregister oneNodeWorld 0).2.nc 1 = none
    ∧ Lookup (Unregister oneNodeWorld 0).2.nc (sampleUdid 1) = none := by
  have hinv : RegistryInv oneNodeWorld :=
    (Register_preserves _ _ _ (RegistryInv_emptyWorld zeroHeap 0 []).1
      (RegistryInv_emptyWorld zeroHeap 0 []).2).1
  have h := Unregister_registered oneNodeWorld 0 hinv ⟨1, by decide⟩
  exact ⟨h.1, h.2.2.2.1, h.2.2.2.2.1⟩

/-! ## Exhaustion of the registry -/

theorem card_nonzero_slots : (Finset.univ.erase (0 : NodeId)).card = 127 := by
  have h := Finset.card_erase_of_mem (Finset.mem_univ (0 : NodeId))
  rw [h]
  simp

theorem exists_free_of_card (w : World) (h : (occupied w).card < 127) :
    ∃ i : NodeId, i ≠ 0 ∧ w.nc.Nodes i = none := by
  by_contra hne
  push_neg at hne
  have hsub : (Finset.univ.erase (0 : NodeId)) ⊆ occupied w := by
    intro i hi
    simp only [Finset.mem_erase, Finset.mem_univ, and_true] at hi
    simp only [occupied, Finset.mem_filter, Finset.mem_univ, true_and]
    exact hne i hi
  have hcard := Finset.card_le_card hsub
  rw [card_nonzero_slots] at hcard
  omega

theorem full_of_card (w : World) (h0 : w.nc.Nodes 0 = none) (h : (occupied w).card = 127) :
    ∀ i : NodeId, i ≠ 0 → w.nc.Nodes i ≠ none := by
  have hsub : occupied w ⊆ Finset.univ.erase (0 : NodeId) := by
    intro i hi
    simp only [occupied, Finset.mem_filter, Finset.mem_univ, true_and] at hi
    simp only [Finset.mem_erase, Finset.mem_univ, and_true]
    intro hi0
    rw [hi0] at hi
    exact hi h0
  have hc : (Finset.univ.erase (0 : NodeId)).card ≤ (occupied w).card := by
    rw [card_nonzero_slots, h]
  have heq := Finset.eq_of_subset_of_card_le hsub hc
  intro i hi0
  have hi : i ∈ occupied w := by
    rw [heq]
    simp [hi0]
  simpa [occupied] using hi

theorem occupied_claimSlot (w : World) (X : Udid8) (a : NodeId) (now : Nat)
    (haf : w.nc.Nodes a = none) :
    (occupied (claimSlot w X a now).2).card = (occupied w).card + 1 := by
  have hins : occupied (claimSlot w X a now).2 = insert a (occupied w) := by
    ext i
    simp only [occupied, Finset.mem_filter, Finset.mem_univ, true_and, Finset.mem_insert,
      claimSlot_Nodes]
    by_cases hi : i = a
    · subst hi
      simp
    · rw [Function.update_noteq hi]
      simp [hi]
  rw [hins, Finset.card_insert_of_not_mem]
  simp [occupied, haf]

/-- A run of registrations of pairwise distinct, non-null, unregistered identifiers that
fits in the free slots: every call succeeds, and what the final state holds. -/
theorem RegisterAll_spec : ∀ (reqs : List (Udid8 × Nat)) (w : World),
    RegistryInv w → Allocated w →
    (reqs.map Prod.fst).Nodup →
    (∀ r ∈ reqs, r.1 ≠ NullUdid8) →
    (∀ r ∈ reqs, w.nc.Udids r.1 = none) →
    (occupied w).card + reqs.length ≤ 127 →
    ∃ nodes : List (Nat × Node),
      (RegisterAll w reqs).1 = nodes.map Except.ok
      ∧ nodes.map (fun e => e.2.Udid) = reqs.map Prod.fst
      ∧ (∀ e ∈ nodes, e.2.Id ≠ 0 ∧ w.nc.Nodes e.2.Id = none)
      ∧ (nodes.map (fun e => e.2.Id)).Nodup
      ∧ RegistryInv (RegisterAll w reqs).2
      ∧ Allocated (RegisterAll w reqs).2
      ∧ (occupied (RegisterAll w reqs).2).card = (occupied w).card + reqs.length
      ∧ (∀ e ∈ nodes, (RegisterAll w reqs).2.nc.Udids e.2.Udid = some e.1
          ∧ (RegisterAll w reqs).2.nc.Nodes e.2.Id = some e.1
          ∧ ((RegisterAll w reqs).2.heap e.1).Id = e.2.Id
          ∧ ((RegisterAll w reqs).2.heap e.1).Udid = e.2.Udid)
      ∧ (∀ u : Udid8, u ∉ reqs.map Prod.fst →
          (RegisterAll w reqs).2.nc.Udids u = w.nc.Udids u)
      ∧ (∀ (i : NodeId) (p : Nat), w.nc.Nodes i = some p →
          (RegisterAll w reqs).2.nc.Nodes i = some p)
      ∧ (∀ p : Nat, p < w.next → ((RegisterAll w reqs).2.heap p).Id = (w.heap p).Id
          ∧ ((RegisterAll w reqs).2.heap p).Udid = (w.heap p).Udid)
      ∧ w.next ≤ (RegisterAll w reqs).2.next := by
  intro reqs
  induction reqs with
  | nil =>
    intro w hinv hal _ _ _ _
    refine ⟨[], ?_⟩
    simp [RegisterAll, hinv, hal]
  | cons r rest ih =>
    intro w hinv hal hnd hnn hnew hcard
    obtain ⟨x, now⟩ := r
    have hx : x ≠ NullUdid8 := hnn (x, now) (List.mem_cons_self _ _)
    have hxnew : w.nc.Udids x = none := hnew (x, now) (List.mem_cons_self _ _)
    simp only [List.map_cons, List.nodup_cons] at hnd
    obtain ⟨hxrest, hndrest⟩ := hnd
    simp only [List.length_cons] at hcard
    obtain ⟨i, hi0, hif⟩ := exists_free_of_card w (by omega)
    obtain ⟨a, ha0, haf, hr⟩ : ∃ a : NodeId, a ≠ 0 ∧ w.nc.Nodes a = none
        ∧ Register w x now = claimSlot w x a now := by
      rcases Register_new_spec w x now hx hxnew with ⟨a, ha0, haf, hr, _⟩ | ⟨_, hfull⟩
      · exact ⟨a, ha0, haf, hr⟩
      · exact absurd hif (hfull i hi0)
    obtain ⟨hinv1, hal1⟩ := claimSlot_preserves w x a now hinv hal hxnew ha0 haf
    have hcard1 := occupied_claimSlot w x a now haf
    have hnew1 : ∀ r ∈ rest, (claimSlot w x a now).2.nc.Udids r.1 = none := by
      intro r hr1
      rw [claimSlot_Udids]
      have hne : r.1 ≠ x := by
        intro he
        exact hxrest (by rw [← he]; exact List.mem_map_of_mem Prod.fst hr1)
      rw [Function.update_noteq hne]
      exact hnew r (List.mem_cons_of_mem _ hr1)
    obtain ⟨nodes, h1, h2, h3, h4, h5, h6, h7, h8, h9, h10, h11, h12⟩ :=
      ih (claimSlot w x a now).2 hinv1 hal1 hndrest
        (fun r hr1 => hnn r (List.mem_cons_of_mem _ hr1)) hnew1 (by omega)
    have hRA : RegisterAll w ((x, now) :: rest)
        = (Except.ok (w.next, (claimSlot w x a now).2.heap w.next)
            :: (RegisterAll (claimSlot w x a now).2 rest).1,
           (RegisterAll (claimSlot w x a now).2 rest).2) := by
      simp only [RegisterAll, hr, claimSlot_fst]
    rw [hRA]
    simp only
    have hnextlt : w.next < (claimSlot w x a now).2.next := by
      rw [claimSlot_next]; omega
    have hN1 : (claimSlot w x a now).2.nc.Nodes a = some w.next := by
      rw [claimSlot_Nodes]; simp
    have hU1 : (claimSlot w x a now).2.nc.Udids x = some w.next := by
      rw [claimSlot_Udids]; simp
    have hnew_node : (claimSlot w x a now).2.heap w.next
        = { State := NodeState.Unknown, Id := a, Udid := x, LastSeen := now,
            Attributes := [] } := claimSlot_heap_new w x a now
    refine ⟨(w.next, (claimSlot w x a now).2.heap w.next) :: nodes, ?_, ?_, ?_, ?_, h5, h6, ?_,
      ?_, ?_, ?_, ?_, ?_⟩
    · simp [h1]
    · simp [h2, hnew_node]
    · intro e he
      rcases List.mem_cons.1 he with he | he
      · rw [he, hnew_node]
        exact ⟨ha0, haf⟩
      · obtain ⟨e0, ef⟩ := h3 e he
        refine ⟨e0, ?_⟩
        rw [claimSlot_Nodes] at ef
        by_cases hea : e.2.Id = a
        · rw [hea] at ef; simp at ef
        · rw [Function.update_noteq hea] at ef
          exact ef
    · simp only [List.map_cons, List.nodup_cons]
      refine ⟨?_, h4⟩
      intro hmem
      obtain ⟨e, he, hea⟩ := List.mem_map.1 hmem
      have := (h3 e he).2
      rw [hea, hnew_node] at this
      simp only at this
      rw [hN1] at this
      simp at this
    · rw [h7, hcard1]
      simp only [List.length_cons]
      omega
    · intro e he
      rcases List.mem_cons.1 he with he | he
      · rw [he]
        simp only
        have hh := h11 w.next hnextlt
        refine ⟨?_, ?_, hh.1, hh.2⟩
        · rw [hnew_node]
          simp only
          rw [h9 x hxrest]
          exact hU1
        · rw [hnew_node]
          simp only
          exact h10 a w.next hN1
      · exact h8 e he
    · intro u hu
      simp only [List.map_cons, List.mem_cons, not_or] at hu
      rw [h9 u hu.2, claimSlot_Udids, Function.update_noteq hu.1]
    · intro j p hj
      apply h10
      rw [claimSlot_Nodes]
      have hja : j ≠ a := by
        intro he
        rw [he, haf] at hj
        simp at hj
      rw [Function.update_noteq hja]
      exact hj
    · intro p hp
      have hh := h11 p (by omega)
      rw [claimSlot_heap_old w x a now p (Nat.ne_of_lt hp)] at hh
      exact hh
    · omega

/-- C2. Starting from an empty registry, with any heap and any content of the
persistent cache, registering 127 pairwise distinct non-null identifiers succeeds every
time, the k-th returned node carrying the k-th identifier, with non-zero (so in 1..127)
and pairwise distinct addresses; registering one more distinct non-null identifier then
fails with the RegistryFull error, and afterwards Lookup of each of the 127 identifiers
and Find of each of their addresses return the node that was returned for it, which
still carries the same address and identifier. -/
theorem Registry_exhaustion (heap : Nat → Node) (next : Nat) (cache : NodeCache)
    (reqs : List (Udid8 × Nat)) (Y : Udid8) (nowY : Nat)
    (hlen : reqs.length = 127) (hnd : (reqs.map Prod.fst).Nodup)
    (hnn : ∀ r ∈ reqs, r.1 ≠ NullUdid8)
    (hY : Y ∉ reqs.map Prod.fst) (hYn : Y ≠ NullUdid8) :
    ∃ nodes : List (Nat × Node),
      (RegisterAll (emptyWorld heap next cache) reqs).1 = nodes.map Except.ok
      ∧ nodes.map (fun e => e.2.Udid) = reqs.map Prod.fst
      ∧ (∀ e ∈ nodes, e.2.Id ≠ 0)
      ∧ (nodes.map (fun e => e.2.Id)).Nodup
      ∧ (Register (RegisterAll (emptyWorld heap next cache) reqs).2 Y nowY).1
          = Except.error RegistryFull
      ∧ (∀ e ∈ nodes,
          Lookup (Register (RegisterAll (emptyWorld heap next cache) reqs).2 Y nowY).2.nc
              e.2.Udid = some e.1
          ∧ Find (Register (RegisterAll (emptyWorld heap next cache) reqs).2 Y nowY).2.nc
              e.2.Id = some e.1
          ∧ ((Register (RegisterAll (emptyWorld heap next cache) reqs).2 Y nowY).2.heap
              e.1).Id = e.2.Id
          ∧ ((Register (RegisterAll (emptyWorld heap next cache) reqs).2 Y nowY).2.heap
              e.1).Udid = e.2.Udid) := by
  obtain ⟨hinv0, hal0⟩ := RegistryInv_emptyWorld heap next cache
  have hocc0 : (occupied (emptyWorld heap next cache)).card = 0 := by
    simp [occupied, emptyWorld, NewNodeCollection]
  obtain ⟨nodes, h1, h2, h3, h4, h5, _, h7, h8, h9, _, _, _⟩ :=
    RegisterAll_spec reqs (emptyWorld heap next cache) hinv0 hal0 hnd hnn
      (fun _ _ => rfl) (by rw [hocc0, hlen])
  have hfull := full_of_card _ h5.zero (by rw [h7, hocc0, hlen])
  have hYnew : (RegisterAll (emptyWorld heap next cache) reqs).2.nc.Udids Y = none := by
    rw [h9 Y hY]
    rfl
  have hreg : Register (RegisterAll (emptyWorld heap next cache) reqs).2 Y nowY
      = (Except.error RegistryFull, (RegisterAll (emptyWorld heap next cache) reqs).2) := by
    rcases Register_new_spec _ Y nowY hYn hYnew with ⟨a, ha0, haf, _, _⟩ | ⟨hr, _⟩
    · exact absurd haf (hfull a ha0)
    · exact hr
  refine ⟨nodes, h1, h2, fun e he => (h3 e he).1, h4, ?_, ?_⟩
  · rw [hreg]
  · intro e he
    rw [hreg]
    simp only [Lookup_eq, Find_eq]
    exact h8 e he

theorem sampleUdid_inj (m n : Nat) (hm : m < 256) (hn : n < 256)
    (h : sampleUdid m = sampleUdid n) : m = n := by
  have h2 : (Fin.ofNat m : Fin 256) = Fin.ofNat n := by
    have h1 := congrArg Subtype.val h
    simp only [sampleUdid, List.cons.injEq, and_true, true_and] at h1
    exact h1
  have h3 := congrArg Fin.val h2
  simp only [Fin.ofNat] at h3
  omega

theorem sampleUdid_ne_null (n : Nat) (h0 : 0 < n) (hn : n < 256) :
    sampleUdid n ≠ NullUdid8 := by
  intro h
  have hz : sampleUdid 0 = NullUdid8 := rfl
  rw [← hz] at h
  have := sampleUdid_inj n 0 hn (by omega) h
  omega

theorem restRequests_keys :
    restRequests.map Prod.fst = (List.range 126).map (fun i => sampleUdid (i + 2)) := by
  simp [restRequests, Function.comp_def]

theorem restRequests_not_mem (n : Nat) (h : n < 2 ∨ 127 < n) (hn : n < 256) :
    sampleUdid n ∉ restRequests.map Prod.fst := by
  rw [restRequests_keys, List.mem_map]
  rintro ⟨i, hi, he⟩
  rw [List.mem_range] at hi
  have := sampleUdid_inj (i + 2) n (by omega) hn he
  omega

theorem restRequests_nodup : (restRequests.map Prod.fst).Nodup := by
  rw [restRequests_keys]
  apply List.Nodup.map_on _ (List.nodup_range 126)
  intro x hx y hy hxy
  rw [List.mem_range] at hx hy
  have := sampleUdid_inj (x + 2) (y + 2) (by omega) (by omega) hxy
  omega

theorem restRequests_not_null : ∀ r ∈ restRequests, r.1 ≠ NullUdid8 := by
  intro r hr
  have hk : r.1 ∈ restRequests.map Prod.fst := List.mem_map_of_mem Prod.fst hr
  rw [restRequests_keys, List.mem_map] at hk
  obtain ⟨i, hi, he⟩ := hk
  rw [List.mem_range] at hi
  rw [← he]
  exact sampleUdid_ne_null (i + 2) (by omega) (by omega)

theorem sampleRequests_length : sampleRequests.length = 127 := by
  simp [sampleRequests, restRequests]

theorem sampleRequests_nodup : (sampleRequests.map Prod.fst).Nodup := by
  simp only [sampleRequests, List.map_cons, List.nodup_cons]
  exact ⟨restRequests_not_mem 1 (Or.inl (by decide)) (by decide), restRequests_nodup⟩

theorem sampleRequests_not_null : ∀ r ∈ sampleRequests, r.1 ≠ NullUdid8 := by
  intro r hr
  rcases List.mem_cons.1 hr with h | h
  · rw [h]
    exact sampleUdid_ne_null 1 (by decide) (by decide)
  · exact restRequests_not_null r h

theorem sampleRequests_not_mem (n : Nat) (h0 : 127 < n) (hn : n < 256) :
    sampleUdid n ∉ sampleRequests.map Prod.fst := by
  simp only [sampleRequests, List.map_cons, List.mem_cons, not_or]
  refine ⟨?_, restRequests_not_mem n (Or.inr h0) hn⟩
  intro he
  have := sampleUdid_inj n 1 hn (by decide) he
  omega

/-- Witness for C2: `sampleUdid 1` to `sampleUdid 127` fill an empty registry, and
`sampleUdid 200` is then refused. -/
theorem Registry_exhaustion_witness :
    (Register (RegisterAll (emptyWorld zeroHeap 0 []) sampleRequests).2 (sampleUdid 200) 0).1
      = Except.error RegistryFull := by
  obtain ⟨_, _, _, _, _, h, _⟩ :=
    Registry_exhaustion zeroHeap 0 [] sampleRequests (sampleUdid 200) 0
      sampleRequests_length sampleRequests_nodup sampleRequests_not_null
      (sampleRequests_not_mem 200 (by decide) (by decide))
      (sampleUdid_ne_null 200 (by decide) (by decide))
  exact h

/-! ## Unregister of a stale node -/

theorem Register_first :
    Register (emptyWorld zeroHeap 0 []) (sampleUdid 1) 0
      = claimSlot (emptyWorld zeroHeap 0 []) (sampleUdid 1) 1 0 := by
  have hfree : (emptyWorld zeroHeap 0 []).nc.Nodes 1 = none := rfl
  have hrev : NodeCacheReverseLookup (emptyWorld zeroHeap 0 []).cache 1 = false := by
    rw [NodeCacheReverseLookup_false_iff _ _ (by decide)]
    intro Z
    simp only [emptyWorld, NodeCacheLookup]
    decide
  rcases Register_new_spec (emptyWorld zeroHeap 0 []) (sampleUdid 1) 0
      (sampleUdid_ne_null 1 (by decide) (by decide)) rfl
    with ⟨a, ha0, _, hr, hpass⟩ | ⟨_, hfull⟩
  · have ha1 : a = 1 := by
      rcases hpass with h1 | ⟨_, _, h2⟩ | ⟨_, h3, _⟩
      · exact absurd h1.symm ha0
      · by_contra hne
        have hlt : (1 : NodeId).val < a.val := by
          have h1 := (nodeId_ne_zero_iff a).1 ha0
          have h2 : a.val ≠ 1 := fun h => hne (Fin.ext h)
          have h3 : (1 : NodeId).val = 1 := rfl
          omega
        exact h2 1 (by decide) hlt ⟨hfree, hrev⟩
      · have := h3 1 (by decide) hfree
        rw [hrev] at this
        simp at this
    rw [hr, ha1]
  · exact absurd hfree (hfull 1 (by decide))

theorem RegisterAll_cons_fst (w : World) (x : Udid8) (now : Nat) (rest : List (Udid8 × Nat))
    (p : Nat) (h : (Register w x now).1 = Except.ok p) :
    (RegisterAll w ((x, now) :: rest)).1
      = Except.ok (p, (Register w x now).2.heap p) :: (RegisterAll (Register w x now).2 rest).1 := by
  simp only [RegisterAll, h]

theorem RegisterAll_cons_snd (w : World) (x : Udid8) (now : Nat) (rest : List (Udid8 × Nat)) :
    (RegisterAll w ((x, now) :: rest)).2 = (RegisterAll (Register w x now).2 rest).2 := rfl

theorem Unregister_Nodes (w : World) (p : Nat) :
    (Unregister w p).2.nc.Nodes = Function.update w.nc.Nodes (w.heap p).Id none := rfl

theorem Unregister_Udids (w : World) (p : Nat) :
    (Unregister w p).2.nc.Udids = Function.update w.nc.Udids (w.heap p).Udid none := rfl

theorem Unregister_heap (w : World) (p : Nat) : (Unregister w p).2.heap = w.heap := rfl

theorem Unregister_next (w : World) (p : Nat) : (Unregister w p).2.next = w.next := rfl

/-- What the registry filled by `sampleRequests` holds: the invariants, a full table, and
node 0 at address 1 with identifier `sampleUdid 1`, returned by the first call. -/
theorem sampleRequests_full :
    RegistryInv (RegisterAll (emptyWorld zeroHeap 0 []) sampleRequests).2
    ∧ Allocated (RegisterAll (emptyWorld zeroHeap 0 []) sampleRequests).2
    ∧ (∀ i : NodeId, i ≠ 0 →
        (RegisterAll (emptyWorld zeroHeap 0 []) sampleRequests).2.nc.Nodes i ≠ none)
    ∧ (RegisterAll (emptyWorld zeroHeap 0 []) sampleRequests).2.nc.Nodes 1 = some 0
    ∧ ((RegisterAll (emptyWorld zeroHeap 0 []) sampleRequests).2.heap 0).Id = 1
    ∧ ((RegisterAll (emptyWorld zeroHeap 0 []) sampleRequests).2.heap 0).Udid = sampleUdid 1
    ∧ (RegisterAll (emptyWorld zeroHeap 0 []) sampleRequests).2.nc.Udids (sampleUdid 200) = none
    ∧ ∃ n : Node, Except.ok (0, n) ∈ (RegisterAll (emptyWorld zeroHeap 0 []) sampleRequests).1 := by
  have hnd := sampleRequests_nodup
  have hnm := sampleRequests_not_mem 200 (by decide) (by decide)
  simp only [sampleRequests, List.map_cons, List.nodup_cons, List.mem_cons, not_or] at hnd hnm
  have hfst : (Register (emptyWorld zeroHeap 0 []) (sampleUdid 1) 0).1 = Except.ok 0 := by
    rw [Register_first, claimSlot_fst]
    rfl
  have hW : (RegisterAll (emptyWorld zeroHeap 0 []) sampleRequests).2
      = (RegisterAll (claimSlot (emptyWorld zeroHeap 0 []) (sampleUdid 1) 1 0).2
          restRequests).2 := by
    unfold sampleRequests
    rw [RegisterAll_cons_snd, Register_first]
  have hR : ∃ n : Node,
      Except.ok (0, n) ∈ (RegisterAll (emptyWorld zeroHeap 0 []) sampleRequests).1 := by
    unfold sampleRequests
    rw [RegisterAll_cons_fst _ _ _ _ 0 hfst]
    exact ⟨_, List.mem_cons_self _ _⟩
  rw [hW]
  obtain ⟨hinv0, hal0⟩ := RegistryInv_emptyWorld zeroHeap 0 []
  obtain ⟨hinv1, hal1⟩ := claimSlot_preserves (emptyWorld zeroHeap 0 []) (sampleUdid 1) 1 0
    hinv0 hal0 rfl (by decide) rfl
  have hc1 := occupied_claimSlot (emptyWorld zeroHeap 0 []) (sampleUdid 1) 1 0 rfl
  have hc0 : (occupied (emptyWorld zeroHeap 0 [])).card = 0 := by
    simp [occupied, emptyWorld, NewNodeCollection]
  rw [hc0] at hc1
  have hnew : ∀ r ∈ restRequests,
      (claimSlot (emptyWorld zeroHeap 0 []) (sampleUdid 1) 1 0).2.nc.Udids r.1 = none := by
    intro r hr
    rw [claimSlot_Udids]
    have hne : r.1 ≠ sampleUdid 1 := by
      intro he
      exact hnd.1 (by rw [← he]; exact List.mem_map_of_mem Prod.fst hr)
    rw [Function.update_noteq hne]
    rfl
  obtain ⟨_, _, _, _, _, h5, h6, h7, _, h9, h10, h11, _⟩ :=
    RegisterAll_spec restRequests
      (claimSlot (emptyWorld zeroHeap 0 []) (sampleUdid 1) 1 0).2 hinv1 hal1 hnd.2
      restRequests_not_null hnew
      (by rw [hc1]; simp [restRequests])
  have hfull := full_of_card _ h5.zero (by rw [h7, hc1]; simp [restRequests])
  have hN1 : (claimSlot (emptyWorld zeroHeap 0 []) (sampleUdid 1) 1 0).2.nc.Nodes 1 = some 0 := by
    rw [claimSlot_Nodes]
    simp [emptyWorld]
  have hh := h11 0 (by rw [claimSlot_next]; simp [emptyWorld])
  have hnode := claimSlot_heap_new (emptyWorld zeroHeap 0 []) (sampleUdid 1) 1 0
  have hz : (emptyWorld zeroHeap 0 []).next = 0 := rfl
  rw [hz] at hnode
  rw [hnode] at hh
  refine ⟨h5, h6, hfull, h10 1 0 hN1, hh.1, hh.2, ?_, hR⟩
  rw [h9 (sampleUdid 200) hnm.2, claimSlot_Udids, Function.update_noteq hnm.1]
  rfl

/-- The defect of `Unregister` on a stale node, in general: in a full registry that
satisfies the invariants, unregister the node p of identifier x at address a, register a
new identifier y (it is given address a, as node q), and unregister p once more. Before
that last call p is in neither index; the call nevertheless empties table slot a, which
holds q, and leaves y in the reverse mapping. -/
theorem Unregister_stale (w : World) (p : Nat) (a : NodeId) (x y : Udid8) (now : Nat)
    (hinv : RegistryInv w) (hal : Allocated w)
    (hfull : ∀ i : NodeId, i ≠ 0 → w.nc.Nodes i ≠ none)
    (hN : w.nc.Nodes a = some p) (hId : (w.heap p).Id = a) (hUd : (w.heap p).Udid = x)
    (hY : w.nc.Udids y = none) (hne : y ≠ x) (hYn : y ≠ NullUdid8) :
    ∃ q : Nat, q ≠ p
      ∧ (Register (Unregister w p).2 y now).1 = Except.ok q
      ∧ RegistryInv (Register (Unregister w p).2 y now).2
      ∧ (∀ i : NodeId, (Register (Unregister w p).2 y now).2.nc.Nodes i ≠ some p)
      ∧ (∀ u : Udid8, (Register (Unregister w p).2 y now).2.nc.Udids u ≠ some p)
      ∧ (Register (Unregister w p).2 y now).2.nc.Nodes a = some q
      ∧ (Unregister (Register (Unregister w p).2 y now).2 p).2.nc.Nodes a = none
      ∧ (Unregister (Register (Unregister w p).2 y now).2 p).2.nc.Udids y = some q
      ∧ ((Unregister (Register (Unregister w p).2 y now).2 p).2.heap q).Id = a := by
  have ha0 : a ≠ 0 := by
    intro h0
    rw [h0, hinv.zero] at hN
    simp at hN
  have hinvA := Unregister_preserves w p hinv ⟨a, hN⟩
  have halA := Unregister_allocated w p hal
  have eN : (Unregister w p).2.nc.Nodes = Function.update w.nc.Nodes a none := by
    rw [Unregister_Nodes, hId]
  have eU : (Unregister w p).2.nc.Udids = Function.update w.nc.Udids x none := by
    rw [Unregister_Udids, hUd]
  have eH : (Unregister w p).2.heap = w.heap := Unregister_heap w p
  have eX : (Unregister w p).2.next = w.next := Unregister_next w p
  have hpos : p < w.next := hal.table a p hN
  have hYA : (Unregister w p).2.nc.Udids y = none := by
    rw [eU, Function.update_noteq hne]
    exact hY
  have hfree : (Unregister w p).2.nc.Nodes a = none := by
    rw [eN]; simp
  have hr : Register (Unregister w p).2 y now = claimSlot (Unregister w p).2 y a now := by
    rcases Register_new_spec _ y now hYn hYA with ⟨b, hb0, hbf, hr, _⟩ | ⟨_, hf⟩
    · have hb : b = a := by
        by_contra hne1
        rw [eN, Function.update_noteq hne1] at hbf
        exact hfull b hb0 hbf
      rw [hr, hb]
    · exact absurd hfree (hf a ha0)
  obtain ⟨hinvS, _⟩ := claimSlot_preserves (Unregister w p).2 y a now hinvA halA hYA ha0 hfree
  rw [hr]
  have hold : (claimSlot (Unregister w p).2 y a now).2.heap p = w.heap p := by
    rw [claimSlot_heap_old _ _ _ _ p (by rw [eX]; omega), eH]
  have hnewN : (claimSlot (Unregister w p).2 y a now).2.nc.Nodes
      = Function.update (Function.update w.nc.Nodes a none) a (some w.next) := by
    rw [claimSlot_Nodes, eN, eX]
  have hnewU : (claimSlot (Unregister w p).2 y a now).2.nc.Udids
      = Function.update (Function.update w.nc.Udids x none) y (some w.next) := by
    rw [claimSlot_Udids, eU, eX]
  have hnode : (claimSlot (Unregister w p).2 y a now).2.heap w.next
      = { State := NodeState.Unknown, Id := a, Udid := y, LastSeen := now,
          Attributes := [] } := by
    rw [← eX]
    exact claimSlot_heap_new _ _ _ _
  refine ⟨w.next, by omega, by rw [claimSlot_fst, eX], hinvS, ?_, ?_, ?_, ?_, ?_, ?_⟩
  · intro i hi
    have hi1 : i = a := by
      rw [← hinvS.addr i p hi, hold]
      exact hId
    rw [hi1, hnewN] at hi
    simp at hi
    omega
  · intro u hu
    have hu1 : u = x := by
      rw [← hinvS.key u p hu, hold]
      exact hUd
    rw [hu1, hnewU, Function.update_noteq hne.symm] at hu
    simp at hu
  · rw [hnewN]; simp
  · rw [Unregister_Nodes, hold, hId]; simp
  · rw [Unregister_Udids, hold, hUd, Function.update_noteq hne, hnewU]; simp
  · rw [Unregister_heap, hnode]

theorem runCalls_Register_ok (w : World) (rs : List Nat) (u : Udid8) (now : Nat)
    (rest : List Call) (p : Nat) (h : (Register w u now).1 = Except.ok p) :
    runCalls w rs (Call.Register u now :: rest)
      = runCalls (Register w u now).2 (p :: rs) rest := by
  simp only [runCalls, h]

theorem runCalls_Register_error (w : World) (rs : List Nat) (u : Udid8) (now : Nat)
    (rest : List Call) (e : String) (h : (Register w u now).1 = Except.error e) :
    runCalls w rs (Call.Register u now :: rest) = runCalls (Register w u now).2 rs rest := by
  simp only [runCalls, h]

theorem runCalls_Unregister (w : World) (rs : List Nat) (node : Nat) (rest : List Call)
    (h : node ∈ rs) :
    runCalls w rs (Call.Unregister node :: rest) = runCalls (Unregister w node).2 rs rest := by
  simp only [runCalls, if_pos h]

theorem runCalls_nil (w : World) (rs : List Nat) : runCalls w rs [] = some (w, rs) := rfl

theorem runCalls_append_registers : ∀ (reqs : List (Udid8 × Nat)) (w : World) (rs : List Nat)
    (tail : List Call),
    ∃ rs' : List Nat,
      (∀ (p : Nat) (n : Node), Except.ok (p, n) ∈ (RegisterAll w reqs).1 → p ∈ rs')
      ∧ (∀ p ∈ rs, p ∈ rs')
      ∧ runCalls w rs (reqs.map (fun r => Call.Register r.1 r.2) ++ tail)
          = runCalls (RegisterAll w reqs).2 rs' tail := by
  intro reqs
  induction reqs with
  | nil =>
    intro w rs tail
    exact ⟨rs, by simp [RegisterAll], fun p hp => hp, rfl⟩
  | cons r rest ih =>
    intro w rs tail
    obtain ⟨x, now⟩ := r
    cases hreg : (Register w x now).1 with
    | ok q =>
      obtain ⟨rs', h1, h2, h3⟩ := ih (Register w x now).2 (q :: rs) tail
      refine ⟨rs', ?_, fun p hp => h2 p (List.mem_cons_of_mem _ hp), ?_⟩
      · intro p n hpn
        rw [RegisterAll_cons_fst w x now rest q hreg] at hpn
        rcases List.mem_cons.1 hpn with h | h
        · simp only [Except.ok.injEq, Prod.mk.injEq] at h
          rw [h.1]
          exact h2 q (List.mem_cons_self _ _)
        · exact h1 p n h
      · rw [RegisterAll_cons_snd, ← h3, List.map_cons, List.cons_append,
          runCalls_Register_ok w rs x now _ q hreg]
    | error e =>
      obtain ⟨rs', h1, h2, h3⟩ := ih (Register w x now).2 rs tail
      refine ⟨rs', ?_, h2, ?_⟩
      · intro p n hpn
        have hA : (RegisterAll w ((x, now) :: rest)).1
            = Except.error e :: (RegisterAll (Register w x now).2 rest).1 := by
          simp only [RegisterAll, hreg]
        rw [hA] at hpn
        rcases List.mem_cons.1 hpn with h | h
        · simp at h
        · exact h1 p n h
      · rw [RegisterAll_cons_snd, ← h3, List.map_cons, List.cons_append,
          runCalls_Register_error w rs x now _ e hreg]

/-- C9 (the code at the failing input). From the empty registry and the empty cache, the
calls `staleCalls` (127 registrations, Unregister of node 0, one more registration) lead
to a state in which node 0, returned by the first Register, is registered in neither
index while table slot 1 is occupied by another node; Unregister(node 0) then returns
true and empties slot 1: it is not a no-op. -/
theorem Unregister_unregistered_not_noop :
    ∃ (w : World) (rs : List Nat),
      runCalls (emptyWorld zeroHeap 0 []) [] staleCalls = some (w, rs)
      ∧ 0 ∈ rs
      ∧ (∀ i : NodeId, w.nc.Nodes i ≠ some 0)
      ∧ (∀ u : Udid8, w.nc.Udids u ≠ some 0)
      ∧ (Unregister w 0).1 = true
      ∧ w.nc.Nodes 1 ≠ none
      ∧ (Unregister w 0).2.nc.Nodes 1 = none := by
  obtain ⟨hinv, hal, hfull, hN1, hId, hUd, hY, n, hn⟩ := sampleRequests_full
  obtain ⟨q, _, hq, _, hnoN, hnoU, hNq, hgone, _, _⟩ :=
    Unregister_stale (RegisterAll (emptyWorld zeroHeap 0 []) sampleRequests).2 0 1
      (sampleUdid 1) (sampleUdid 200) 0 hinv hal hfull hN1 hId hUd hY (by decide) (by decide)
  obtain ⟨rs', h1, _, h3⟩ := runCalls_append_registers sampleRequests
    (emptyWorld zeroHeap 0 []) [] [Call.Unregister 0, Call.Register (sampleUdid 200) 0]
  have h0 : 0 ∈ rs' := h1 0 n hn
  refine ⟨_, q :: rs', ?_, List.mem_cons_of_mem _ h0, hnoN, hnoU, rfl, ?_, hgone⟩
  · unfold staleCalls
    rw [h3, runCalls_Unregister _ _ _ _ h0, runCalls_Register_ok _ _ _ _ _ q hq, runCalls_nil]
  · rw [hNq]
    simp

/-- C7 (the code at the failing input). The calls `staleCalls` followed by a second
Unregister of node 0 (a node previously returned by Register) lead from the empty
registry and the empty cache to a state that violates the registry invariants: the
reverse mapping sends `sampleUdid 200` to a node of address 1, and table slot 1 is
empty. -/
theorem RegistryInv_broken_by_stale_Unregister :
    ∃ (w : World) (rs : List Nat),
      runCalls (emptyWorld zeroHeap 0 []) [] (staleCalls ++ [Call.Unregister 0]) = some (w, rs)
      ∧ (∃ q : Nat, w.nc.Udids (sampleUdid 200) = some q ∧ (w.heap q).Id = 1
          ∧ w.nc.Nodes 1 = none)
      ∧ ¬ RegistryInv w := by
  obtain ⟨hinv, hal, hfull, hN1, hId, hUd, hY, n, hn⟩ := sampleRequests_full
  obtain ⟨q, _, hq, _, _, _, _, hgone, hU, hI⟩ :=
    Unregister_stale (RegisterAll (emptyWorld zeroHeap 0 []) sampleRequests).2 0 1
      (sampleUdid 1) (sampleUdid 200) 0 hinv hal hfull hN1 hId hUd hY (by decide) (by decide)
  obtain ⟨rs', h1, _, h3⟩ := runCalls_append_registers sampleRequests
    (emptyWorld zeroHeap 0 [])
    [] ([Call.Unregister 0, Call.Register (sampleUdid 200) 0] ++ [Call.Unregister 0])
  have h0 : 0 ∈ rs' := h1 0 n hn
  refine ⟨_, q :: rs', ?_, ⟨q, hU, hI, hgone⟩, ?_⟩
  · unfold staleCalls
    rw [List.append_assoc, h3, List.cons_append, List.cons_append, List.nil_append,
      runCalls_Unregister _ _ _ _ h0, runCalls_Register_ok _ _ _ _ _ q hq,
      runCalls_Unregister _ _ _ _ (List.mem_cons_of_mem q h0), runCalls_nil]
  · intro hbad
    have := hbad.bwd (sampleUdid 200) q hU
    rw [hI, hgone] at this
    simp at this

/-! ## Upload: abort at the N-th WRITE -/

theorem countWrites_append (a b : List Event) :
    countWrites (a ++ b) = countWrites a + countWrites b := by
  simp [countWrites, List.countP_append]

theorem countFailed_append (a b : List Event) :
    countFailed (a ++ b) = countFailed a + countFailed b := by
  simp [countFailed, List.countP_append]

theorem writeChunks_abort (env : Env) (node : NodeId) (block : Block)
    (blocksize page_offset address N : Nat) (hN : FailsNthWrite env N) :
    ∀ (positions : List Nat) (crc : Nat) (t : List Event), BeforeNthWrite N t →
      (∃ c, (writeChunks env node block blocksize page_offset address positions crc t).1
              = Except.ok c
          ∧ BeforeNthWrite N
              (writeChunks env node block blocksize page_offset address positions crc t).2)
      ∨ (∃ c, (writeChunks env node block blocksize page_offset address positions crc t).1
              = Except.error (FwError.Write node address c)
          ∧ StoppedAtNthWrite N node
              (writeChunks env node block blocksize page_offset address positions crc t).2) := by
  intro positions
  induction positions with
  | nil =>
    intro crc t ht
    exact Or.inl ⟨crc, rfl, ht⟩
  | cons pos rest ih =>
    intro crc t ht
    unfold writeChunks
    split
    · simp only [ExpectSystemMessage]
      have hc : countWrites (t ++ [Event.Send node MessageType.SYS_BOOTLOADER_WRITE 0
            (List.take 8 (List.drop ((page_offset + pos) % 2 ^ 32) block.Data))]
          ++ [Event.Expect node MessageType.SYS_BOOTLOADER_WRITE_ACK]) = countWrites t + 1 := by
        rw [countWrites_append, countWrites_append]
        simp [countWrites]
      have hf : countFailed (t ++ [Event.Send node MessageType.SYS_BOOTLOADER_WRITE 0
            (List.take 8 (List.drop ((page_offset + pos) % 2 ^ 32) block.Data))]
          ++ [Event.Expect node MessageType.SYS_BOOTLOADER_WRITE_ACK]) = 0 := by
        rw [countFailed_append, countFailed_append, ht.2]
        simp [countFailed]
      by_cases hlt : countWrites t + 1 < N
      · obtain ⟨payload, hp⟩ := hN.1 _ (by rw [hc]; exact hlt)
        rw [hp]
        exact ih _ _ ⟨by rw [hc]; exact hlt, hf⟩
      · have heq : countWrites t + 1 = N := by
          have := ht.1
          omega
        obtain ⟨err, he⟩ := hN.2 _ node (by rw [hc]; exact heq) (by simp)
        rw [he]
        refine Or.inr ⟨err, rfl, t, 0,
          List.take 8 (List.drop ((page_offset + pos) % 2 ^ 32) block.Data), ?_, heq, ht.2⟩
        simp [Put]
    · exact Or.inl ⟨crc, rfl, ht⟩

theorem BeforeNthWrite_append_other (N : Nat) (t : List Event) (e : Event)
    (ht : BeforeNthWrite N t) (hw : countWrites [e] = 0) (hf : countFailed [e] = 0) :
    BeforeNthWrite N (t ++ [e]) := by
  refine ⟨?_, ?_⟩
  · rw [countWrites_append, hw]
    exact ht.1
  · rw [countFailed_append, hf]
    exact ht.2

theorem uploadPages_abort (env : Env) (node : NodeId) (block : Block)
    (blocksize address N : Nat) (hN : FailsNthWrite env N) :
    ∀ (fuel page_offset : Nat) (t : List Event), BeforeNthWrite N t →
      NthWritePost N node
        (uploadPages env node block blocksize address fuel page_offset t).1
        (uploadPages env node block blocksize address fuel page_offset t).2 := by
  intro fuel
  induction fuel with
  | zero =>
    intro page_offset t ht
    unfold uploadPages
    split <;> exact Or.inl ht
  | succ fuel ih =>
    intro page_offset t ht
    unfold uploadPages
    split
    · simp only [ExpectSystemMessage]
      have h1 : BeforeNthWrite N (t ++ [Event.Send node MessageType.SYS_BOOTLOADER_SET_ADDRESS 70
            (uint32ToBytes ((block.Offset + page_offset) % 2 ^ 32))]
          ++ [Event.Expect node MessageType.SYS_BOOTLOADER_SET_ADDRESS_ACK]) :=
        BeforeNthWrite_append_other N _ _
          (BeforeNthWrite_append_other N _ _ ht (by simp [countWrites]) (by simp [countFailed]))
          (by simp [countWrites]) (by simp [countFailed])
      obtain ⟨payload, hp⟩ := hN.1 _ h1.1
      rw [hp]
      simp only
      rcases writeChunks_abort env node block blocksize page_offset address N hN
          pagePositions 0 _ h1 with ⟨c, hc, hb⟩ | ⟨c, hc, hs⟩
      · revert hc hb
        generalize writeChunks env node block blocksize page_offset address pagePositions 0
          (t ++ [Event.Send node MessageType.SYS_BOOTLOADER_SET_ADDRESS 70
            (uint32ToBytes ((block.Offset + page_offset) % 2 ^ 32))]
          ++ [Event.Expect node MessageType.SYS_BOOTLOADER_SET_ADDRESS_ACK]) = w
        obtain ⟨r, t3⟩ := w
        intro hc hb
        simp only at hc hb
        subst hc
        simp only
        have hc5 : countWrites (t3 ++ [Event.Send node MessageType.SYS_BOOTLOADER_WRITE 1
              (uint32ToBytes c)]
            ++ [Event.Expect node MessageType.SYS_BOOTLOADER_WRITE_ACK]) = countWrites t3 + 1 := by
          rw [countWrites_append, countWrites_append]
          simp [countWrites]
        have hf5 : countFailed (t3 ++ [Event.Send node MessageType.SYS_BOOTLOADER_WRITE 1
              (uint32ToBytes c)]
            ++ [Event.Expect node MessageType.SYS_BOOTLOADER_WRITE_ACK]) = 0 := by
          rw [countFailed_append, countFailed_append, hb.2]
          simp [countFailed]
        by_cases hlt : countWrites t3 + 1 < N
        · obtain ⟨payload5, hp5⟩ := hN.1 _ (by rw [hc5]; exact hlt)
          rw [hp5]
          simp only
          have h5 : BeforeNthWrite N (t3 ++ [Event.Send node MessageType.SYS_BOOTLOADER_WRITE 1
              (uint32ToBytes c)]
            ++ [Event.Expect node MessageType.SYS_BOOTLOADER_WRITE_ACK]) :=
            ⟨by rw [hc5]; exact hlt, hf5⟩
          split
          · exact Or.inl h5
          · have h6 := BeforeNthWrite_append_other N _
              (Event.PutProgress (Progress.Update (page_offset * 100 % 2 ^ 32 / blocksize) 0))
              h5 (by simp [countWrites]) (by simp [countFailed])
            simp only [Put]
            cases hput : env.put (t3 ++ [Event.Send node MessageType.SYS_BOOTLOADER_WRITE 1
                (uint32ToBytes c)]
              ++ [Event.Expect node MessageType.SYS_BOOTLOADER_WRITE_ACK]
              ++ [Event.PutProgress
                    (Progress.Update (page_offset * 100 % 2 ^ 32 / blocksize) 0)]) with
            | some err => exact Or.inl h6
            | none => exact ih _ _ h6
        · have heq : countWrites t3 + 1 = N := by
            have := hb.1
            omega
          obtain ⟨err, he⟩ := hN.2 _ node (by rw [hc5]; exact heq) (by simp)
          rw [he]
          refine Or.inr ⟨⟨address, err, Or.inr rfl⟩, t3, 1, uint32ToBytes c, ?_, heq, hb.2⟩
          simp [Put]
      · revert hc hs
        generalize writeChunks env node block blocksize page_offset address pagePositions 0
          (t ++ [Event.Send node MessageType.SYS_BOOTLOADER_SET_ADDRESS 70
            (uint32ToBytes ((block.Offset + page_offset) % 2 ^ 32))]
          ++ [Event.Expect node MessageType.SYS_BOOTLOADER_SET_ADDRESS_ACK]) = w
        obtain ⟨r, t3⟩ := w
        intro hc hs
        simp only at hc hs
        subst hc
        exact Or.inr ⟨⟨address, c, Or.inl rfl⟩, hs⟩
    · exact Or.inl ht

theorem uploadBlocks_abort (env : Env) (node : NodeId) (address fuel N : Nat)
    (hN : FailsNthWrite env N) :
    ∀ (blocks : List Block) (t : List Event), BeforeNthWrite N t →
      NthWritePost N node
        (uploadBlocks env node address fuel blocks t).1
        (uploadBlocks env node address fuel blocks t).2 := by
  intro blocks
  induction blocks with
  | nil =>
    intro t ht
    exact Or.inl ht
  | cons block rest ih =>
    intro t ht
    unfold uploadBlocks
    have hp := uploadPages_abort env node block (block.Data.length % 2 ^ 32) address N hN
      fuel 0 t ht
    revert hp
    generalize uploadPages env node block (block.Data.length % 2 ^ 32) address fuel 0 t = w
    obtain ⟨r, t1⟩ := w
    intro hp
    simp only at hp
    cases r with
    | ok =>
      simp only
      rcases hp with hb | ⟨⟨a, c, h | h⟩, _⟩
      · exact ih t1 hb
      · simp at h
      · simp at h
    | error e => exact hp
    | unfinished => exact hp
    | panic => exact hp

theorem sends_append (a b : List Event) : sends (a ++ b) = sends a ++ sends b := by
  simp [sends]

theorem uploadFirmware_abort (env : Env) (node : Node) (firmware : NodeFirmware)
    (fuel N : Nat) (hN1 : 1 ≤ N) (hN : FailsNthWrite env N) :
    NthWritePost N node.Id (uploadFirmware env node firmware fuel).1
      (uploadFirmware env node firmware fuel).2 := by
  unfold uploadFirmware
  simp only [ExpectSystemMessage]
  have h2 : BeforeNthWrite N
      ([Event.Send node.Id MessageType.SYS_BOOTLOADER_SET_ADDRESS 70
          (uint32ToBytes FLASH_APP_ORIGIN)]
        ++ [Event.Expect node.Id MessageType.SYS_BOOTLOADER_SET_ADDRESS_ACK]) := by
    refine ⟨?_, ?_⟩
    · simp [countWrites]
      omega
    · simp [countFailed]
  obtain ⟨p2, hp2⟩ := hN.1 _ h2.1
  rw [hp2]
  simp only
  have h4 : BeforeNthWrite N
      ([Event.Send node.Id MessageType.SYS_BOOTLOADER_SET_ADDRESS 70
          (uint32ToBytes FLASH_APP_ORIGIN)]
        ++ [Event.Expect node.Id MessageType.SYS_BOOTLOADER_SET_ADDRESS_ACK]
        ++ [Event.Send node.Id MessageType.SYS_BOOTLOADER_ERASE 0 []]
        ++ [Event.Expect node.Id MessageType.SYS_BOOTLOADER_ERASE_ACK]) :=
    BeforeNthWrite_append_other N _ _
      (BeforeNthWrite_append_other N _ _ h2 (by simp [countWrites]) (by simp [countFailed]))
      (by simp [countWrites]) (by simp [countFailed])
  obtain ⟨p4, hp4⟩ := hN.1 _ h4.1
  rw [hp4]
  simp only
  have hb := uploadBlocks_abort env node.Id 0 fuel N hN firmware.Code _ h4
  revert hb
  generalize uploadBlocks env node.Id 0 fuel firmware.Code
      ([Event.Send node.Id MessageType.SYS_BOOTLOADER_SET_ADDRESS 70
          (uint32ToBytes FLASH_APP_ORIGIN)]
        ++ [Event.Expect node.Id MessageType.SYS_BOOTLOADER_SET_ADDRESS_ACK]
        ++ [Event.Send node.Id MessageType.SYS_BOOTLOADER_ERASE 0 []]
        ++ [Event.Expect node.Id MessageType.SYS_BOOTLOADER_ERASE_ACK]) = w
  obtain ⟨r, t5⟩ := w
  intro hb
  simp only at hb
  cases r with
  | ok =>
    simp only [Put]
    rcases hb with hb | ⟨⟨a, c, h | h⟩, _⟩
    · have h6 := BeforeNthWrite_append_other N t5 (Event.PutProgress Progress.Success) hb
        (by simp [countWrites]) (by simp [countFailed])
      cases env.put (t5 ++ [Event.PutProgress Progress.Success]) with
      | some err => exact Or.inl h6
      | none => exact Or.inl h6
    · simp at h
    · simp at h
  | error e => exact hb
  | unfinished => exact hb
  | panic => exact hb

/-- C10. If the transport fails exactly the wait for the acknowledgment of the N-th WRITE
command (N at least 1, every earlier wait succeeds) and the upload gets as far as sending
that WRITE, then Upload returns an error, naming the WRITE step; exactly one Failed
progress event has been emitted; and the events end with that WRITE, the failed wait and
the Failed event, so the N-th WRITE is the last command sent. -/
theorem Upload_abort_on_nack (env : Env) (node : Node) (firmware : NodeFirmware)
    (fuel N : Nat) (hN1 : 1 ≤ N) (hN : FailsNthWrite env N)
    (hreach : N ≤ countWrites (uploadFirmware env node firmware fuel).2) :
    (∃ a c, (uploadFirmware env node firmware fuel).1
              = JobResult.error (FwError.Write node.Id a c)
          ∨ (uploadFirmware env node firmware fuel).1
              = JobResult.error (FwError.FinalWrite node.Id a c))
    ∧ countFailed (uploadFirmware env node firmware fuel).2 = 1
    ∧ countWrites (uploadFirmware env node firmware fuel).2 = N
    ∧ ∃ (pre : List Event) (param : Nat) (data : List Byte),
        (uploadFirmware env node firmware fuel).2
          = pre ++ [Event.Send node.Id MessageType.SYS_BOOTLOADER_WRITE param data,
                    Event.Expect node.Id MessageType.SYS_BOOTLOADER_WRITE_ACK,
                    Event.PutProgress Progress.Failed]
        ∧ sends (uploadFirmware env node firmware fuel).2
          = sends pre ++ [Event.Send node.Id MessageType.SYS_BOOTLOADER_WRITE param data] := by
  rcases uploadFirmware_abort env node firmware fuel N hN1 hN with hb | ⟨hres, pre, param, data, ht, hw, hf⟩
  · have := hb.1
    omega
  · refine ⟨hres, ?_, ?_, pre, param, data, ht, ?_⟩
    · rw [ht, countFailed_append, hf]
      simp [countFailed]
    · rw [ht, countWrites_append, ← hw]
      simp [countWrites]
    · rw [ht, sends_append]
      simp [sends]

theorem nackSecondWrite_fails : FailsNthWrite nackSecondWrite 2 := by
  constructor
  · intro t ht
    exact ⟨[], by simp [nackSecondWrite, ht]⟩
  · intro t _ ht _
    exact ⟨"timeout", by simp [nackSecondWrite, ht]⟩

/-- Witness for C10: a three-byte block, the wait for the second WRITE (the checksum
WRITE of the page) fails. -/
theorem Upload_abort_on_nack_witness :
    (∃ a c, (uploadFirmware nackSecondWrite sampleNode smallImage 1).1
              = JobResult.error (FwError.FinalWrite 5 a c))
    ∧ countFailed (uploadFirmware nackSecondWrite sampleNode smallImage 1).2 = 1
    ∧ countWrites (uploadFirmware nackSecondWrite sampleNode smallImage 1).2 = 2 := by
  have h := Upload_abort_on_nack nackSecondWrite sampleNode smallImage 1 2 (by decide)
    nackSecondWrite_fails (by decide)
  refine ⟨⟨0, "timeout", by decide⟩, h.2.1, h.2.2.1⟩

/-! ## The shape of every upload -/

theorem uint32ToBytes_mod (u : Nat) : uint32ToBytes (u % 2 ^ 32) = uint32ToBytes u := by
  have h : ∀ k : Nat, k ≤ 24 → (Fin.ofNat (u % 2 ^ 32 / 2 ^ k) : Fin 256) = Fin.ofNat (u / 2 ^ k) := by
    intro k hk
    apply Fin.ext
    simp only [Fin.ofNat]
    have h1 : (2:Nat) ^ 32 = 2 ^ k * 2 ^ (32 - k) := by
      rw [← pow_add]
      congr 1
      omega
    rw [h1, Nat.mod_mul_right_div_self]
    have h2 : (256 : Nat) ∣ 2 ^ (32 - k) := by
      have : (256:Nat) = 2 ^ 8 := by norm_num
      rw [this]
      exact pow_dvd_pow 2 (by omega)
    exact Nat.mod_mod_of_dvd _ h2
  unfold uint32ToBytes
  have h0 := h 0 (by omega)
  simp only [pow_zero, Nat.div_one] at h0
  rw [h 24 (by omega), h 16 (by omega), h 8 (by omega), h0]

theorem Stopped.shift {env : Env} {X : List Event} {U : Prop} {r : JobResult}
    {t t1 : List Event} (A Y : List Event) (h : Stopped env X U r (t ++ A) t1) :
    Stopped env (A ++ X ++ Y) U r t t1 := by
  obtain ⟨P, hP, h⟩ := h
  refine ⟨A ++ P, ?_, ?_⟩
  · rw [List.append_assoc]
    exact (List.prefix_append_right_inj A).2 (hP.trans (List.prefix_append X Y))
  · rcases h with ⟨e, cause, h1, h2, h3, h4⟩ | ⟨c, pct, bytes, h1, h2, h3, h4⟩ | ⟨h1, h2, h3⟩
    · exact Or.inl ⟨e, cause, h1, h2, by rw [← List.append_assoc]; exact h3,
        by rw [h4]; simp⟩
    · refine Or.inr (Or.inl ⟨c, pct, bytes, h1, ?_, by rw [← List.append_assoc]; exact h3,
        by rw [h4]; simp⟩)
      rw [List.getLast?_append, h2]
      rfl
    · exact Or.inr (Or.inr ⟨h1, h2, by rw [h3]; simp⟩)

theorem Stopped.weaken {env : Env} {X : List Event} {U V : Prop} {r : JobResult}
    {t t1 : List Event} (huv : U → V) (h : Stopped env X U r t t1) :
    Stopped env X V r t t1 := by
  obtain ⟨P, hP, h⟩ := h
  refine ⟨P, hP, ?_⟩
  rcases h with h | h | ⟨h1, h2, h3⟩
  · exact Or.inl h
  · exact Or.inr (Or.inl h)
  · exact Or.inr (Or.inr ⟨h1, huv h2, h3⟩)

theorem Ran.prepend {env : Env} {X : List Event} {U V : Prop} {t : List Event}
    {w : JobResult × List Event} (A : List Event) (huv : U → V)
    (h : Ran env X U (t ++ A) w) : Ran env (A ++ X) V t w := by
  rcases h with ⟨h1, h2⟩ | h
  · exact Or.inl ⟨h1, by rw [h2, List.append_assoc]⟩
  · have := (Stopped.shift A [] h).weaken huv
    rw [List.append_nil] at this
    exact Or.inr this

theorem writeChunks_shape (env : Env) (node : NodeId) (block : Block)
    (page_offset address : Nat) (hfit : page_offset + 64 ≤ 2 ^ 32) :
    ∀ (n p crc : Nat) (t : List Event), p + 8 * n ≤ 64 →
      (∃ crc1, (writeChunks env node block block.Data.length page_offset address
                  (List.iterate (· + 8) p n) crc t).1 = Except.ok crc1
          ∧ crc1 = (chunks8 n (block.Data.drop (page_offset + p))).foldl crc32Update crc
          ∧ (writeChunks env node block block.Data.length page_offset address
                  (List.iterate (· + 8) p n) crc t).2
              = t ++ (chunks8 n (block.Data.drop (page_offset + p))).flatMap (fun c =>
                  [Event.Send node MessageType.SYS_BOOTLOADER_WRITE 0 c,
                   Event.Expect node MessageType.SYS_BOOTLOADER_WRITE_ACK]))
      ∨ (∃ e, (writeChunks env node block block.Data.length page_offset address
                  (List.iterate (· + 8) p n) crc t).1 = Except.error e
          ∧ Stopped env ((chunks8 n (block.Data.drop (page_offset + p))).flatMap (fun c =>
                  [Event.Send node MessageType.SYS_BOOTLOADER_WRITE 0 c,
                   Event.Expect node MessageType.SYS_BOOTLOADER_WRITE_ACK]))
              False (JobResult.error e) t
              (writeChunks env node block block.Data.length page_offset address
                  (List.iterate (· + 8) p n) crc t).2) := by
  intro n
  induction n with
  | zero =>
    intro p crc t _
    left
    exact ⟨crc, rfl, rfl, by simp [writeChunks, chunks8]⟩
  | succ n ih =>
    intro p crc t hp
    have hmod : (page_offset + p) % 2 ^ 32 = page_offset + p := Nat.mod_eq_of_lt (by omega)
    rw [List.iterate]
    unfold writeChunks
    rw [hmod]
    by_cases hlt : page_offset + p < block.Data.length
    · rw [if_pos hlt]
      have hne : block.Data.drop (page_offset + p) ≠ [] := by
        rw [Ne, List.drop_eq_nil_iff]
        omega
      have hch : chunks8 (n + 1) (block.Data.drop (page_offset + p))
          = (block.Data.drop (page_offset + p)).take 8
            :: chunks8 n (block.Data.drop (page_offset + (p + 8))) := by
        rw [chunks8, if_neg hne, List.drop_drop]
        congr 2
      rw [hch]
      simp only [ExpectSystemMessage, List.flatMap_cons, List.foldl_cons]
      cases hex : env.expect (t ++ [Event.Send node MessageType.SYS_BOOTLOADER_WRITE 0
            (List.take 8 (List.drop (page_offset + p) block.Data))]
          ++ [Event.Expect node MessageType.SYS_BOOTLOADER_WRITE_ACK]) with
      | error cause =>
        right
        refine ⟨FwError.Write node address cause, rfl,
          [Event.Send node MessageType.SYS_BOOTLOADER_WRITE 0
            (List.take 8 (List.drop (page_offset + p) block.Data)),
           Event.Expect node MessageType.SYS_BOOTLOADER_WRITE_ACK], ?_, ?_⟩
        · exact List.prefix_append _ _
        · refine Or.inl ⟨_, cause, rfl, by simp, ?_, ?_⟩
          · rw [← hex]
            simp
          · simp [Put]
      | ok payload =>
        simp only
        rcases ih (p + 8) (crc32Update crc (List.take 8 (List.drop (page_offset + p) block.Data)))
            (t ++ [Event.Send node MessageType.SYS_BOOTLOADER_WRITE 0
              (List.take 8 (List.drop (page_offset + p) block.Data))]
            ++ [Event.Expect node MessageType.SYS_BOOTLOADER_WRITE_ACK]) (by omega)
          with ⟨crc1, h1, h2, h3⟩ | ⟨e, h1, h2⟩
        · left
          refine ⟨crc1, h1, h2, ?_⟩
          rw [h3]
          simp
        · right
          refine ⟨e, h1, ?_⟩
          have := Stopped.shift
            [Event.Send node MessageType.SYS_BOOTLOADER_WRITE 0
              (List.take 8 (List.drop (page_offset + p) block.Data)),
             Event.Expect node MessageType.SYS_BOOTLOADER_WRITE_ACK] []
            (by simpa using h2)
          simpa using this
    · rw [if_neg hlt]
      have he : block.Data.drop (page_offset + p) = [] := by
        rw [List.drop_eq_nil_iff]
        omega
      left
      refine ⟨crc, rfl, ?_, ?_⟩
      · rw [he]
        simp [chunks8]
      · rw [he]
        simp [chunks8]

theorem crc32Update_nil (c : Nat) : crc32Update c [] = c := by
  simp [crc32Update, Nat.xor_cancel_left]

theorem crc32Update_append (c : Nat) (a b : List Byte) :
    crc32Update (crc32Update c a) b = crc32Update c (a ++ b) := by
  simp [crc32Update, Nat.xor_cancel_left, List.foldl_append]

/-- The checksum accumulated chunk by chunk is the checksum of the bytes in one go. -/
theorem foldl_crc32Update_chunks8 : ∀ (n : Nat) (rest : List Byte) (c : Nat),
    (chunks8 n rest).foldl crc32Update c = crc32Update c (rest.take (8 * n)) := by
  intro n
  induction n with
  | zero =>
    intro rest c
    simp [chunks8, crc32Update_nil]
  | succ n ih =>
    intro rest c
    by_cases hr : rest = []
    · subst hr
      simp [chunks8, crc32Update_nil]
    · rw [chunks8, if_neg hr, List.foldl_cons, ih, crc32Update_append]
      congr 1
      rw [show 8 * (n + 1) = 8 + 8 * n by ring, List.take_add]

theorem pagePositions_eq : pagePositions = List.iterate (· + 8) 0 8 := rfl

theorem uploadPages_shape (env : Env) (node : NodeId) (block : Block) (address : Nat)
    (hfit : block.Data.length + 64 ≤ 2 ^ 32) :
    ∀ (n fuel page_offset : Nat) (t : List Event),
      block.Data.length ≤ page_offset + 64 * n →
      Ran env (blockEventsFrom node block n page_offset)
        (page_offset + 64 * fuel < block.Data.length) t
        (uploadPages env node block block.Data.length address fuel page_offset t) := by
  intro n
  induction n with
  | zero =>
    intro fuel page_offset t hn
    left
    have hge : ¬ page_offset < block.Data.length := by omega
    cases fuel <;> simp [uploadPages, hge, blockEventsFrom]
  | succ n ih =>
    intro fuel page_offset t hn
    by_cases hlt : page_offset < block.Data.length
    · rw [blockEventsFrom, if_pos hlt]
      cases fuel with
      | zero =>
        right
        refine ⟨[], List.nil_prefix, Or.inr (Or.inr ⟨?_, by omega, ?_⟩)⟩
        · simp [uploadPages, hlt]
        · simp [uploadPages, hlt]
      | succ fuel =>
        unfold uploadPages
        rw [if_pos hlt]
        simp only [ExpectSystemMessage, uint32ToBytes_mod]
        cases hex : env.expect (t ++ [Event.Send node MessageType.SYS_BOOTLOADER_SET_ADDRESS 70
              (uint32ToBytes (block.Offset + page_offset))]
            ++ [Event.Expect node MessageType.SYS_BOOTLOADER_SET_ADDRESS_ACK]) with
        | error cause =>
          right
          refine ⟨[Event.Send node MessageType.SYS_BOOTLOADER_SET_ADDRESS 70
              (uint32ToBytes (block.Offset + page_offset)),
            Event.Expect node MessageType.SYS_BOOTLOADER_SET_ADDRESS_ACK], ?_, ?_⟩
          · simp [pageEvents]
          · refine Or.inl ⟨_, cause, rfl, by simp, ?_, ?_⟩
            · rw [← hex]
              simp
            · simp [Put]
        | ok payload =>
          simp only
          rw [pagePositions_eq]
          rcases writeChunks_shape env node block page_offset address (by omega) 8 0 0
              (t ++ [Event.Send node MessageType.SYS_BOOTLOADER_SET_ADDRESS 70
                (uint32ToBytes (block.Offset + page_offset))]
              ++ [Event.Expect node MessageType.SYS_BOOTLOADER_SET_ADDRESS_ACK]) (by omega)
            with ⟨crc1, h1, h2, h3⟩ | ⟨e, h1, h2⟩
          · revert h1 h3
            generalize writeChunks env node block block.Data.length page_offset address
              (List.iterate (· + 8) 0 8) 0
              (t ++ [Event.Send node MessageType.SYS_BOOTLOADER_SET_ADDRESS 70
                (uint32ToBytes (block.Offset + page_offset))]
              ++ [Event.Expect node MessageType.SYS_BOOTLOADER_SET_ADDRESS_ACK]) = w
            obtain ⟨r, t3⟩ := w
            intro h1 h3
            simp only at h1 h3
            subst h1
            simp only
            have hcrc : crc1 = crc32Update 0 (pageBytes block.Data page_offset) := by
              rw [h2, foldl_crc32Update_chunks8]
              rfl
            rw [hcrc]
            subst h3
            have hP : ([Event.Send node MessageType.SYS_BOOTLOADER_SET_ADDRESS 70
                  (uint32ToBytes (block.Offset + page_offset)),
                Event.Expect node MessageType.SYS_BOOTLOADER_SET_ADDRESS_ACK]
                ++ (pageChunks block.Data page_offset).flatMap (fun c =>
                    [Event.Send node MessageType.SYS_BOOTLOADER_WRITE 0 c,
                     Event.Expect node MessageType.SYS_BOOTLOADER_WRITE_ACK])
                ++ [Event.Send node MessageType.SYS_BOOTLOADER_WRITE 1
                      (uint32ToBytes (crc32Update 0 (pageBytes block.Data page_offset))),
                    Event.Expect node MessageType.SYS_BOOTLOADER_WRITE_ACK])
                ++ [Event.PutProgress
                      (Progress.Update (page_offset * 100 % 2 ^ 32 / block.Data.length) 0)]
                = pageEvents node block page_offset := by
              simp [pageEvents]
            split
            · rename_i err t5 heq
              simp only [Prod.mk.injEq] at heq
              obtain ⟨he, ht5⟩ := heq
              subst ht5
              right
              refine ⟨[Event.Send node MessageType.SYS_BOOTLOADER_SET_ADDRESS 70
                  (uint32ToBytes (block.Offset + page_offset)),
                Event.Expect node MessageType.SYS_BOOTLOADER_SET_ADDRESS_ACK]
                ++ (pageChunks block.Data page_offset).flatMap (fun c =>
                    [Event.Send node MessageType.SYS_BOOTLOADER_WRITE 0 c,
                     Event.Expect node MessageType.SYS_BOOTLOADER_WRITE_ACK])
                ++ [Event.Send node MessageType.SYS_BOOTLOADER_WRITE 1
                      (uint32ToBytes (crc32Update 0 (pageBytes block.Data page_offset))),
                    Event.Expect node MessageType.SYS_BOOTLOADER_WRITE_ACK], ?_, ?_⟩
              · rw [← hP, List.append_assoc _ [_] _]
                exact List.prefix_append _ _
              · refine Or.inl ⟨_, err, rfl, by simp, ?_, ?_⟩
                · rw [← he]
                  simp [pageChunks]
                · simp [Put, pageChunks]
            · rename_i payload5 t5 heq
              simp only [Prod.mk.injEq] at heq
              obtain ⟨_, ht5⟩ := heq
              subst ht5
              rw [if_neg (by omega)]
              simp only [Put]
              have ht6 : t ++ [Event.Send node MessageType.SYS_BOOTLOADER_SET_ADDRESS 70
                    (uint32ToBytes (block.Offset + page_offset))]
                  ++ [Event.Expect node MessageType.SYS_BOOTLOADER_SET_ADDRESS_ACK]
                  ++ (chunks8 8 (List.drop (page_offset + 0) block.Data)).flatMap (fun c =>
                      [Event.Send node MessageType.SYS_BOOTLOADER_WRITE 0 c,
                       Event.Expect node MessageType.SYS_BOOTLOADER_WRITE_ACK])
                  ++ [Event.Send node MessageType.SYS_BOOTLOADER_WRITE 1
                      (uint32ToBytes (crc32Update 0 (pageBytes block.Data page_offset)))]
                  ++ [Event.Expect node MessageType.SYS_BOOTLOADER_WRITE_ACK]
                  ++ [Event.PutProgress
                      (Progress.Update (page_offset * 100 % 2 ^ 32 / block.Data.length) 0)]
                  = t ++ pageEvents node block page_offset := by
                simp [pageEvents, pageChunks]
              rw [ht6]
              cases hput : env.put (t ++ pageEvents node block page_offset) with
              | some c =>
                right
                refine ⟨pageEvents node block page_offset, List.prefix_append _ _,
                  Or.inr (Or.inl ⟨c, page_offset * 100 % 2 ^ 32 / block.Data.length, 0, rfl, ?_,
                    hput, rfl⟩)⟩
                rw [← hP]
                exact List.getLast?_concat _
              | none =>
                simp only
                have hmod : (page_offset + FLASH_PAGE_SIZE) % 2 ^ 32 = page_offset + 64 :=
                  Nat.mod_eq_of_lt (by unfold FLASH_PAGE_SIZE; omega)
                rw [hmod]
                exact Ran.prepend (pageEvents node block page_offset) (by intro h; omega)
                  (ih fuel (page_offset + 64) (t ++ pageEvents node block page_offset)
                    (by omega))
          · revert h1 h2
            generalize writeChunks env node block block.Data.length page_offset address
              (List.iterate (· + 8) 0 8) 0
              (t ++ [Event.Send node MessageType.SYS_BOOTLOADER_SET_ADDRESS 70
                (uint32ToBytes (block.Offset + page_offset))]
              ++ [Event.Expect node MessageType.SYS_BOOTLOADER_SET_ADDRESS_ACK]) = w
            obtain ⟨r, t3⟩ := w
            intro h1 h2
            simp only at h1 h2
            subst h1
            simp only
            right
            rw [show pageEvents node block page_offset
                  ++ blockEventsFrom node block n (page_offset + 64)
                = [Event.Send node MessageType.SYS_BOOTLOADER_SET_ADDRESS 70
                    (uint32ToBytes (block.Offset + page_offset)),
                  Event.Expect node MessageType.SYS_BOOTLOADER_SET_ADDRESS_ACK]
                  ++ (chunks8 8 (List.drop (page_offset + 0) block.Data)).flatMap (fun c =>
                      [Event.Send node MessageType.SYS_BOOTLOADER_WRITE 0 c,
                       Event.Expect node MessageType.SYS_BOOTLOADER_WRITE_ACK])
                  ++ ([Event.Send node MessageType.SYS_BOOTLOADER_WRITE 1
                        (uint32ToBytes (crc32Update 0 (pageBytes block.Data page_offset))),
                      Event.Expect node MessageType.SYS_BOOTLOADER_WRITE_ACK,
                      Event.PutProgress
                        (Progress.Update (page_offset * 100 % 2 ^ 32 / block.Data.length) 0)]
                      ++ blockEventsFrom node block n (page_offset + 64))
                from by simp [pageEvents, pageChunks]]
            exact (Stopped.shift _ _ (by simpa using h2)).weaken False.elim
    · left
      rw [blockEventsFrom, if_neg hlt]
      cases fuel <;> simp [uploadPages, hlt]

theorem Stopped.extend {env : Env} {X : List Event} {U V : Prop} {r : JobResult}
    {t t1 : List Event} (Y : List Event) (huv : U → V) (h : Stopped env X U r t t1) :
    Stopped env (X ++ Y) V r t t1 := by
  have h1 : Stopped env X U r (t ++ []) t1 := by rw [List.append_nil]; exact h
  have := (Stopped.shift [] Y h1).weaken huv
  rw [List.nil_append] at this
  exact this

theorem Stopped.ne_ok {env : Env} {X : List Event} {U : Prop} {r : JobResult}
    {t t1 : List Event} (h : Stopped env X U r t t1) : r ≠ JobResult.ok := by
  obtain ⟨P, _, h⟩ := h
  rcases h with ⟨e, cause, h1, _⟩ | ⟨c, pct, bytes, h1, _⟩ | ⟨h1, _⟩ <;> rw [h1] <;> simp

theorem uploadBlocks_shape (env : Env) (node : NodeId) (address fuel : Nat) :
    ∀ (blocks : List Block) (t : List Event),
      (∀ b ∈ blocks, b.Data.length + 64 ≤ 2 ^ 32) →
      Ran env (blocks.flatMap (blockEvents node))
        (∃ b ∈ blocks, 64 * fuel < b.Data.length) t
        (uploadBlocks env node address fuel blocks t) := by
  intro blocks
  induction blocks with
  | nil =>
    intro t _
    left
    simp [uploadBlocks]
  | cons block rest ih =>
    intro t hfit
    have hb : block.Data.length + 64 ≤ 2 ^ 32 := hfit block (List.mem_cons_self _ _)
    have hmod : block.Data.length % 2 ^ 32 = block.Data.length := Nat.mod_eq_of_lt (by omega)
    have hp := uploadPages_shape env node block address hb block.Data.length fuel 0 t (by omega)
    unfold uploadBlocks
    rw [hmod, List.flatMap_cons]
    revert hp
    generalize uploadPages env node block block.Data.length address fuel 0 t = w
    obtain ⟨r, t1⟩ := w
    intro hp
    rcases hp with ⟨h1, h2⟩ | hs
    · simp only at h1 h2
      subst h1
      subst h2
      simp only
      exact Ran.prepend (blockEvents node block)
        (fun ⟨b, hb1, hb2⟩ => ⟨b, List.mem_cons_of_mem _ hb1, hb2⟩)
        (ih _ (fun b hb1 => hfit b (List.mem_cons_of_mem _ hb1)))
    · simp only at hs
      have hne := hs.ne_ok
      have hs2 : Stopped env (blockEvents node block ++ rest.flatMap (blockEvents node))
          (∃ b ∈ block :: rest, 64 * fuel < b.Data.length) r t t1 :=
        hs.extend _ (fun h => ⟨block, List.mem_cons_self _ _, by omega⟩)
      cases r with
      | ok => exact absurd rfl hne
      | error e => exact Or.inr hs2
      | unfinished => exact Or.inr hs2
      | panic => exact Or.inr hs2

/-- The shape of every upload of an image whose blocks fit the 32-bit page counter,
whatever the transport and the client do: it runs to its end and returns nil; or the
client refuses the final Success event; or it stops early (`Stopped`). -/
theorem uploadFirmware_shape (env : Env) (node : Node) (firmware : NodeFirmware) (fuel : Nat)
    (hfit : FitsCounter firmware) :
    ((uploadFirmware env node firmware fuel).1 = JobResult.ok
      ∧ (uploadFirmware env node firmware fuel).2 = uploadEvents node.Id firmware)
    ∨ (∃ c, (uploadFirmware env node firmware fuel).1 = JobResult.error (FwError.Sink c)
      ∧ (uploadFirmware env node firmware fuel).2 = uploadEvents node.Id firmware
      ∧ env.put (uploadEvents node.Id firmware) = some c)
    ∨ Stopped env (uploadBody node.Id firmware)
        (∃ b ∈ firmware.Code, 64 * fuel < b.Data.length)
        (uploadFirmware env node firmware fuel).1 []
        (uploadFirmware env node firmware fuel).2 := by
  unfold uploadFirmware
  simp only [ExpectSystemMessage]
  cases hex : env.expect ([Event.Send node.Id MessageType.SYS_BOOTLOADER_SET_ADDRESS 70
        (uint32ToBytes FLASH_APP_ORIGIN)]
      ++ [Event.Expect node.Id MessageType.SYS_BOOTLOADER_SET_ADDRESS_ACK]) with
  | error cause =>
    right; right
    refine ⟨[Event.Send node.Id MessageType.SYS_BOOTLOADER_SET_ADDRESS 70
        (uint32ToBytes FLASH_APP_ORIGIN),
      Event.Expect node.Id MessageType.SYS_BOOTLOADER_SET_ADDRESS_ACK], ?_, ?_⟩
    · simp [uploadBody]
    · refine Or.inl ⟨_, cause, rfl, by simp, ?_, ?_⟩
      · rw [← hex]
        simp
      · simp [Put]
  | ok payload =>
    simp only
    cases hex2 : env.expect ([Event.Send node.Id MessageType.SYS_BOOTLOADER_SET_ADDRESS 70
          (uint32ToBytes FLASH_APP_ORIGIN)]
        ++ [Event.Expect node.Id MessageType.SYS_BOOTLOADER_SET_ADDRESS_ACK]
        ++ [Event.Send node.Id MessageType.SYS_BOOTLOADER_ERASE 0 []]
        ++ [Event.Expect node.Id MessageType.SYS_BOOTLOADER_ERASE_ACK]) with
    | error cause =>
      right; right
      refine ⟨[Event.Send node.Id MessageType.SYS_BOOTLOADER_SET_ADDRESS 70
          (uint32ToBytes FLASH_APP_ORIGIN),
        Event.Expect node.Id MessageType.SYS_BOOTLOADER_SET_ADDRESS_ACK,
        Event.Send node.Id MessageType.SYS_BOOTLOADER_ERASE 0 [],
        Event.Expect node.Id MessageType.SYS_BOOTLOADER_ERASE_ACK], ?_, ?_⟩
      · simp [uploadBody]
      · refine Or.inl ⟨_, cause, rfl, by simp, ?_, ?_⟩
        · rw [← hex2]
          simp
        · simp [Put]
    | ok payload2 =>
      simp only
      have hb := uploadBlocks_shape env node.Id 0 fuel firmware.Code
        ([Event.Send node.Id MessageType.SYS_BOOTLOADER_SET_ADDRESS 70
          (uint32ToBytes FLASH_APP_ORIGIN)]
        ++ [Event.Expect node.Id MessageType.SYS_BOOTLOADER_SET_ADDRESS_ACK]
        ++ [Event.Send node.Id MessageType.SYS_BOOTLOADER_ERASE 0 []]
        ++ [Event.Expect node.Id MessageType.SYS_BOOTLOADER_ERASE_ACK]) hfit
      revert hb
      generalize uploadBlocks env node.Id 0 fuel firmware.Code
        ([Event.Send node.Id MessageType.SYS_BOOTLOADER_SET_ADDRESS 70
          (uint32ToBytes FLASH_APP_ORIGIN)]
        ++ [Event.Expect node.Id MessageType.SYS_BOOTLOADER_SET_ADDRESS_ACK]
        ++ [Event.Send node.Id MessageType.SYS_BOOTLOADER_ERASE 0 []]
        ++ [Event.Expect node.Id MessageType.SYS_BOOTLOADER_ERASE_ACK]) = w
      obtain ⟨r, t5⟩ := w
      intro hb
      rcases hb with ⟨h1, h2⟩ | hs
      · simp only at h1 h2
        subst h1
        have ht5 : t5 = uploadBody node.Id firmware := by
          rw [h2]
          simp [uploadBody]
        subst ht5
        simp only [Put]
        cases hput : env.put (uploadBody node.Id firmware
            ++ [Event.PutProgress Progress.Success]) with
        | some c => exact Or.inr (Or.inl ⟨c, rfl, rfl, hput⟩)
        | none => exact Or.inl ⟨rfl, rfl⟩
      · simp only at hs
        have hne := hs.ne_ok
        have hs2 : Stopped env (uploadBody node.Id firmware)
            (∃ b ∈ firmware.Code, 64 * fuel < b.Data.length) r [] t5 := by
          have h := Stopped.shift (t := [])
            [Event.Send node.Id MessageType.SYS_BOOTLOADER_SET_ADDRESS 70
              (uint32ToBytes FLASH_APP_ORIGIN),
             Event.Expect node.Id MessageType.SYS_BOOTLOADER_SET_ADDRESS_ACK,
             Event.Send node.Id MessageType.SYS_BOOTLOADER_ERASE 0 [],
             Event.Expect node.Id MessageType.SYS_BOOTLOADER_ERASE_ACK] []
            (by simpa using hs)
          simpa [uploadBody] using h
        cases r with
        | ok => exact absurd rfl hne
        | error e => exact Or.inr (Or.inr hs2)
        | unfinished => exact Or.inr (Or.inr hs2)
        | panic => exact Or.inr (Or.inr hs2)

/-! ## Reading the undisturbed upload -/

theorem dataWrites_append (a b : List Event) :
    dataWrites (a ++ b) = dataWrites a ++ dataWrites b := by
  simp [dataWrites]

theorem percents_append (a b : List Event) :
    percents (a ++ b) = percents a ++ percents b := by
  induction a with
  | nil => rfl
  | cons e a ih =>
    rcases e with _ | _ | p | _
    · simpa [percents] using ih
    · simpa [percents] using ih
    · cases p <;> simpa [percents] using ih
    · simpa [percents] using ih

theorem countTerminal_append (a b : List Event) :
    countTerminal (a ++ b) = countTerminal a + countTerminal b := by
  simp [countTerminal]

theorem setAddresses_append (a b : List Event) :
    setAddresses (a ++ b) = setAddresses a ++ setAddresses b := by
  simp [setAddresses]

theorem chunks8_flatten : ∀ (n : Nat) (rest : List Byte),
    (chunks8 n rest).flatten = rest.take (8 * n) := by
  intro n
  induction n with
  | zero => intro rest; simp [chunks8]
  | succ n ih =>
    intro rest
    by_cases hr : rest = []
    · subst hr
      simp [chunks8]
    · rw [chunks8, if_neg hr, List.flatten_cons, ih,
        show 8 * (n + 1) = 8 + 8 * n by ring, List.take_add]

theorem chunks8_length_le : ∀ (n : Nat) (rest : List Byte), (chunks8 n rest).length ≤ n := by
  intro n
  induction n with
  | zero => intro rest; simp [chunks8]
  | succ n ih =>
    intro rest
    rw [chunks8]
    split
    · simp
    · simpa using ih (rest.drop 8)

theorem chunks8_mem : ∀ (n : Nat) (rest c : List Byte), c ∈ chunks8 n rest →
    1 ≤ c.length ∧ c.length ≤ 8 := by
  intro n
  induction n with
  | zero => intro rest c h; simp [chunks8] at h
  | succ n ih =>
    intro rest c h
    rw [chunks8] at h
    split at h
    · simp at h
    · rename_i hr
      rcases List.mem_cons.1 h with h | h
      · subst h
        have : 0 < rest.length := List.length_pos.2 hr
        rw [List.length_take]
        omega
      · exact ih _ _ h

theorem pageChunks_flatten (data : List Byte) (page_offset : Nat) :
    (pageChunks data page_offset).flatten = pageBytes data page_offset := by
  rw [pageChunks, chunks8_flatten]
  rfl

theorem dataWrites_chunks (node : NodeId) (cs : List (List Byte)) :
    dataWrites (cs.flatMap (fun c =>
        [Event.Send node MessageType.SYS_BOOTLOADER_WRITE 0 c,
         Event.Expect node MessageType.SYS_BOOTLOADER_WRITE_ACK])) = cs.flatten := by
  induction cs with
  | nil => rfl
  | cons c cs ih =>
    rw [List.flatMap_cons, dataWrites_append, ih]
    simp [dataWrites, writeData]

theorem dataWrites_pageEvents (node : NodeId) (block : Block) (page_offset : Nat) :
    dataWrites (pageEvents node block page_offset) = pageBytes block.Data page_offset := by
  rw [pageEvents, dataWrites_append, dataWrites_append, dataWrites_chunks, pageChunks_flatten]
  simp [dataWrites, writeData]

theorem dataWrites_blockEventsFrom (node : NodeId) (block : Block) :
    ∀ (n page_offset : Nat),
      dataWrites (blockEventsFrom node block n page_offset)
        = (block.Data.drop page_offset).take (64 * n) := by
  intro n
  induction n with
  | zero => intro po; simp [blockEventsFrom, dataWrites]
  | succ n ih =>
    intro po
    rw [blockEventsFrom]
    split
    · rw [dataWrites_append, dataWrites_pageEvents, ih, pageBytes,
        show 64 * (n + 1) = 64 + 64 * n by ring, List.take_add, List.drop_drop]
    · rename_i h
      have : block.Data.drop po = [] := by
        rw [List.drop_eq_nil_iff]
        omega
      rw [this]
      simp [dataWrites]

theorem dataWrites_blockEvents (node : NodeId) (block : Block) :
    dataWrites (blockEvents node block) = block.Data := by
  rw [blockEvents, dataWrites_blockEventsFrom, List.drop_zero, List.take_of_length_le]
  omega

theorem sends_chunks (node : NodeId) (cs : List (List Byte)) :
    sends (cs.flatMap (fun c =>
        [Event.Send node MessageType.SYS_BOOTLOADER_WRITE 0 c,
         Event.Expect node MessageType.SYS_BOOTLOADER_WRITE_ACK]))
      = cs.map (fun c => Event.Send node MessageType.SYS_BOOTLOADER_WRITE 0 c) := by
  induction cs with
  | nil => rfl
  | cons c cs ih =>
    rw [List.flatMap_cons, sends_append, ih]
    simp [sends]

theorem sends_pageEvents (node : NodeId) (block : Block) (page_offset : Nat) :
    sends (pageEvents node block page_offset) = pageCommands node block page_offset := by
  rw [pageEvents, sends_append, sends_append, sends_chunks]
  simp [sends, pageCommands]

theorem sends_blockEventsFrom (node : NodeId) (block : Block) :
    ∀ (n page_offset : Nat), block.Data.length ≤ page_offset + 64 * n →
      sends (blockEventsFrom node block n page_offset)
        = (List.range' page_offset ((block.Data.length - page_offset + 63) / 64) 64).flatMap
            (pageCommands node block) := by
  intro n
  induction n with
  | zero =>
    intro po h
    have : (block.Data.length - po + 63) / 64 = 0 := by omega
    rw [this]
    simp [blockEventsFrom, sends]
  | succ n ih =>
    intro po h
    rw [blockEventsFrom]
    split
    · rename_i hlt
      have : (block.Data.length - po + 63) / 64
          = (block.Data.length - (po + 64) + 63) / 64 + 1 := by omega
      rw [this, List.range'_succ, List.flatMap_cons, sends_append, sends_pageEvents,
        ih (po + 64) (by omega)]
    · rename_i hlt
      have : (block.Data.length - po + 63) / 64 = 0 := by omega
      rw [this]
      simp [sends]

theorem sends_blockEvents (node : NodeId) (block : Block) :
    sends (blockEvents node block)
      = (pageOffsets block.Data.length).flatMap (pageCommands node block) := by
  rw [blockEvents, sends_blockEventsFrom node block _ 0 (by omega), pageOffsets]
  rfl

theorem sends_flatMap_blockEvents (node : NodeId) (blocks : List Block) :
    sends (blocks.flatMap (blockEvents node))
      = blocks.flatMap (fun b => (pageOffsets b.Data.length).flatMap (pageCommands node b)) := by
  induction blocks with
  | nil => rfl
  | cons b bs ih => rw [List.flatMap_cons, List.flatMap_cons, sends_append, ih, sends_blockEvents]

theorem sends_uploadEvents (node : NodeId) (firmware : NodeFirmware) :
    sends (uploadEvents node firmware) = uploadCommands node firmware := by
  rw [uploadEvents, uploadBody, sends_append, sends_append, sends_flatMap_blockEvents,
    uploadCommands]
  simp [sends]

/-- An upload over a transport that acknowledges every request and a client that accepts
every Update event, with fuel for every block: it produces exactly the events of
`uploadEvents`, and returns nil or the error of the client for the Success event. -/
theorem uploadFirmware_complete (env : Env) (node : Node) (firmware : NodeFirmware)
    (fuel : Nat) (hack : AllAck env) (hupd : AcceptsUpdates env)
    (hfit : FitsCounter firmware) (hfuel : EnoughFuel firmware fuel) :
    (uploadFirmware env node firmware fuel).2 = uploadEvents node.Id firmware
    ∧ ((uploadFirmware env node firmware fuel).1 = JobResult.ok
        ∨ ∃ c, (uploadFirmware env node firmware fuel).1 = JobResult.error (FwError.Sink c)) := by
  rcases uploadFirmware_shape env node firmware fuel hfit with ⟨h1, h2⟩ | ⟨c, h1, h2, _⟩ | hs
  · exact ⟨h2, Or.inl h1⟩
  · exact ⟨h2, Or.inr ⟨c, h1⟩⟩
  · exfalso
    obtain ⟨P, _, h⟩ := hs
    rcases h with ⟨e, cause, _, _, h3, _⟩ | ⟨c, pct, bytes, _, h2, h3, _⟩ | ⟨_, ⟨b, hb, hlt⟩, _⟩
    · obtain ⟨payload, hp⟩ := hack ([] ++ P)
      rw [hp] at h3
      cases h3
    · obtain ⟨ys, hys⟩ := List.getLast?_eq_some_iff.1 h2
      rw [hys, List.nil_append, hupd] at h3
      cases h3
    · have := hfuel b hb
      omega

theorem dataWrites_sends (t : List Event) : dataWrites (sends t) = dataWrites t := by
  induction t with
  | nil => rfl
  | cons e t ih =>
    have h : dataWrites (e :: t) = writeData e ++ dataWrites t := by simp [dataWrites]
    rw [h, ← ih]
    cases e <;> simp [sends, dataWrites, writeData]

theorem AllAck_deafClientEnv : AllAck deafClientEnv := fun _ => ⟨[], rfl⟩

theorem AllAck_quietEnv : AllAck quietEnv := fun _ => ⟨[], rfl⟩

theorem AcceptsUpdates_quietEnv : AcceptsUpdates quietEnv := fun _ _ _ => rfl

/-- The commands of the upload of one block whose length modulo `2^32` is 10: the engine
takes `blocksize = 10` and writes two chunks, the second one of the 8 bytes from offset 8
when the block has that many. -/
theorem upload_truncated_block (data : List Byte) (off : Nat)
    (hlen : data.length % 2 ^ 32 = 10) :
    sends (uploadFirmware quietEnv sampleNode
        { Code := [{ Offset := off, Data := data }], Limit := 0 } 1).2
      = [Event.Send 5 MessageType.SYS_BOOTLOADER_SET_ADDRESS 70 (uint32ToBytes 0x2000),
         Event.Send 5 MessageType.SYS_BOOTLOADER_ERASE 0 [],
         Event.Send 5 MessageType.SYS_BOOTLOADER_SET_ADDRESS 70 (uint32ToBytes off),
         Event.Send 5 MessageType.SYS_BOOTLOADER_WRITE 0 (data.take 8),
         Event.Send 5 MessageType.SYS_BOOTLOADER_WRITE 0 ((data.drop 8).take 8),
         Event.Send 5 MessageType.SYS_BOOTLOADER_WRITE 1
           (uint32ToBytes (crc32Update 0 (data.take 8 ++ (data.drop 8).take 8)))] := by
  simp only [uploadFirmware, uploadBlocks, hlen, ExpectSystemMessage, quietEnv, sampleNode, Put]
  simp [uploadPages, writeChunks, pagePositions, ExpectSystemMessage, Put, sends,
    FLASH_APP_ORIGIN, FLASH_ORIGIN, FLASH_PAGE_SIZE, crc32Update_append]
  exact uint32ToBytes_mod off

/-! ## C18: the commands of an upload -/

/-- C18, as stated, fails: with a transport that acknowledges every request and a
client that refuses the Update event, the upload of an image of two blocks stops after
the page of the first block; the `SET_ADDRESS` for the second block is never sent and
no byte of it is written. And of a block of `2^32 + 10` bytes, whose length does not fit
32 bits, 16 bytes are written, whatever the client does. -/
theorem Upload_commands_cut_short :
    AllAck deafClientEnv
    ∧ (uploadFirmware deafClientEnv sampleNode twoSmallBlocks 1).1
        = JobResult.error (FwError.Sink "client gone")
    ∧ Event.Send 5 MessageType.SYS_BOOTLOADER_SET_ADDRESS 70 (uint32ToBytes 0x2040)
        ∉ (uploadFirmware deafClientEnv sampleNode twoSmallBlocks 1).2
    ∧ dataWrites (uploadFirmware deafClientEnv sampleNode twoSmallBlocks 1).2 = [1]
    ∧ dataWrites (uploadFirmware quietEnv sampleNode hugeImage 1).2 = List.replicate 16 0 := by
  refine ⟨AllAck_deafClientEnv, by decide, by decide, by decide, ?_⟩
  rw [← dataWrites_sends]
  unfold hugeImage
  rw [upload_truncated_block _ _ (by rw [List.length_replicate]; norm_num)]
  rw [List.take_replicate, List.drop_replicate, List.take_replicate]
  have h1 : min 8 (2 ^ 32 + 10) = 8 := by norm_num
  have h2 : min 8 (2 ^ 32 + 10 - 8) = 8 := by norm_num
  rw [h1, h2]
  rfl

/-- C18 (amended): for every image whose blocks fit the 32-bit page counter, a transport
that acknowledges every request and a client that accepts every Update event, the
commands an upload sends are `SET_ADDRESS(0x2000)`, `ERASE`, then for each block in listed
order and each page offset `0, 64, ...` below its length `SET_ADDRESS(Offset +
page_offset)`, the data WRITEs of the page and its checksum WRITE. Each page has at most 8
data WRITEs, of 1 to 8 bytes each, whose payloads concatenated are the bytes of the page;
the data WRITE payloads of a block concatenated are `block.Data`. -/
theorem Upload_commands (env : Env) (node : Node) (firmware : NodeFirmware) (fuel : Nat)
    (hack : AllAck env) (hupd : AcceptsUpdates env) (hfit : FitsCounter firmware)
    (hfuel : EnoughFuel firmware fuel) :
    sends (uploadFirmware env node firmware fuel).2 = uploadCommands node.Id firmware
    ∧ ∀ b ∈ firmware.Code,
        (∀ page_offset : Nat,
          (pageChunks b.Data page_offset).length ≤ 8
          ∧ (∀ c ∈ pageChunks b.Data page_offset, 1 ≤ c.length ∧ c.length ≤ 8)
          ∧ dataWrites (pageCommands node.Id b page_offset) = pageBytes b.Data page_offset)
        ∧ dataWrites ((pageOffsets b.Data.length).flatMap (pageCommands node.Id b))
            = b.Data := by
  refine ⟨?_, ?_⟩
  · rw [(uploadFirmware_complete env node firmware fuel hack hupd hfit hfuel).1,
      sends_uploadEvents]
  · intro b _
    refine ⟨fun po => ⟨chunks8_length_le _ _, fun c hc => chunks8_mem _ _ c hc, ?_⟩, ?_⟩
    · rw [← sends_pageEvents, dataWrites_sends, dataWrites_pageEvents]
    · rw [← sends_blockEvents, dataWrites_sends, dataWrites_blockEvents]

/-- Witness for C18: the three-byte image over the quiet environment. -/
theorem Upload_commands_witness :
    sends (uploadFirmware quietEnv sampleNode smallImage 1).2
        = uploadCommands sampleNode.Id smallImage
    ∧ ∀ b ∈ smallImage.Code,
        (∀ page_offset : Nat,
          (pageChunks b.Data page_offset).length ≤ 8
          ∧ (∀ c ∈ pageChunks b.Data page_offset, 1 ≤ c.length ∧ c.length ≤ 8)
          ∧ dataWrites (pageCommands sampleNode.Id b page_offset)
              = pageBytes b.Data page_offset)
        ∧ dataWrites ((pageOffsets b.Data.length).flatMap (pageCommands sampleNode.Id b))
            = b.Data :=
  Upload_commands quietEnv sampleNode smallImage 1 AllAck_quietEnv AcceptsUpdates_quietEnv
    (by intro b hb; simp [smallImage] at hb; subst hb; simp)
    (by intro b hb; simp [smallImage] at hb; subst hb; simp)

/-! ## C13: the checksum of a page -/

/-- Every upload of an image whose blocks fit the 32-bit page counter, whatever the
transport and the client do, produces an initial part of `uploadBody`, followed by
nothing, by the Failed event or by the Success event. -/
theorem uploadFirmware_initial (env : Env) (node : Node) (firmware : NodeFirmware) (fuel : Nat)
    (hfit : FitsCounter firmware) :
    ∃ P tail : List Event, P <+: uploadBody node.Id firmware
      ∧ (uploadFirmware env node firmware fuel).2 = P ++ tail
      ∧ (tail = [] ∨ tail = [Event.PutProgress Progress.Failed]
          ∨ tail = [Event.PutProgress Progress.Success]) := by
  rcases uploadFirmware_shape env node firmware fuel hfit with ⟨_, h2⟩ | ⟨c, _, h2, _⟩ | hs
  · exact ⟨_, _, List.prefix_refl _, h2, Or.inr (Or.inr rfl)⟩
  · exact ⟨_, _, List.prefix_refl _, h2, Or.inr (Or.inr rfl)⟩
  · obtain ⟨P, hP, h⟩ := hs
    rcases h with ⟨e, cause, _, _, _, h4⟩ | ⟨c, pct, bytes, _, _, _, h4⟩ | ⟨_, _, h4⟩
    · exact ⟨P, _, hP, by rw [h4, List.nil_append], Or.inr (Or.inl rfl)⟩
    · exact ⟨P, [], hP, by rw [h4, List.nil_append, List.append_nil], Or.inl rfl⟩
    · exact ⟨P, [], hP, by rw [h4, List.nil_append, List.append_nil], Or.inl rfl⟩

theorem sends_uploadBody (node : NodeId) (firmware : NodeFirmware) :
    sends (uploadBody node firmware) = uploadCommands node firmware := by
  rw [← sends_uploadEvents, uploadEvents, sends_append]
  simp [sends]

theorem uploadFirmware_sends_initial (env : Env) (node : Node) (firmware : NodeFirmware)
    (fuel : Nat) (hfit : FitsCounter firmware) :
    sends (uploadFirmware env node firmware fuel).2 <+: uploadCommands node.Id firmware := by
  obtain ⟨P, tail, hP, ht, htail⟩ := uploadFirmware_initial env node firmware fuel hfit
  have hs : sends tail = [] := by
    rcases htail with h | h | h <;> rw [h] <;> rfl
  rw [ht, sends_append, hs, List.append_nil, ← sends_uploadBody]
  exact hP.filter _

theorem bytesToUint32_uint32ToBytes (u : Nat) : bytesToUint32 (uint32ToBytes u) = u % 2 ^ 32 := by
  simp only [bytesToUint32, uint32ToBytes, List.foldl_cons, List.foldl_nil, Fin.ofNat]
  norm_num
  omega

theorem crc32Update_check :
    crc32Update 0 ([49, 50, 51, 52, 53, 54, 55, 56, 57] : List Byte) = 0xCBF43926 := by
  simp [crc32Update, crcTableEntry, Fin.coe_ofNat_eq_mod]

theorem crc32Update_zeros16 : crc32Update 0 (List.replicate 16 0) = 3971697493 := by
  simp [crc32Update, crcTableEntry, List.replicate]

theorem crc32Update_zeros64 : crc32Update 0 (List.replicate 64 0) = 1972200246 := by
  simp [crc32Update, crcTableEntry, List.replicate]

/-- C13, as stated, fails for a block whose length does not fit 32 bits: of a block of
`2^32 + 10` zero bytes the engine, which takes the length modulo `2^32`, writes the first
16 bytes only, and the terminating WRITE carries the CRC-32 of those 16 bytes, which is
not the CRC-32 of the 64 bytes of the page. -/
theorem Upload_checksum_of_oversized_block :
    AllAck quietEnv
    ∧ sends (uploadFirmware quietEnv sampleNode hugeImage 1).2
      = [Event.Send 5 MessageType.SYS_BOOTLOADER_SET_ADDRESS 70 (uint32ToBytes 0x2000),
         Event.Send 5 MessageType.SYS_BOOTLOADER_ERASE 0 [],
         Event.Send 5 MessageType.SYS_BOOTLOADER_SET_ADDRESS 70 (uint32ToBytes 0x2000),
         Event.Send 5 MessageType.SYS_BOOTLOADER_WRITE 0 (List.replicate 8 0),
         Event.Send 5 MessageType.SYS_BOOTLOADER_WRITE 0 (List.replicate 8 0),
         Event.Send 5 MessageType.SYS_BOOTLOADER_WRITE 1
           (uint32ToBytes (crc32Update 0 (List.replicate 16 0)))]
    ∧ pageBytes (List.replicate (2 ^ 32 + 10) 0) 0 = List.replicate 64 0
    ∧ uint32ToBytes (crc32Update 0 (List.replicate 16 0))
        ≠ uint32ToBytes (crc32Update 0 (pageBytes (List.replicate (2 ^ 32 + 10) 0) 0)) := by
  have hpage : pageBytes (List.replicate (2 ^ 32 + 10) (0 : Byte)) 0 = List.replicate 64 0 := by
    unfold pageBytes
    rw [List.drop_replicate, List.take_replicate]
    have h1 : min 64 (2 ^ 32 + 10 - 0) = 64 := by norm_num
    rw [h1]
  refine ⟨AllAck_quietEnv, ?_, hpage, ?_⟩
  · unfold hugeImage
    rw [upload_truncated_block _ _ (by rw [List.length_replicate]; norm_num)]
    rw [List.take_replicate, List.drop_replicate, List.take_replicate]
    have h1 : min 8 (2 ^ 32 + 10) = 8 := by norm_num
    have h2 : min 8 (2 ^ 32 + 10 - 8) = 8 := by norm_num
    rw [h1, h2]
    rfl
  · rw [hpage, crc32Update_zeros16, crc32Update_zeros64]
    decide

/-- C13 (amended): for every image whose blocks fit the 32-bit page counter (a length
of at most `2^32 - 64` bytes), whatever the transport and the client do, the commands an
upload sends are an initial part of `uploadCommands`, in which the terminating WRITE of each
page carries `uint32ToBytes` of the CRC-32 computed in one go over the bytes of the page;
that encoding is big-endian on four bytes; the checksum accumulated chunk by chunk from 0
over the chunks of a page is the CRC-32 of the page in one go; and `crc32Update` from 0 is
the standard CRC-32 (check value `0xCBF43926` on the digits `1` to `9`). -/
theorem Upload_page_checksum (env : Env) (node : Node) (firmware : NodeFirmware) (fuel : Nat)
    (hfit : FitsCounter firmware) :
    sends (uploadFirmware env node firmware fuel).2 <+: uploadCommands node.Id firmware
    ∧ (∀ (data : List Byte) (page_offset : Nat),
        (pageChunks data page_offset).foldl crc32Update 0
          = crc32Update 0 (pageBytes data page_offset))
    ∧ (∀ crc : Nat, bytesToUint32 (uint32ToBytes crc) = crc % 2 ^ 32)
    ∧ crc32Update 0 ([49, 50, 51, 52, 53, 54, 55, 56, 57] : List Byte) = 0xCBF43926 := by
  refine ⟨uploadFirmware_sends_initial env node firmware fuel hfit, ?_,
    bytesToUint32_uint32ToBytes, crc32Update_check⟩
  intro data po
  rw [pageChunks, foldl_crc32Update_chunks8]
  rfl

/-- Witness for C13: the three-byte image over the environment that fails the second
WRITE. -/
theorem Upload_page_checksum_witness :
    sends (uploadFirmware nackSecondWrite sampleNode smallImage 1).2
        <+: uploadCommands sampleNode.Id smallImage
    ∧ (∀ (data : List Byte) (page_offset : Nat),
        (pageChunks data page_offset).foldl crc32Update 0
          = crc32Update 0 (pageBytes data page_offset))
    ∧ (∀ crc : Nat, bytesToUint32 (uint32ToBytes crc) = crc % 2 ^ 32)
    ∧ crc32Update 0 ([49, 50, 51, 52, 53, 54, 55, 56, 57] : List Byte) = 0xCBF43926 :=
  Upload_page_checksum nackSecondWrite sampleNode smallImage 1
    (by intro b hb; simp [smallImage] at hb; subst hb; simp)

/-! ## The shape of every download -/

theorem readReplies_append (env : Env) : ∀ (a b t : List Event),
    readReplies env t (a ++ b) = readReplies env t a ++ readReplies env (t ++ a) b := by
  intro a
  induction a with
  | nil => intro b t; simp [readReplies]
  | cons e a ih =>
    intro b t
    rw [List.cons_append, readReplies, readReplies, ih]
    simp

theorem readChunks_shape (env : Env) (node : NodeId) :
    ∀ (ps : List Nat) (address : Nat) (block : List Byte) (t : List Event),
      address + 8 * ps.length < 2 ^ 32 →
      ((readChunks env node ps address block t).1
          = Except.ok (address + 8 * ps.length,
              block ++ readReplies env t (readEvents node ps.length))
        ∧ (readChunks env node ps address block t).2 = t ++ readEvents node ps.length)
      ∨ (∃ e, (readChunks env node ps address block t).1 = Except.error e
          ∧ Stopped env (readEvents node ps.length) False (JobResult.error e) t
              (readChunks env node ps address block t).2) := by
  intro ps
  induction ps with
  | nil =>
    intro address block t _
    left
    simp [readChunks, readEvents, readReplies]
  | cons p ps ih =>
    intro address block t hlt
    rw [List.length_cons] at hlt ⊢
    unfold readChunks
    simp only [ExpectSystemMessage]
    cases hex : env.expect (t ++ [Event.Send node MessageType.SYS_BOOTLOADER_READ 8 []]
        ++ [Event.Expect node MessageType.SYS_BOOTLOADER_READ_ACK]) with
    | error cause =>
      right
      refine ⟨FwError.DownloadRead node address cause, rfl,
        [Event.Send node MessageType.SYS_BOOTLOADER_READ 8 [],
         Event.Expect node MessageType.SYS_BOOTLOADER_READ_ACK], ?_, ?_⟩
      · simp [readEvents]
      · refine Or.inl ⟨_, cause, rfl, by simp, ?_, ?_⟩
        · rw [← hex]
          simp
        · simp [Put]
    | ok payload =>
      simp only
      have hmod : (address + 8) % 2 ^ 32 = address + 8 := Nat.mod_eq_of_lt (by omega)
      rw [hmod]
      have hrep : readReplies env t (readEvents node (ps.length + 1))
          = payload ++ readReplies env
              (t ++ [Event.Send node MessageType.SYS_BOOTLOADER_READ 8 []]
                ++ [Event.Expect node MessageType.SYS_BOOTLOADER_READ_ACK])
              (readEvents node ps.length) := by
        have hex2 : env.expect (t ++ [Event.Send node MessageType.SYS_BOOTLOADER_READ 8 [],
            Event.Expect node MessageType.SYS_BOOTLOADER_READ_ACK]) = Except.ok payload := by
          rw [← hex]
          simp
        rw [readEvents, readReplies, readReplies]
        simp [replyOf, hex2]
      rcases ih (address + 8) (block ++ payload)
          (t ++ [Event.Send node MessageType.SYS_BOOTLOADER_READ 8 []]
            ++ [Event.Expect node MessageType.SYS_BOOTLOADER_READ_ACK]) (by omega)
        with ⟨h1, h2⟩ | ⟨e, h1, h2⟩
      · left
        refine ⟨?_, ?_⟩
        · rw [h1, hrep, List.append_assoc]
          congr 2
          omega
        · rw [h2]
          simp [readEvents]
      · right
        refine ⟨e, h1, ?_⟩
        have := Stopped.shift
          [Event.Send node MessageType.SYS_BOOTLOADER_READ 8 [],
           Event.Expect node MessageType.SYS_BOOTLOADER_READ_ACK] []
          (by simpa using h2)
        simpa [readEvents] using this

theorem replyOf_Send (env : Env) (t : List Event) (node : NodeId) (fn : MessageType)
    (param : Nat) (data : List Byte) : replyOf env t (Event.Send node fn param data) = [] := by
  simp [replyOf]

theorem replyOf_PutProgress (env : Env) (t : List Event) (p : Progress) :
    replyOf env t (Event.PutProgress p) = [] := by
  simp [replyOf]

theorem replyOf_SET_ADDRESS_ACK (env : Env) (t : List Event) (node : NodeId) :
    replyOf env t (Event.Expect node MessageType.SYS_BOOTLOADER_SET_ADDRESS_ACK) = [] := by
  simp [replyOf]

theorem readReplies_dlPageEvents (env : Env) (node : NodeId) (memlength i : Nat)
    (t : List Event) :
    readReplies env t (dlPageEvents node memlength i)
      = readReplies env
          (t ++ [Event.Send node MessageType.SYS_BOOTLOADER_SET_ADDRESS 70
                  (uint32ToBytes (FLASH_APP_ORIGIN + 64 * i))]
            ++ [Event.Expect node MessageType.SYS_BOOTLOADER_SET_ADDRESS_ACK])
          (readEvents node 8) := by
  rw [dlPageEvents, readReplies_append, readReplies_append]
  simp [readReplies, replyOf_Send, replyOf_PutProgress, replyOf_SET_ADDRESS_ACK]

theorem downloadPages_shape (env : Env) (node : NodeId) (memlength : Nat)
    (hmem : memlength ≤ FLASH_APP_LENGTH) :
    ∀ (remaining i : Nat) (block : List Byte) (t : List Event),
      64 * (i + remaining) ≤ memlength →
      ((downloadPages env node memlength remaining i block t).1 = JobResult.ok
        ∧ (downloadPages env node memlength remaining i block t).2.1
            = block ++ readReplies env t (dlBodyFrom node memlength remaining i)
        ∧ (downloadPages env node memlength remaining i block t).2.2
            = t ++ dlBodyFrom node memlength remaining i)
      ∨ Stopped env (dlBodyFrom node memlength remaining i) False
          (downloadPages env node memlength remaining i block t).1 t
          (downloadPages env node memlength remaining i block t).2.2 := by
  have hL : FLASH_APP_LENGTH = 253952 := rfl
  have hO : FLASH_APP_ORIGIN = 8192 := rfl
  intro remaining
  induction remaining with
  | zero =>
    intro i block t _
    left
    simp [downloadPages, dlBodyFrom, readReplies]
  | succ n ih =>
    intro i block t hn
    have haddr : (FLASH_APP_ORIGIN + i * FLASH_PAGE_SIZE) % 2 ^ 32 = FLASH_APP_ORIGIN + 64 * i := by
      rw [Nat.mod_eq_of_lt (by unfold FLASH_PAGE_SIZE; omega)]
      unfold FLASH_PAGE_SIZE
      omega
    unfold downloadPages
    simp only [ExpectSystemMessage, haddr]
    rw [dlBodyFrom]
    cases hex : env.expect (t ++ [Event.Send node MessageType.SYS_BOOTLOADER_SET_ADDRESS 70
          (uint32ToBytes (FLASH_APP_ORIGIN + 64 * i))]
        ++ [Event.Expect node MessageType.SYS_BOOTLOADER_SET_ADDRESS_ACK]) with
    | error cause =>
      right
      refine ⟨[Event.Send node MessageType.SYS_BOOTLOADER_SET_ADDRESS 70
          (uint32ToBytes (FLASH_APP_ORIGIN + 64 * i)),
        Event.Expect node MessageType.SYS_BOOTLOADER_SET_ADDRESS_ACK], ?_, ?_⟩
      · simp [dlPageEvents]
      · refine Or.inl ⟨_, cause, rfl, by simp, ?_, ?_⟩
        · rw [← hex]
          simp
        · simp [Put]
    | ok payload =>
      simp only
      have hrc := readChunks_shape env node pagePositions (FLASH_APP_ORIGIN + 64 * i) block
        (t ++ [Event.Send node MessageType.SYS_BOOTLOADER_SET_ADDRESS 70
            (uint32ToBytes (FLASH_APP_ORIGIN + 64 * i))]
          ++ [Event.Expect node MessageType.SYS_BOOTLOADER_SET_ADDRESS_ACK])
        (by rw [show pagePositions.length = 8 from rfl]; omega)
      rw [show pagePositions.length = 8 from rfl] at hrc
      revert hrc
      generalize readChunks env node pagePositions (FLASH_APP_ORIGIN + 64 * i) block
        (t ++ [Event.Send node MessageType.SYS_BOOTLOADER_SET_ADDRESS 70
            (uint32ToBytes (FLASH_APP_ORIGIN + 64 * i))]
          ++ [Event.Expect node MessageType.SYS_BOOTLOADER_SET_ADDRESS_ACK]) = w
      obtain ⟨r, t3⟩ := w
      intro hrc
      rcases hrc with ⟨h1, h2⟩ | ⟨e, h1, h2⟩
      · simp only at h1 h2
        subst h1
        subst h2
        simp only
        have hm0 : memlength ≠ 0 := by omega
        rw [if_neg hm0]
        have hbytes : (FLASH_APP_ORIGIN + 64 * i + 8 * 8 + 2 ^ 32 - FLASH_APP_ORIGIN) % 2 ^ 32
            = 64 * (i + 1) := by
          rw [hO]
          omega
        have hpct : 64 * (i + 1) * 100 % 2 ^ 32 = 64 * (i + 1) * 100 := by
          apply Nat.mod_eq_of_lt
          omega
        rw [hbytes, hpct]
        simp only [Put]
        have ht4 : t ++ [Event.Send node MessageType.SYS_BOOTLOADER_SET_ADDRESS 70
              (uint32ToBytes (FLASH_APP_ORIGIN + 64 * i))]
            ++ [Event.Expect node MessageType.SYS_BOOTLOADER_SET_ADDRESS_ACK]
            ++ readEvents node 8
            ++ [Event.PutProgress
                (Progress.Update (64 * (i + 1) * 100 / memlength) (64 * (i + 1)))]
            = t ++ dlPageEvents node memlength i := by
          simp [dlPageEvents]
        rw [ht4]
        cases hput : env.put (t ++ dlPageEvents node memlength i) with
        | some c =>
          right
          refine ⟨dlPageEvents node memlength i, List.prefix_append _ _,
            Or.inr (Or.inl ⟨c, 64 * (i + 1) * 100 / memlength, 64 * (i + 1), rfl, ?_,
              hput, rfl⟩)⟩
          rw [dlPageEvents]
          exact List.getLast?_concat _
        | none =>
          simp only
          rcases ih (i + 1) (block ++ readReplies env
              (t ++ [Event.Send node MessageType.SYS_BOOTLOADER_SET_ADDRESS 70
                  (uint32ToBytes (FLASH_APP_ORIGIN + 64 * i))]
                ++ [Event.Expect node MessageType.SYS_BOOTLOADER_SET_ADDRESS_ACK])
              (readEvents node 8)) (t ++ dlPageEvents node memlength i) (by omega)
            with ⟨k1, k2, k3⟩ | hs
          · left
            refine ⟨k1, ?_, ?_⟩
            · rw [k2, readReplies_append, readReplies_dlPageEvents, List.append_assoc]
            · rw [k3, List.append_assoc]
          · right
            have := Stopped.shift (dlPageEvents node memlength i) [] hs
            rw [List.append_nil] at this
            exact this
      · simp only at h1 h2
        subst h1
        simp only
        right
        have := Stopped.shift
          [Event.Send node MessageType.SYS_BOOTLOADER_SET_ADDRESS 70
            (uint32ToBytes (FLASH_APP_ORIGIN + 64 * i)),
           Event.Expect node MessageType.SYS_BOOTLOADER_SET_ADDRESS_ACK]
          ([Event.PutProgress
              (Progress.Update (64 * (i + 1) * 100 / memlength) (64 * (i + 1)))]
            ++ dlBodyFrom node memlength n (i + 1))
          (by simpa using h2)
        simpa [dlPageEvents] using this

theorem effectiveLength_le (firmware : NodeFirmware) :
    effectiveLength firmware ≤ FLASH_APP_LENGTH := by
  unfold effectiveLength
  split <;> omega

/-- The shape of every download, whatever the transport and the client do: it reads all
pages, puts the Success event, appends one block holding the payloads of the `READ`
acknowledgments and puts the image; or it stops early (`Stopped`) and leaves the image as
it was. -/
theorem downloadFirmware_shape (env : Env) (node : Node) (firmware : NodeFirmware) :
    ((downloadFirmware env node firmware).2.1
        = dlBody node.Id (effectiveLength firmware)
          ++ [Event.PutProgress Progress.Success,
              Event.PutDownload (firmware.AppendBlock FLASH_APP_ORIGIN
                (readReplies env [] (dlBody node.Id (effectiveLength firmware))))]
      ∧ (downloadFirmware env node firmware).2.2
          = firmware.AppendBlock FLASH_APP_ORIGIN
              (readReplies env [] (dlBody node.Id (effectiveLength firmware)))
      ∧ ((downloadFirmware env node firmware).1 = JobResult.ok
          ∨ ∃ c, (downloadFirmware env node firmware).1 = JobResult.error (FwError.Sink c)))
    ∨ (Stopped env (dlBody node.Id (effectiveLength firmware)) False
          (downloadFirmware env node firmware).1 [] (downloadFirmware env node firmware).2.1
        ∧ (downloadFirmware env node firmware).2.2 = firmware) := by
  have hp := downloadPages_shape env node.Id (effectiveLength firmware)
    (effectiveLength_le firmware) (effectiveLength firmware / FLASH_PAGE_SIZE) 0 [] []
    (by unfold FLASH_PAGE_SIZE; omega)
  have hb : dlBodyFrom node.Id (effectiveLength firmware)
      (effectiveLength firmware / FLASH_PAGE_SIZE) 0 = dlBody node.Id (effectiveLength firmware) :=
    rfl
  rw [hb] at hp
  unfold downloadFirmware
  simp only
  rw [show (if firmware.Limit > FLASH_APP_LENGTH then FLASH_APP_LENGTH else firmware.Limit)
      = effectiveLength firmware from rfl]
  revert hp
  generalize downloadPages env node.Id (effectiveLength firmware)
    (effectiveLength firmware / FLASH_PAGE_SIZE) 0 [] [] = w
  obtain ⟨r, block, t1⟩ := w
  intro hp
  rcases hp with ⟨h1, h2, h3⟩ | hs
  · simp only at h1 h2 h3
    subst h1
    subst h2
    subst h3
    left
    simp only [Put, List.nil_append]
    cases hput : env.put (dlBody node.Id (effectiveLength firmware)
        ++ [Event.PutProgress Progress.Success]
        ++ [Event.PutDownload (firmware.AppendBlock FLASH_APP_ORIGIN
              (readReplies env [] (dlBody node.Id (effectiveLength firmware))))]) with
    | some c => exact ⟨by simp, rfl, Or.inr ⟨c, rfl⟩⟩
    | none => exact ⟨by simp, rfl, Or.inl rfl⟩
  · simp only at hs
    right
    have hne := hs.ne_ok
    cases r with
    | ok => exact absurd rfl hne
    | error e => exact ⟨hs, rfl⟩
    | unfinished => exact ⟨hs, rfl⟩
    | panic => exact ⟨hs, rfl⟩

/-! ## Reading the undisturbed download -/

/-- A download over a transport that acknowledges every request and a client that
accepts every Update event reads all pages, appends the block and puts the image. -/
theorem downloadFirmware_complete (env : Env) (node : Node) (firmware : NodeFirmware)
    (hack : AllAck env) (hupd : AcceptsUpdates env) :
    (downloadFirmware env node firmware).2.1
        = dlBody node.Id (effectiveLength firmware)
          ++ [Event.PutProgress Progress.Success,
              Event.PutDownload (firmware.AppendBlock FLASH_APP_ORIGIN
                (readReplies env [] (dlBody node.Id (effectiveLength firmware))))]
    ∧ (downloadFirmware env node firmware).2.2
        = firmware.AppendBlock FLASH_APP_ORIGIN
            (readReplies env [] (dlBody node.Id (effectiveLength firmware)))
    ∧ ((downloadFirmware env node firmware).1 = JobResult.ok
        ∨ ∃ c, (downloadFirmware env node firmware).1 = JobResult.error (FwError.Sink c)) := by
  rcases downloadFirmware_shape env node firmware with h | ⟨hs, _⟩
  · exact h
  · exfalso
    obtain ⟨P, _, h⟩ := hs
    rcases h with ⟨e, cause, _, _, h3, _⟩ | ⟨c, pct, bytes, _, h2, h3, _⟩ | ⟨_, hf, _⟩
    · obtain ⟨payload, hp⟩ := hack ([] ++ P)
      rw [hp] at h3
      cases h3
    · obtain ⟨ys, hys⟩ := List.getLast?_eq_some_iff.1 h2
      rw [hys, List.nil_append, hupd] at h3
      cases h3
    · exact hf

theorem sends_readEvents (node : NodeId) : ∀ n : Nat,
    sends (readEvents node n)
      = List.replicate n (Event.Send node MessageType.SYS_BOOTLOADER_READ 8 []) := by
  intro n
  induction n with
  | zero => rfl
  | succ n ih =>
    rw [readEvents, List.replicate_succ, ← ih]
    simp [sends]

theorem sends_dlPageEvents (node : NodeId) (memlength i : Nat) :
    sends (dlPageEvents node memlength i)
      = Event.Send node MessageType.SYS_BOOTLOADER_SET_ADDRESS 70 (uint32ToBytes (0x2000 + 64 * i))
          :: List.replicate 8 (Event.Send node MessageType.SYS_BOOTLOADER_READ 8 []) := by
  rw [dlPageEvents, sends_append, sends_append, sends_readEvents]
  simp [sends, FLASH_APP_ORIGIN, FLASH_ORIGIN]

theorem sends_dlBodyFrom (node : NodeId) (memlength : Nat) : ∀ n i : Nat,
    sends (dlBodyFrom node memlength n i)
      = (List.range' i n).flatMap (fun i =>
          Event.Send node MessageType.SYS_BOOTLOADER_SET_ADDRESS 70
              (uint32ToBytes (0x2000 + 64 * i))
            :: List.replicate 8 (Event.Send node MessageType.SYS_BOOTLOADER_READ 8 [])) := by
  intro n
  induction n with
  | zero => intro i; rfl
  | succ n ih =>
    intro i
    rw [dlBodyFrom, sends_append, sends_dlPageEvents, ih, List.range'_succ, List.flatMap_cons]

theorem sends_dlBody (node : NodeId) (memlength : Nat) :
    sends (dlBody node memlength) = downloadCommands node memlength := by
  rw [dlBody, sends_dlBodyFrom, downloadCommands, List.range_eq_range']

theorem length_readReplies_readEvents (env : Env) (node : NodeId) (hack : AllAck env)
    (h8 : ∀ t payload, env.expect t = Except.ok payload → payload.length = 8) :
    ∀ (n : Nat) (t : List Event), (readReplies env t (readEvents node n)).length = 8 * n := by
  intro n
  induction n with
  | zero => intro t; rfl
  | succ n ih =>
    intro t
    obtain ⟨payload, hp⟩ := hack (t ++ [Event.Send node MessageType.SYS_BOOTLOADER_READ 8 []]
      ++ [Event.Expect node MessageType.SYS_BOOTLOADER_READ_ACK])
    rw [readEvents, readReplies, readReplies, replyOf_Send, List.nil_append, List.length_append,
      ih]
    have : replyOf env (t ++ [Event.Send node MessageType.SYS_BOOTLOADER_READ 8 []])
        (Event.Expect node MessageType.SYS_BOOTLOADER_READ_ACK) = payload := by
      unfold replyOf
      rw [hp]
    rw [this, h8 _ _ hp]
    omega

theorem length_readReplies_dlBodyFrom (env : Env) (node : NodeId) (memlength : Nat)
    (hack : AllAck env)
    (h8 : ∀ t payload, env.expect t = Except.ok payload → payload.length = 8) :
    ∀ (n i : Nat) (t : List Event),
      (readReplies env t (dlBodyFrom node memlength n i)).length = 64 * n := by
  intro n
  induction n with
  | zero => intro i t; rfl
  | succ n ih =>
    intro i t
    rw [dlBodyFrom, readReplies_append, List.length_append, ih, readReplies_dlPageEvents,
      length_readReplies_readEvents env node hack h8]
    omega

/-! ## C19: the commands and the block of a download -/

theorem replyOf_PutDownload (env : Env) (t : List Event) (fw : NodeFirmware) :
    replyOf env t (Event.PutDownload fw) = [] := by
  simp [replyOf]

/-- C19, as stated, fails: with a transport that acknowledges every request and a client
that refuses the Update event, a download of `Limit` 128 (two pages) stops after the first
page: one `SET_ADDRESS` is sent, not two, and no block is appended to the image. -/
theorem Download_cut_short_by_client :
    AllAck deafClientEnv
    ∧ (downloadFirmware deafClientEnv sampleNode { Code := [], Limit := 128 }).1
        = JobResult.error (FwError.Sink "client gone")
    ∧ setAddresses (downloadFirmware deafClientEnv sampleNode { Code := [], Limit := 128 }).2.1
        = [0x2000]
    ∧ (downloadFirmware deafClientEnv sampleNode { Code := [], Limit := 128 }).2.2.Code = [] := by
  refine ⟨AllAck_deafClientEnv, by decide, by decide, by decide⟩

/-- C19 (amended): for every `Limit`, a transport that acknowledges every request and a
client that accepts every Update event, a download with effective length
`L = min(Limit, 0x3E000)` sends exactly the commands of `downloadCommands`: for each
`i = 0 .. L/64 - 1` in ascending order `SET_ADDRESS(0x2000 + 64*i)` followed by 8 `READ`
requests (no command when `L < 64`), does not stop in a division by zero, and leaves the
image with exactly one new block after the existing ones, whose `Offset` is `0x2000` and
whose `Data` is the concatenation of the payloads of the `READ` acknowledgments in arrival
order, of length `64 * (L/64)` when every payload has 8 bytes. -/
theorem Download_commands_and_block (env : Env) (node : Node) (firmware : NodeFirmware)
    (hack : AllAck env) (hupd : AcceptsUpdates env) :
    effectiveLength firmware = min firmware.Limit 0x3E000
    ∧ sends (downloadFirmware env node firmware).2.1
        = downloadCommands node.Id (effectiveLength firmware)
    ∧ (effectiveLength firmware < 64 → sends (downloadFirmware env node firmware).2.1 = [])
    ∧ (downloadFirmware env node firmware).1 ≠ JobResult.panic
    ∧ (downloadFirmware env node firmware).2.2.Code
        = firmware.Code
          ++ [{ Offset := 0x2000,
                Data := readReplies env [] (downloadFirmware env node firmware).2.1 }]
    ∧ (downloadFirmware env node firmware).2.2.Limit = firmware.Limit
    ∧ ((∀ t payload, env.expect t = Except.ok payload → payload.length = 8) →
        (readReplies env [] (downloadFirmware env node firmware).2.1).length
          = 64 * (effectiveLength firmware / 64)) := by
  obtain ⟨h1, h2, h3⟩ := downloadFirmware_complete env node firmware hack hupd
  have hsends : sends (downloadFirmware env node firmware).2.1
      = downloadCommands node.Id (effectiveLength firmware) := by
    rw [h1, sends_append, sends_dlBody]
    simp [sends]
  have hrep : readReplies env [] (downloadFirmware env node firmware).2.1
      = readReplies env [] (dlBody node.Id (effectiveLength firmware)) := by
    rw [h1, readReplies_append]
    simp [readReplies, replyOf_PutProgress, replyOf_PutDownload]
  refine ⟨?_, hsends, ?_, ?_, ?_, ?_, ?_⟩
  · unfold effectiveLength FLASH_APP_LENGTH FLASH_LENGTH
    split <;> omega
  · intro hlt
    rw [hsends, downloadCommands, show effectiveLength firmware / 64 = 0 by omega]
    rfl
  · rcases h3 with h | ⟨c, h⟩ <;> rw [h] <;> simp
  · rw [h2, hrep]
    rfl
  · rw [h2]
    rfl
  · intro h8
    rw [hrep, dlBody, length_readReplies_dlBodyFrom env node.Id _ hack h8]

/-- Witness for C19: a download of two pages over a transport that acknowledges every
request with 8 bytes. -/
theorem Download_commands_and_block_witness :
    sends (downloadFirmware eightByteEnv sampleNode { Code := [], Limit := 128 }).2.1
        = downloadCommands sampleNode.Id (effectiveLength { Code := [], Limit := 128 })
    ∧ (downloadFirmware eightByteEnv sampleNode { Code := [], Limit := 128 }).1
        ≠ JobResult.panic
    ∧ (downloadFirmware eightByteEnv sampleNode { Code := [], Limit := 128 }).2.2.Code
        = [] ++ [{ Offset := 0x2000,
                   Data := readReplies eightByteEnv []
                     (downloadFirmware eightByteEnv sampleNode
                       { Code := [], Limit := 128 }).2.1 }]
    ∧ (readReplies eightByteEnv []
          (downloadFirmware eightByteEnv sampleNode { Code := [], Limit := 128 }).2.1).length
        = 64 * (effectiveLength { Code := [], Limit := 128 } / 64) :=
  have h := Download_commands_and_block eightByteEnv sampleNode { Code := [], Limit := 128 }
    (fun _ => ⟨_, rfl⟩) (fun _ _ _ => rfl)
  ⟨h.2.1, h.2.2.2.1, h.2.2.2.2.1,
    h.2.2.2.2.2.2 (fun _ _ hp => by cases hp; rfl)⟩

/-! ## C11: the terminal event of a job -/

theorem UpdatesAccepted_nil (env : Env) : UpdatesAccepted env [] := by
  intro P pct bytes h
  have := List.prefix_nil.1 h
  simp at this

theorem UpdatesAccepted_append_other {env : Env} {t : List Event} (e : Event)
    (h : UpdatesAccepted env t)
    (he : ∀ pct bytes, e ≠ Event.PutProgress (Progress.Update pct bytes)) :
    UpdatesAccepted env (t ++ [e]) := by
  intro P pct bytes hp
  rcases List.prefix_concat_iff.1 hp with heq | hpre
  · have := (List.append_inj' heq rfl).2
    simp only [List.cons.injEq, and_true] at this
    exact absurd this.symm (he pct bytes)
  · exact h P pct bytes hpre

theorem UpdatesAccepted_append_update {env : Env} {t : List Event} (pct bytes : Nat)
    (h : UpdatesAccepted env t)
    (hput : env.put (t ++ [Event.PutProgress (Progress.Update pct bytes)]) = none) :
    UpdatesAccepted env (t ++ [Event.PutProgress (Progress.Update pct bytes)]) := by
  intro P pct1 bytes1 hp
  rcases List.prefix_concat_iff.1 hp with heq | hpre
  · rw [heq]
    exact hput
  · exact h P pct1 bytes1 hpre

theorem not_UpdatesAccepted_of_RejectedUpdate {env : Env} {r : JobResult} {t : List Event}
    (h : RejectedUpdate env r t) : ¬ UpdatesAccepted env t := by
  obtain ⟨P, pct, bytes, c, ht, _, hput, _⟩ := h
  intro hacc
  have := hacc P pct bytes (by rw [ht])
  rw [← ht, hput] at this
  cases this

theorem not_RejectedUpdate_of_AcceptsUpdates {env : Env} {r : JobResult} {t : List Event}
    (hupd : AcceptsUpdates env) : ¬ RejectedUpdate env r t := by
  rintro ⟨P, pct, bytes, c, ht, _, hput, _⟩
  rw [ht, hupd] at hput
  cases hput

theorem writeChunks_terminal (env : Env) (node : NodeId) (block : Block)
    (blocksize page_offset address : Nat) :
    ∀ (ps : List Nat) (crc : Nat) (t : List Event),
      UpdatesAccepted env t → countTerminal t = 0 →
      (∃ crc1, (writeChunks env node block blocksize page_offset address ps crc t).1
            = Except.ok crc1
          ∧ UpdatesAccepted env
              (writeChunks env node block blocksize page_offset address ps crc t).2
          ∧ countTerminal (writeChunks env node block blocksize page_offset address ps crc t).2
            = 0)
      ∨ (∃ e, (writeChunks env node block blocksize page_offset address ps crc t).1
            = Except.error e
          ∧ UpdatesAccepted env
              (writeChunks env node block blocksize page_offset address ps crc t).2
          ∧ countTerminal (writeChunks env node block blocksize page_offset address ps crc t).2
            = 1) := by
  intro ps
  induction ps with
  | nil => intro crc t ha ht; left; exact ⟨crc, rfl, ha, ht⟩
  | cons p ps ih =>
    intro crc t ha ht
    unfold writeChunks
    split
    · simp only [ExpectSystemMessage]
      have ha2 := UpdatesAccepted_append_other
        (Event.Expect node MessageType.SYS_BOOTLOADER_WRITE_ACK)
        (UpdatesAccepted_append_other
          (Event.Send node MessageType.SYS_BOOTLOADER_WRITE 0
            (List.take 8 (List.drop ((page_offset + p) % 2 ^ 32) block.Data)))
          ha (by simp)) (by simp)
      split
      · rename_i err t2 heq
        simp only [Prod.mk.injEq] at heq
        right
        refine ⟨_, rfl, ?_, ?_⟩
        · rw [← heq.2]
          exact UpdatesAccepted_append_other _ ha2 (by simp)
        · rw [← heq.2]
          simp only [Put, countTerminal_append, ht]
          rfl
      · rename_i payload t2 heq
        simp only [Prod.mk.injEq] at heq
        apply ih
        · rw [← heq.2]
          exact ha2
        · rw [← heq.2]
          simp only [countTerminal_append, ht]
          rfl
    · left; exact ⟨crc, rfl, ha, ht⟩

/-- What holds of the page loop of an upload started on a trace without a terminal event
whose Update events were all accepted: it runs to its end in such a trace, or it is not
finished when the fuel is used up, or it returns an error after exactly one terminal
event, or it ends at an Update event that the client refused, without a terminal event. -/
theorem uploadPages_terminal (env : Env) (node : NodeId) (block : Block)
    (blocksize address : Nat) :
    ∀ (fuel page_offset : Nat) (t : List Event),
      UpdatesAccepted env t → countTerminal t = 0 →
      ((uploadPages env node block blocksize address fuel page_offset t).1 = JobResult.ok
        ∧ UpdatesAccepted env (uploadPages env node block blocksize address fuel page_offset t).2
        ∧ countTerminal (uploadPages env node block blocksize address fuel page_offset t).2 = 0)
      ∨ (uploadPages env node block blocksize address fuel page_offset t).1
          = JobResult.unfinished
      ∨ ((∃ e, (uploadPages env node block blocksize address fuel page_offset t).1
            = JobResult.error e)
        ∧ UpdatesAccepted env (uploadPages env node block blocksize address fuel page_offset t).2
        ∧ countTerminal (uploadPages env node block blocksize address fuel page_offset t).2
            = 1)
      ∨ (RejectedUpdate env (uploadPages env node block blocksize address fuel page_offset t).1
            (uploadPages env node block blocksize address fuel page_offset t).2
        ∧ countTerminal (uploadPages env node block blocksize address fuel page_offset t).2
            = 0) := by
  intro fuel
  induction fuel with
  | zero =>
    intro po t ha ht
    unfold uploadPages
    split
    · right; left; rfl
    · left; exact ⟨rfl, ha, ht⟩
  | succ fuel ih =>
    intro po t ha ht
    unfold uploadPages
    split
    · rename_i hlt
      simp only [ExpectSystemMessage]
      have ha2 := UpdatesAccepted_append_other
        (Event.Expect node MessageType.SYS_BOOTLOADER_SET_ADDRESS_ACK)
        (UpdatesAccepted_append_other
          (Event.Send node MessageType.SYS_BOOTLOADER_SET_ADDRESS 70
            (uint32ToBytes ((block.Offset + po) % 2 ^ 32)))
          ha (by simp)) (by simp)
      split
      · rename_i err t2 heq
        simp only [Prod.mk.injEq] at heq
        right; right; left
        refine ⟨⟨_, rfl⟩, ?_, ?_⟩
        · rw [← heq.2]
          exact UpdatesAccepted_append_other _ ha2 (by simp)
        · rw [← heq.2]
          simp only [Put, countTerminal_append, ht]
          rfl
      · rename_i payload t2 heq
        simp only [Prod.mk.injEq] at heq
        have hat2 : UpdatesAccepted env t2 := by
          rw [← heq.2]
          exact ha2
        have ht2 : countTerminal t2 = 0 := by
          rw [← heq.2]
          simp only [countTerminal_append, ht]
          rfl
        rcases writeChunks_terminal env node block blocksize po address pagePositions 0 t2
            hat2 ht2 with ⟨crc1, h1, h2, h3⟩ | ⟨e, h1, h2, h3⟩
        · revert h1 h2 h3
          generalize writeChunks env node block blocksize po address pagePositions 0 t2 = w
          obtain ⟨r, t3⟩ := w
          intro h1 h2 h3
          simp only at h1 h2 h3
          subst h1
          simp only
          have ha4 := UpdatesAccepted_append_other
            (Event.Expect node MessageType.SYS_BOOTLOADER_WRITE_ACK)
            (UpdatesAccepted_append_other
              (Event.Send node MessageType.SYS_BOOTLOADER_WRITE 1 (uint32ToBytes crc1))
              h2 (by simp)) (by simp)
          split
          · rename_i err t5 heq5
            simp only [Prod.mk.injEq] at heq5
            right; right; left
            refine ⟨⟨_, rfl⟩, ?_, ?_⟩
            · rw [← heq5.2]
              exact UpdatesAccepted_append_other _ ha4 (by simp)
            · rw [← heq5.2]
              simp only [Put, countTerminal_append, h3]
              rfl
          · rename_i payload5 t5 heq5
            simp only [Prod.mk.injEq] at heq5
            have hat5 : UpdatesAccepted env t5 := by
              rw [← heq5.2]
              exact ha4
            have ht5 : countTerminal t5 = 0 := by
              rw [← heq5.2]
              simp only [countTerminal_append, h3]
              rfl
            rw [if_neg (by omega)]
            simp only [Put]
            cases hput : env.put (t5 ++ [Event.PutProgress
                (Progress.Update (po * 100 % 2 ^ 32 / blocksize) 0)]) with
            | some c =>
              simp only
              right; right; right
              refine ⟨⟨t5, _, _, c, rfl, hat5, hput, rfl⟩, ?_⟩
              simp only [countTerminal_append, ht5]
              rfl
            | none =>
              simp only
              apply ih
              · exact UpdatesAccepted_append_update _ _ hat5 hput
              · simp only [countTerminal_append, ht5]
                rfl
        · revert h1 h2 h3
          generalize writeChunks env node block blocksize po address pagePositions 0 t2 = w
          obtain ⟨r, t3⟩ := w
          intro h1 h2 h3
          simp only at h1 h2 h3
          subst h1
          simp only
          right; right; left
          exact ⟨⟨_, rfl⟩, h2, h3⟩
    · left; exact ⟨rfl, ha, ht⟩

theorem uploadBlocks_terminal (env : Env) (node : NodeId) (address fuel : Nat) :
    ∀ (blocks : List Block) (t : List Event),
      UpdatesAccepted env t → countTerminal t = 0 →
      ((uploadBlocks env node address fuel blocks t).1 = JobResult.ok
        ∧ UpdatesAccepted env (uploadBlocks env node address fuel blocks t).2
        ∧ countTerminal (uploadBlocks env node address fuel blocks t).2 = 0)
      ∨ (uploadBlocks env node address fuel blocks t).1 = JobResult.unfinished
      ∨ ((∃ e, (uploadBlocks env node address fuel blocks t).1 = JobResult.error e)
        ∧ UpdatesAccepted env (uploadBlocks env node address fuel blocks t).2
        ∧ countTerminal (uploadBlocks env node address fuel blocks t).2 = 1)
      ∨ (RejectedUpdate env (uploadBlocks env node address fuel blocks t).1
            (uploadBlocks env node address fuel blocks t).2
        ∧ countTerminal (uploadBlocks env node address fuel blocks t).2 = 0) := by
  intro blocks
  induction blocks with
  | nil => intro t ha ht; left; exact ⟨rfl, ha, ht⟩
  | cons b bs ih =>
    intro t ha ht
    unfold uploadBlocks
    have hp := uploadPages_terminal env node b (b.Data.length % 2 ^ 32) address fuel 0 t ha ht
    revert hp
    generalize uploadPages env node b (b.Data.length % 2 ^ 32) address fuel 0 t = w
    obtain ⟨r, t1⟩ := w
    intro hp
    cases r with
    | ok =>
      rcases hp with ⟨_, h2, h3⟩ | h | ⟨⟨e, h⟩, _⟩ | ⟨⟨_, _, _, _, _, _, _, h⟩, _⟩
      · exact ih t1 h2 h3
      · cases h
      · cases h
      · cases h
    | error e => exact hp
    | unfinished => exact hp
    | panic => exact hp

/-- Every upload, whatever the transport and the client do: it is not finished when the
fuel is used up; or the client accepted every Update event and the trace has exactly one
terminal event; or the upload ended at an Update event that the client refused, and the
trace has no terminal event. -/
theorem uploadFirmware_terminal (env : Env) (node : Node) (firmware : NodeFirmware)
    (fuel : Nat) :
    (uploadFirmware env node firmware fuel).1 = JobResult.unfinished
    ∨ (UpdatesAccepted env (uploadFirmware env node firmware fuel).2
        ∧ countTerminal (uploadFirmware env node firmware fuel).2 = 1)
    ∨ (RejectedUpdate env (uploadFirmware env node firmware fuel).1
          (uploadFirmware env node firmware fuel).2
        ∧ countTerminal (uploadFirmware env node firmware fuel).2 = 0) := by
  have ha2 : UpdatesAccepted env
      ([Event.Send node.Id MessageType.SYS_BOOTLOADER_SET_ADDRESS 70
          (uint32ToBytes FLASH_APP_ORIGIN)]
        ++ [Event.Expect node.Id MessageType.SYS_BOOTLOADER_SET_ADDRESS_ACK]) :=
    UpdatesAccepted_append_other _
      (UpdatesAccepted_append_other _ (UpdatesAccepted_nil env) (by simp)) (by simp)
  unfold uploadFirmware
  simp only [ExpectSystemMessage]
  split
  · rename_i err t2 heq
    simp only [Prod.mk.injEq] at heq
    right; left
    rw [← heq.2]
    exact ⟨UpdatesAccepted_append_other _ ha2 (by simp), rfl⟩
  · rename_i payload t2 heq
    simp only [Prod.mk.injEq] at heq
    have ha4 : UpdatesAccepted env
        (t2 ++ [Event.Send node.Id MessageType.SYS_BOOTLOADER_ERASE 0 []]
          ++ [Event.Expect node.Id MessageType.SYS_BOOTLOADER_ERASE_ACK]) := by
      rw [← heq.2]
      exact UpdatesAccepted_append_other _
        (UpdatesAccepted_append_other _ ha2 (by simp)) (by simp)
    split
    · rename_i err t4 heq4
      simp only [Prod.mk.injEq] at heq4
      right; left
      rw [← heq4.2]
      refine ⟨UpdatesAccepted_append_other _ ha4 (by simp), ?_⟩
      rw [← heq.2]
      rfl
    · rename_i payload4 t4 heq4
      simp only [Prod.mk.injEq] at heq4
      have hat4 : UpdatesAccepted env t4 := by
        rw [← heq4.2]
        exact ha4
      have ht4 : countTerminal t4 = 0 := by
        rw [← heq4.2, ← heq.2]
        rfl
      have hb := uploadBlocks_terminal env node.Id 0 fuel firmware.Code t4 hat4 ht4
      revert hb
      generalize uploadBlocks env node.Id 0 fuel firmware.Code t4 = w
      obtain ⟨r, t5⟩ := w
      intro hb
      cases r with
      | ok =>
        right; left
        rcases hb with ⟨_, h2, h3⟩ | h | ⟨⟨e, h⟩, _⟩ | ⟨⟨_, _, _, _, _, _, _, h⟩, _⟩
        · simp only [Put]
          have hacc := UpdatesAccepted_append_other (Event.PutProgress Progress.Success) h2
            (by simp)
          have hcount : countTerminal (t5 ++ [Event.PutProgress Progress.Success]) = 1 := by
            simp only [countTerminal_append, h3]
            rfl
          split <;> rename_i heq6 <;> simp only [Prod.mk.injEq] at heq6 <;> rw [← heq6.2] <;>
            exact ⟨hacc, hcount⟩
        · cases h
        · cases h
        · cases h
      | error e =>
        rcases hb with ⟨h, _⟩ | h | ⟨_, h2, h3⟩ | h
        · cases h
        · cases h
        · exact Or.inr (Or.inl ⟨h2, h3⟩)
        · exact Or.inr (Or.inr h)
      | unfinished => left; rfl
      | panic =>
        rcases hb with ⟨h, _⟩ | h | ⟨⟨e, h⟩, _⟩ | ⟨⟨_, _, _, _, _, _, _, h⟩, _⟩ <;> cases h

theorem readChunks_terminal (env : Env) (node : NodeId) :
    ∀ (ps : List Nat) (address : Nat) (block : List Byte) (t : List Event),
      UpdatesAccepted env t → countTerminal t = 0 →
      (∃ v, (readChunks env node ps address block t).1 = Except.ok v
          ∧ UpdatesAccepted env (readChunks env node ps address block t).2
          ∧ countTerminal (readChunks env node ps address block t).2 = 0)
      ∨ (∃ e, (readChunks env node ps address block t).1 = Except.error e
          ∧ UpdatesAccepted env (readChunks env node ps address block t).2
          ∧ countTerminal (readChunks env node ps address block t).2 = 1) := by
  intro ps
  induction ps with
  | nil => intro address block t ha ht; left; exact ⟨_, rfl, ha, ht⟩
  | cons p ps ih =>
    intro address block t ha ht
    unfold readChunks
    simp only [ExpectSystemMessage]
    have ha2 := UpdatesAccepted_append_other
      (Event.Expect node MessageType.SYS_BOOTLOADER_READ_ACK)
      (UpdatesAccepted_append_other
        (Event.Send node MessageType.SYS_BOOTLOADER_READ 8 []) ha (by simp)) (by simp)
    split
    · rename_i err t2 heq
      simp only [Prod.mk.injEq] at heq
      right
      refine ⟨_, rfl, ?_, ?_⟩
      · rw [← heq.2]
        exact UpdatesAccepted_append_other _ ha2 (by simp)
      · rw [← heq.2]
        simp only [Put, countTerminal_append, ht]
        rfl
    · rename_i response t2 heq
      simp only [Prod.mk.injEq] at heq
      apply ih
      · rw [← heq.2]
        exact ha2
      · rw [← heq.2]
        simp only [countTerminal_append, ht]
        rfl

/-- What holds of the page loop of a download started on a trace without a terminal
event whose Update events were all accepted: it runs to its end in such a trace, or it
returns an error after exactly one terminal event, or it ends at an Update event that the
client refused, without a terminal event. -/
theorem downloadPages_terminal (env : Env) (node : NodeId) (memlength : Nat) :
    ∀ (remaining i : Nat) (block : List Byte) (t : List Event),
      64 * remaining ≤ memlength → UpdatesAccepted env t → countTerminal t = 0 →
      ((downloadPages env node memlength remaining i block t).1 = JobResult.ok
        ∧ UpdatesAccepted env (downloadPages env node memlength remaining i block t).2.2
        ∧ countTerminal (downloadPages env node memlength remaining i block t).2.2 = 0)
      ∨ ((∃ e, (downloadPages env node memlength remaining i block t).1 = JobResult.error e)
        ∧ UpdatesAccepted env (downloadPages env node memlength remaining i block t).2.2
        ∧ countTerminal (downloadPages env node memlength remaining i block t).2.2 = 1)
      ∨ (RejectedUpdate env (downloadPages env node memlength remaining i block t).1
            (downloadPages env node memlength remaining i block t).2.2
        ∧ countTerminal (downloadPages env node memlength remaining i block t).2.2 = 0) := by
  intro remaining
  induction remaining with
  | zero => intro i block t _ ha ht; left; exact ⟨rfl, ha, ht⟩
  | succ n ih =>
    intro i block t hn ha ht
    unfold downloadPages
    simp only [ExpectSystemMessage]
    have ha2 := UpdatesAccepted_append_other
      (Event.Expect node MessageType.SYS_BOOTLOADER_SET_ADDRESS_ACK)
      (UpdatesAccepted_append_other
        (Event.Send node MessageType.SYS_BOOTLOADER_SET_ADDRESS 70
          (uint32ToBytes ((FLASH_APP_ORIGIN + i * FLASH_PAGE_SIZE) % 2 ^ 32)))
        ha (by simp)) (by simp)
    split
    · rename_i err t2 heq
      simp only [Prod.mk.injEq] at heq
      right; left
      refine ⟨⟨_, rfl⟩, ?_, ?_⟩
      · rw [← heq.2]
        exact UpdatesAccepted_append_other _ ha2 (by simp)
      · rw [← heq.2]
        simp only [Put, countTerminal_append, ht]
        rfl
    · rename_i payload t2 heq
      simp only [Prod.mk.injEq] at heq
      have hat2 : UpdatesAccepted env t2 := by
        rw [← heq.2]
        exact ha2
      have ht2 : countTerminal t2 = 0 := by
        rw [← heq.2]
        simp only [countTerminal_append, ht]
        rfl
      rcases readChunks_terminal env node pagePositions
          ((FLASH_APP_ORIGIN + i * FLASH_PAGE_SIZE) % 2 ^ 32) block t2 hat2 ht2
        with ⟨v, h1, h2, h3⟩ | ⟨e, h1, h2, h3⟩
      · revert h1 h2 h3
        generalize readChunks env node pagePositions
          ((FLASH_APP_ORIGIN + i * FLASH_PAGE_SIZE) % 2 ^ 32) block t2 = w
        obtain ⟨r, t3⟩ := w
        intro h1 h2 h3
        simp only at h1 h2 h3
        subst h1
        obtain ⟨address1, block1⟩ := v
        simp only
        rw [if_neg (by omega)]
        simp only [Put]
        cases hput : env.put (t3 ++ [Event.PutProgress
            (Progress.Update
              ((address1 + 2 ^ 32 - FLASH_APP_ORIGIN) % 2 ^ 32 * 100 % 2 ^ 32 / memlength)
              ((address1 + 2 ^ 32 - FLASH_APP_ORIGIN) % 2 ^ 32))]) with
        | some c =>
          simp only
          right; right
          refine ⟨⟨t3, _, _, c, rfl, h2, hput, rfl⟩, ?_⟩
          simp only [countTerminal_append, h3]
          rfl
        | none =>
          simp only
          apply ih
          · omega
          · exact UpdatesAccepted_append_update _ _ h2 hput
          · simp only [countTerminal_append, h3]
            rfl
      · revert h1 h2 h3
        generalize readChunks env node pagePositions
          ((FLASH_APP_ORIGIN + i * FLASH_PAGE_SIZE) % 2 ^ 32) block t2 = w
        obtain ⟨r, t3⟩ := w
        intro h1 h2 h3
        simp only at h1 h2 h3
        subst h1
        simp only
        right; left
        exact ⟨⟨_, rfl⟩, h2, h3⟩

/-- Every download, whatever the transport and the client do: the client accepted every
Update event and the trace has exactly one terminal event; or the download ended at an
Update event that the client refused, and the trace has no terminal event. -/
theorem downloadFirmware_terminal (env : Env) (node : Node) (firmware : NodeFirmware) :
    (UpdatesAccepted env (downloadFirmware env node firmware).2.1
        ∧ countTerminal (downloadFirmware env node firmware).2.1 = 1)
    ∨ (RejectedUpdate env (downloadFirmware env node firmware).1
          (downloadFirmware env node firmware).2.1
        ∧ countTerminal (downloadFirmware env node firmware).2.1 = 0) := by
  unfold downloadFirmware
  simp only
  have hp := downloadPages_terminal env node.Id
    (if firmware.Limit > FLASH_APP_LENGTH then FLASH_APP_LENGTH else firmware.Limit)
    ((if firmware.Limit > FLASH_APP_LENGTH then FLASH_APP_LENGTH else firmware.Limit)
      / FLASH_PAGE_SIZE) 0 [] []
    (by unfold FLASH_PAGE_SIZE; omega) (UpdatesAccepted_nil env) rfl
  revert hp
  generalize downloadPages env node.Id
    (if firmware.Limit > FLASH_APP_LENGTH then FLASH_APP_LENGTH else firmware.Limit)
    ((if firmware.Limit > FLASH_APP_LENGTH then FLASH_APP_LENGTH else firmware.Limit)
      / FLASH_PAGE_SIZE) 0 [] [] = w
  obtain ⟨r, block, t1⟩ := w
  intro hp
  cases r with
  | ok =>
    left
    rcases hp with ⟨_, h2, h3⟩ | ⟨⟨e, h⟩, _⟩ | ⟨⟨_, _, _, _, _, _, _, h⟩, _⟩
    · simp only [Put]
      have hacc := UpdatesAccepted_append_other
        (Event.PutDownload (firmware.AppendBlock FLASH_APP_ORIGIN block))
        (UpdatesAccepted_append_other (Event.PutProgress Progress.Success) h2 (by simp))
        (by simp)
      have hcount : countTerminal (t1 ++ [Event.PutProgress Progress.Success]
          ++ [Event.PutDownload (firmware.AppendBlock FLASH_APP_ORIGIN block)]) = 1 := by
        simp only [countTerminal_append, h3]
        rfl
      split <;> rename_i heq6 <;> simp only [Prod.mk.injEq] at heq6 <;> rw [← heq6.2] <;>
        exact ⟨hacc, hcount⟩
    · cases h
    · cases h
  | error e =>
    rcases hp with ⟨h, _⟩ | ⟨_, h2, h3⟩ | h
    · cases h
    · exact Or.inl ⟨h2, h3⟩
    · exact Or.inr h
  | unfinished =>
    rcases hp with ⟨h, _⟩ | ⟨⟨e, h⟩, _⟩ | ⟨⟨_, _, _, _, _, _, _, h⟩, _⟩ <;> cases h
  | panic =>
    rcases hp with ⟨h, _⟩ | ⟨⟨e, h⟩, _⟩ | ⟨⟨_, _, _, _, _, _, _, h⟩, _⟩ <;> cases h

/-- C11, as stated, fails: when the client refuses the Update event of the first page,
the upload returns the error of the client and has put no terminal event at all; so does
the download. -/
theorem Job_without_terminal_event :
    (uploadFirmware deafClientEnv sampleNode smallImage 1).1
        = JobResult.error (FwError.Sink "client gone")
    ∧ countTerminal (uploadFirmware deafClientEnv sampleNode smallImage 1).2 = 0
    ∧ (downloadFirmware deafClientEnv sampleNode { Code := [], Limit := 64 }).1
        = JobResult.error (FwError.Sink "client gone")
    ∧ countTerminal (downloadFirmware deafClientEnv sampleNode { Code := [], Limit := 64 }).2.1
        = 0 := by
  refine ⟨by decide, by decide, by decide, by decide⟩

/-- C11 (amended): for every behaviour of the transport and of the client, an upload that
returns, and a download, end in one of two ways. Either the client accepted every Update
event that was put, and the events contain exactly one terminal progress event (Success
or Failed). Or the job ended at the first Update event that the client refused: that
event is the last one, the job returns the error of the client, and the events contain no
terminal event. So with a client that accepts every Update event there is exactly one
terminal event. A download always returns; an upload returns, given fuel for the pages of
every block, when the blocks fit the 32-bit page counter. -/
theorem Job_one_terminal_event (env : Env) (node : Node) (firmware : NodeFirmware)
    (fuel : Nat) :
    ((uploadFirmware env node firmware fuel).1 ≠ JobResult.unfinished →
      (UpdatesAccepted env (uploadFirmware env node firmware fuel).2
        ∧ countTerminal (uploadFirmware env node firmware fuel).2 = 1)
      ∨ (RejectedUpdate env (uploadFirmware env node firmware fuel).1
            (uploadFirmware env node firmware fuel).2
        ∧ ¬ UpdatesAccepted env (uploadFirmware env node firmware fuel).2
        ∧ countTerminal (uploadFirmware env node firmware fuel).2 = 0))
    ∧ ((UpdatesAccepted env (downloadFirmware env node firmware).2.1
        ∧ countTerminal (downloadFirmware env node firmware).2.1 = 1)
      ∨ (RejectedUpdate env (downloadFirmware env node firmware).1
            (downloadFirmware env node firmware).2.1
        ∧ ¬ UpdatesAccepted env (downloadFirmware env node firmware).2.1
        ∧ countTerminal (downloadFirmware env node firmware).2.1 = 0))
    ∧ (AcceptsUpdates env →
        ((uploadFirmware env node firmware fuel).1 ≠ JobResult.unfinished →
          countTerminal (uploadFirmware env node firmware fuel).2 = 1)
        ∧ countTerminal (downloadFirmware env node firmware).2.1 = 1)
    ∧ (FitsCounter firmware → EnoughFuel firmware fuel →
        (uploadFirmware env node firmware fuel).1 ≠ JobResult.unfinished) := by
  refine ⟨?_, ?_, ?_, ?_⟩
  · intro hret
    rcases uploadFirmware_terminal env node firmware fuel with h | h | ⟨h1, h2⟩
    · exact absurd h hret
    · exact Or.inl h
    · exact Or.inr ⟨h1, not_UpdatesAccepted_of_RejectedUpdate h1, h2⟩
  · rcases downloadFirmware_terminal env node firmware with h | ⟨h1, h2⟩
    · exact Or.inl h
    · exact Or.inr ⟨h1, not_UpdatesAccepted_of_RejectedUpdate h1, h2⟩
  · intro hupd
    refine ⟨?_, ?_⟩
    · intro hret
      rcases uploadFirmware_terminal env node firmware fuel with h | h | ⟨h1, _⟩
      · exact absurd h hret
      · exact h.2
      · exact absurd h1 (not_RejectedUpdate_of_AcceptsUpdates hupd)
    · rcases downloadFirmware_terminal env node firmware with h | ⟨h1, _⟩
      · exact h.2
      · exact absurd h1 (not_RejectedUpdate_of_AcceptsUpdates hupd)
  · intro hfit hfuel
    rcases uploadFirmware_shape env node firmware fuel hfit with ⟨h1, _⟩ | ⟨c, h1, _⟩ | hs
    · rw [h1]; simp
    · rw [h1]; simp
    · obtain ⟨P, _, h⟩ := hs
      rcases h with ⟨e, cause, h1, _⟩ | ⟨c, pct, bytes, h1, _⟩ | ⟨_, ⟨b, hb, hlt⟩, _⟩
      · rw [h1]; simp
      · rw [h1]; simp
      · have := hfuel b hb
        omega

/-- Witness for C11. Over the quiet environment, whose client accepts every event, the
upload of the three-byte image puts one Update event and the download of two pages puts
two, and each job has exactly one terminal event. Over the client that refuses the Update
events, the upload of two one-byte blocks and the download of two pages end at the first
Update event, without a terminal event. -/
theorem Job_one_terminal_event_witness :
    percents (uploadFirmware quietEnv sampleNode smallImage 1).2 = [0]
    ∧ countTerminal (uploadFirmware quietEnv sampleNode smallImage 1).2 = 1
    ∧ percents (downloadFirmware quietEnv sampleNode twoBlockImage).2.1 = [50, 100]
    ∧ countTerminal (downloadFirmware quietEnv sampleNode twoBlockImage).2.1 = 1
    ∧ RejectedUpdate deafClientEnv (uploadFirmware deafClientEnv sampleNode twoSmallBlocks 1).1
        (uploadFirmware deafClientEnv sampleNode twoSmallBlocks 1).2
    ∧ countTerminal (uploadFirmware deafClientEnv sampleNode twoSmallBlocks 1).2 = 0
    ∧ RejectedUpdate deafClientEnv (downloadFirmware deafClientEnv sampleNode twoBlockImage).1
        (downloadFirmware deafClientEnv sampleNode twoBlockImage).2.1
    ∧ countTerminal (downloadFirmware deafClientEnv sampleNode twoBlockImage).2.1 = 0 :=
  have hq := Job_one_terminal_event quietEnv sampleNode smallImage 1
  have hq2 := Job_one_terminal_event quietEnv sampleNode twoBlockImage 0
  have hd := Job_one_terminal_event deafClientEnv sampleNode twoSmallBlocks 1
  have hd2 := Job_one_terminal_event deafClientEnv sampleNode twoBlockImage 0
  have hu0 : countTerminal (uploadFirmware deafClientEnv sampleNode twoSmallBlocks 1).2 = 0 := by
    decide
  have hl0 : countTerminal (downloadFirmware deafClientEnv sampleNode twoBlockImage).2.1 = 0 := by
    decide
  have hur := (hd.1 (by decide)).resolve_left (fun h => by rw [hu0] at h; exact absurd h.2 (by decide))
  have hlr := hd2.2.1.resolve_left (fun h => by rw [hl0] at h; exact absurd h.2 (by decide))
  ⟨by decide, (hq.2.2.1 AcceptsUpdates_quietEnv).1 (by decide), by decide,
    (hq2.2.2.1 AcceptsUpdates_quietEnv).2, hur.1, hur.2.2, hlr.1, hlr.2.2⟩

/-! ## C12: the addresses of the `SET_ADDRESS` commands -/

theorem setAddresses_sends (t : List Event) : setAddresses (sends t) = setAddresses t := by
  induction t with
  | nil => rfl
  | cons e t ih =>
    cases e with
    | Send n fn p d => cases fn <;> simp_all [sends, setAddresses]
    | Expect _ _ => simp_all [sends, setAddresses]
    | PutProgress _ => simp_all [sends, setAddresses]
    | PutDownload _ => simp_all [sends, setAddresses]

theorem downloadFirmware_sends_initial (env : Env) (node : Node) (firmware : NodeFirmware) :
    sends (downloadFirmware env node firmware).2.1
      <+: downloadCommands node.Id (effectiveLength firmware) := by
  rcases downloadFirmware_shape env node firmware with ⟨h1, _⟩ | ⟨hs, _⟩
  · rw [h1, sends_append, sends_dlBody]
    simp [sends]
  · obtain ⟨P, hP, h⟩ := hs
    have hPs : sends P <+: downloadCommands node.Id (effectiveLength firmware) := by
      rw [← sends_dlBody]
      exact hP.filter _
    rcases h with ⟨e, cause, _, _, _, h4⟩ | ⟨c, pct, bytes, _, _, _, h4⟩ | ⟨_, _, h4⟩
    · rw [h4, List.nil_append, sends_append]
      simpa [sends] using hPs
    · rw [h4, List.nil_append]
      exact hPs
    · rw [h4, List.nil_append]
      exact hPs

theorem mem_setAddresses_uploadCommands (node : NodeId) (firmware : NodeFirmware) (a : Nat)
    (ha : a ∈ setAddresses (uploadCommands node firmware)) :
    a = 0x2000 ∨ ∃ b ∈ firmware.Code, ∃ k : Nat, 64 * k < b.Data.length
      ∧ a = (b.Offset + 64 * k) % 2 ^ 32 := by
  simp only [setAddresses, uploadCommands, pageCommands, pageOffsets, List.mem_filterMap,
    List.mem_append, List.mem_flatMap, List.mem_cons, List.mem_map, List.mem_range',
    List.mem_singleton] at ha
  obtain ⟨e, he, hea⟩ := ha
  rcases he with (he | he | he) | ⟨b, hb, po, ⟨k, hk, hpo⟩, he⟩
  · subst he
    left
    simp only [Option.some.injEq] at hea
    rw [← hea, bytesToUint32_uint32ToBytes]
    rfl
  · subst he
    simp at hea
  · simp at he
  · right
    rcases he with (he | ⟨c, _, he⟩) | he
    · subst he
      simp only [Option.some.injEq] at hea
      refine ⟨b, hb, k, by omega, ?_⟩
      rw [← hea, bytesToUint32_uint32ToBytes, hpo]
      simp
    · subst he
      simp at hea
    · rcases he with he | he
      · subst he
        simp at hea
      · simp at he

theorem mem_setAddresses_downloadCommands (node : NodeId) (memlength a : Nat)
    (ha : a ∈ setAddresses (downloadCommands node memlength)) :
    ∃ i : Nat, i < memlength / 64 ∧ a = (0x2000 + 64 * i) % 2 ^ 32 := by
  simp only [setAddresses, downloadCommands, List.mem_filterMap, List.mem_flatMap,
    List.mem_cons, List.mem_range, List.mem_replicate] at ha
  obtain ⟨e, ⟨i, hi, he⟩, hea⟩ := ha
  rcases he with he | ⟨_, he⟩
  · subst he
    simp only [Option.some.injEq] at hea
    exact ⟨i, hi, by rw [← hea, bytesToUint32_uint32ToBytes]⟩
  · subst he
    simp at hea

/-- C12, as stated, fails: for an image with a block whose `Offset` is 0, the upload
sends `SET_ADDRESS` for address 0, in the part of the flash reserved for the bootloader;
and for a block whose `Offset` is `0x40000` it sends `SET_ADDRESS` for `0x40000`, past the
end of the flash. -/
theorem Upload_addresses_outside_region :
    setAddresses (uploadFirmware quietEnv sampleNode lowImage 1).2 = [0x2000, 0]
    ∧ ¬ (∀ a ∈ setAddresses (uploadFirmware quietEnv sampleNode lowImage 1).2, InRegion a)
    ∧ setAddresses (uploadFirmware quietEnv sampleNode highImage 1).2 = [0x2000, 0x40000]
    ∧ ¬ (∀ a ∈ setAddresses (uploadFirmware quietEnv sampleNode highImage 1).2,
          InRegion a) := by
  have h : setAddresses (uploadFirmware quietEnv sampleNode lowImage 1).2 = [0x2000, 0] := by
    decide
  have h2 : setAddresses (uploadFirmware quietEnv sampleNode highImage 1).2
      = [0x2000, 0x40000] := by
    decide
  refine ⟨h, ?_, h2, ?_⟩
  · rw [h]
    intro hall
    have := (hall 0 (by simp)).1
    simp [FLASH_APP_ORIGIN, FLASH_ORIGIN] at this
  · rw [h2]
    intro hall
    have := (hall 0x40000 (by simp)).2
    simp [FLASH_LENGTH] at this

/-- C12 (amended): for every `Limit` and every behaviour of the transport and of the
client, every `SET_ADDRESS` of a download carries an address inside the application
region; and for every image each of whose blocks lies inside the application region
(`0x2000 ≤ Offset` and `Offset + len ≤ 0x40000`), every `SET_ADDRESS` of an upload does.
The engine sends `block.Offset + page_offset` as it is, without a check of its own. -/
theorem SetAddress_in_region (env : Env) (node : Node) (firmware : NodeFirmware) (fuel : Nat) :
    ((∀ b ∈ firmware.Code,
        FLASH_APP_ORIGIN ≤ b.Offset ∧ b.Offset + b.Data.length ≤ FLASH_LENGTH) →
      ∀ a ∈ setAddresses (uploadFirmware env node firmware fuel).2, InRegion a)
    ∧ (∀ a ∈ setAddresses (downloadFirmware env node firmware).2.1, InRegion a) := by
  have hL : FLASH_LENGTH = 262144 := rfl
  have hO : FLASH_APP_ORIGIN = 8192 := rfl
  have hA : FLASH_APP_LENGTH = 253952 := rfl
  refine ⟨?_, ?_⟩
  · intro hreg a ha
    have hfit : FitsCounter firmware := by
      intro b hb
      have := hreg b hb
      omega
    rw [← setAddresses_sends] at ha
    have hpre := (uploadFirmware_sends_initial env node firmware fuel hfit).filterMap
      (fun e => match e with
        | Event.Send _ MessageType.SYS_BOOTLOADER_SET_ADDRESS _ data => some (bytesToUint32 data)
        | _ => none)
    have ha2 : a ∈ setAddresses (uploadCommands node.Id firmware) := hpre.subset ha
    rcases mem_setAddresses_uploadCommands _ _ _ ha2 with h | ⟨b, hb, k, hk, h⟩
    · rw [h]
      unfold InRegion
      omega
    · have := hreg b hb
      rw [h, Nat.mod_eq_of_lt (by omega)]
      unfold InRegion
      omega
  · intro a ha
    rw [← setAddresses_sends] at ha
    have hpre := (downloadFirmware_sends_initial env node firmware).filterMap
      (fun e => match e with
        | Event.Send _ MessageType.SYS_BOOTLOADER_SET_ADDRESS _ data => some (bytesToUint32 data)
        | _ => none)
    have ha2 : a ∈ setAddresses (downloadCommands node.Id (effectiveLength firmware)) :=
      hpre.subset ha
    obtain ⟨i, hi, h⟩ := mem_setAddresses_downloadCommands _ _ _ ha2
    have := effectiveLength_le firmware
    rw [h, Nat.mod_eq_of_lt (by omega)]
    unfold InRegion
    omega

/-- Witness for C12: the upload of the three-byte image at `0x2000` over the environment
that fails the second WRITE, and a download of two pages over the quiet environment. -/
theorem SetAddress_in_region_witness :
    (∀ a ∈ setAddresses (uploadFirmware nackSecondWrite sampleNode smallImage 1).2, InRegion a)
    ∧ (∀ a ∈ setAddresses (downloadFirmware quietEnv sampleNode twoBlockImage).2.1,
        InRegion a) :=
  ⟨(SetAddress_in_region nackSecondWrite sampleNode smallImage 1).1
      (by intro b hb; simp [smallImage] at hb; subst hb; decide),
    (SetAddress_in_region quietEnv sampleNode twoBlockImage 0).2⟩

/-! ## C14: the percent values of the Update events -/

theorem percents_chunks (node : NodeId) (cs : List (List Byte)) :
    percents (cs.flatMap (fun c =>
        [Event.Send node MessageType.SYS_BOOTLOADER_WRITE 0 c,
         Event.Expect node MessageType.SYS_BOOTLOADER_WRITE_ACK])) = [] := by
  induction cs with
  | nil => rfl
  | cons c cs ih =>
    rw [List.flatMap_cons, percents_append, ih]
    rfl

theorem percents_pageEvents (node : NodeId) (block : Block) (page_offset : Nat) :
    percents (pageEvents node block page_offset)
      = [page_offset * 100 % 2 ^ 32 / block.Data.length] := by
  rw [pageEvents, percents_append, percents_append, percents_chunks]
  rfl

theorem percents_blockEventsFrom (node : NodeId) (block : Block) :
    ∀ (n page_offset : Nat), block.Data.length ≤ page_offset + 64 * n →
      percents (blockEventsFrom node block n page_offset)
        = (List.range' page_offset ((block.Data.length - page_offset + 63) / 64) 64).map
            (fun po => po * 100 % 2 ^ 32 / block.Data.length) := by
  intro n
  induction n with
  | zero =>
    intro po h
    have : (block.Data.length - po + 63) / 64 = 0 := by omega
    rw [this]
    rfl
  | succ n ih =>
    intro po h
    rw [blockEventsFrom]
    split
    · rename_i hlt
      have : (block.Data.length - po + 63) / 64
          = (block.Data.length - (po + 64) + 63) / 64 + 1 := by omega
      rw [this, List.range'_succ, List.map_cons, percents_append, percents_pageEvents,
        ih (po + 64) (by omega)]
      rfl
    · rename_i hlt
      have : (block.Data.length - po + 63) / 64 = 0 := by omega
      rw [this]
      rfl

theorem percents_uploadEvents (node : NodeId) (firmware : NodeFirmware) :
    percents (uploadEvents node firmware)
      = firmware.Code.flatMap (fun b => blockPercents b.Data.length) := by
  have h : ∀ blocks : List Block, percents (blocks.flatMap (blockEvents node))
      = blocks.flatMap (fun b => blockPercents b.Data.length) := by
    intro blocks
    induction blocks with
    | nil => rfl
    | cons b bs ih =>
      rw [List.flatMap_cons, List.flatMap_cons, percents_append, ih, blockEvents,
        percents_blockEventsFrom node b _ 0 (by omega)]
      rfl
  rw [uploadEvents, uploadBody, percents_append, percents_append, h]
  simp [percents]

theorem percents_readEvents (node : NodeId) : ∀ n : Nat, percents (readEvents node n) = [] := by
  intro n
  induction n with
  | zero => rfl
  | succ n ih =>
    rw [readEvents]
    exact ih

theorem percents_dlBodyFrom (node : NodeId) (memlength : Nat) : ∀ n i : Nat,
    percents (dlBodyFrom node memlength n i)
      = (List.range' i n).map (fun j => 64 * (j + 1) * 100 / memlength) := by
  intro n
  induction n with
  | zero => intro i; rfl
  | succ n ih =>
    intro i
    rw [dlBodyFrom, percents_append, ih, dlPageEvents, percents_append, percents_append,
      percents_readEvents, List.range'_succ, List.map_cons]
    rfl

theorem blockPercents_pairwise (len : Nat) (hlen : len * 100 ≤ 2 ^ 32) :
    (blockPercents len).Pairwise (· ≤ ·) := by
  unfold blockPercents pageOffsets
  rw [List.pairwise_map]
  refine List.Pairwise.imp_of_mem ?_ (List.pairwise_lt_range' 0 _ 64 (by omega))
  intro a b ha hb hab
  rw [List.mem_range'] at ha hb
  obtain ⟨i, hi, rfl⟩ := ha
  obtain ⟨j, hj, rfl⟩ := hb
  rw [Nat.mod_eq_of_lt (by omega), Nat.mod_eq_of_lt (by omega)]
  exact Nat.div_le_div_right (by omega)

theorem percents_dlBody_pairwise (node : NodeId) (memlength : Nat) :
    (percents (dlBody node memlength)).Pairwise (· ≤ ·) := by
  rw [dlBody, percents_dlBodyFrom, List.pairwise_map]
  refine List.Pairwise.imp ?_ (List.pairwise_lt_range' 0 _ 1 (by omega))
  intro a b hab
  exact Nat.div_le_div_right (by omega)

/-- An upload over a transport that acknowledges every request and a client that accepts
every event, with fuel for every block, returns nil after the events of `uploadEvents`. -/
theorem uploadFirmware_undisturbed (env : Env) (node : Node) (firmware : NodeFirmware)
    (fuel : Nat) (hack : AllAck env) (hacc : AllAccept env)
    (hfit : FitsCounter firmware) (hfuel : EnoughFuel firmware fuel) :
    (uploadFirmware env node firmware fuel).1 = JobResult.ok
    ∧ (uploadFirmware env node firmware fuel).2 = uploadEvents node.Id firmware := by
  rcases uploadFirmware_shape env node firmware fuel hfit with h | ⟨c, _, _, h3⟩ | hs
  · exact h
  · rw [hacc] at h3
    cases h3
  · exfalso
    obtain ⟨P, _, h⟩ := hs
    rcases h with ⟨e, cause, _, _, h3, _⟩ | ⟨c, pct, bytes, _, _, h3, _⟩ | ⟨_, ⟨b, hb, hlt⟩, _⟩
    · obtain ⟨payload, hp⟩ := hack ([] ++ P)
      rw [hp] at h3
      cases h3
    · rw [hacc] at h3
      cases h3
    · have := hfuel b hb
      omega

/-- C14, as stated, fails: the successful upload of an image of two blocks of two pages
each puts the percent values 0, 98, 0, 98; the percent starts again at 0 with the second
block. -/
theorem Upload_percents_restart :
    (uploadFirmware quietEnv sampleNode twoBlockImage 2).1 = JobResult.ok
    ∧ percents (uploadFirmware quietEnv sampleNode twoBlockImage 2).2 = [0, 98, 0, 98]
    ∧ ¬ (percents (uploadFirmware quietEnv sampleNode twoBlockImage 2).2).Pairwise
          (· ≤ ·) := by
  have h := uploadFirmware_undisturbed quietEnv sampleNode twoBlockImage 2 AllAck_quietEnv
    (fun _ => rfl)
    (by intro b hb; simp [twoBlockImage] at hb; rcases hb with hb | hb <;> subst hb <;> simp)
    (by intro b hb; simp [twoBlockImage] at hb; rcases hb with hb | hb <;> subst hb <;> simp)
  have hp : percents (uploadFirmware quietEnv sampleNode twoBlockImage 2).2 = [0, 98, 0, 98] := by
    rw [h.2, percents_uploadEvents]
    decide
  refine ⟨h.1, hp, ?_⟩
  rw [hp]
  decide

/-- C14 (amended): in every successful download the percent values of the Update
events, in the order put, are non-decreasing. In every successful upload of an image
whose blocks have at most `2^32 / 100` bytes, the percent values are those of the first
block, then those of the second, and so on, and the values of one block are
non-decreasing (so the whole sequence is when the image has at most one block); the
percent starts again from 0 with every block. -/
theorem Progress_percents (env : Env) (node : Node) (firmware : NodeFirmware) (fuel : Nat) :
    ((∀ b ∈ firmware.Code, b.Data.length * 100 ≤ 2 ^ 32) →
      (uploadFirmware env node firmware fuel).1 = JobResult.ok →
        percents (uploadFirmware env node firmware fuel).2
          = firmware.Code.flatMap (fun b => blockPercents b.Data.length)
        ∧ (∀ b ∈ firmware.Code, (blockPercents b.Data.length).Pairwise (· ≤ ·))
        ∧ (firmware.Code.length ≤ 1 →
            (percents (uploadFirmware env node firmware fuel).2).Pairwise (· ≤ ·)))
    ∧ ((downloadFirmware env node firmware).1 = JobResult.ok →
        (percents (downloadFirmware env node firmware).2.1).Pairwise (· ≤ ·)) := by
  refine ⟨?_, ?_⟩
  · intro hlen hok
    have hfit : FitsCounter firmware := by
      intro b hb
      have := hlen b hb
      omega
    have hpair : ∀ b ∈ firmware.Code, (blockPercents b.Data.length).Pairwise (· ≤ ·) :=
      fun b hb => blockPercents_pairwise _ (hlen b hb)
    have htr : (uploadFirmware env node firmware fuel).2 = uploadEvents node.Id firmware := by
      rcases uploadFirmware_shape env node firmware fuel hfit with ⟨_, h2⟩ | ⟨c, h1, _⟩ | hs
      · exact h2
      · rw [h1] at hok
        cases hok
      · exact absurd hok hs.ne_ok
    rw [htr, percents_uploadEvents]
    refine ⟨rfl, hpair, ?_⟩
    intro h1
    match hc : firmware.Code, h1 with
    | [], _ => simp
    | [b], _ =>
      simp only [List.flatMap_cons, List.flatMap_nil, List.append_nil]
      exact hpair b (by rw [hc]; simp)
    | _ :: _ :: _, h => simp at h
  · intro hok
    rcases downloadFirmware_shape env node firmware with ⟨h1, _⟩ | ⟨hs, _⟩
    · rw [h1, percents_append]
      have : percents [Event.PutProgress Progress.Success,
          Event.PutDownload (firmware.AppendBlock FLASH_APP_ORIGIN
            (readReplies env [] (dlBody node.Id (effectiveLength firmware))))] = [] := rfl
      rw [this, List.append_nil]
      exact percents_dlBody_pairwise _ _
    · exact absurd hok hs.ne_ok

/-- Witness for C14: the upload of the image of two blocks of two pages, and a download
of two pages, over the quiet environment. -/
theorem Progress_percents_witness :
    percents (uploadFirmware quietEnv sampleNode twoBlockImage 2).2
        = twoBlockImage.Code.flatMap (fun b => blockPercents b.Data.length)
    ∧ (∀ b ∈ twoBlockImage.Code, (blockPercents b.Data.length).Pairwise (· ≤ ·))
    ∧ (percents (downloadFirmware quietEnv sampleNode twoBlockImage).2.1).Pairwise (· ≤ ·) :=
  have h := Progress_percents quietEnv sampleNode twoBlockImage 2
  have hu := h.1
    (by intro b hb; simp [twoBlockImage] at hb; rcases hb with hb | hb <;> subst hb <;> simp)
    (uploadFirmware_undisturbed quietEnv sampleNode twoBlockImage 2 AllAck_quietEnv
      (fun _ => rfl)
      (by intro b hb; simp [twoBlockImage] at hb; rcases hb with hb | hb <;> subst hb <;> simp)
      (by intro b hb; simp [twoBlockImage] at hb;
          rcases hb with hb | hb <;> subst hb <;> simp)).1
  ⟨hu.1, hu.2.1, h.2 (by decide)⟩

/-! ## C20: the address in the error of an upload -/

theorem writeChunks_reported (env : Env) (node : NodeId) (block : Block)
    (blocksize page_offset address : Nat) :
    ∀ (ps : List Nat) (crc : Nat) (t : List Event) (e : FwError),
      (writeChunks env node block blocksize page_offset address ps crc t).1 = Except.error e →
      ∃ c, e = FwError.Write node address c := by
  intro ps
  induction ps with
  | nil => intro crc t e h; simp [writeChunks] at h
  | cons p ps ih =>
    intro crc t e h
    unfold writeChunks at h
    split at h
    · simp only [ExpectSystemMessage] at h
      split at h
      · rename_i err t2 heq
        simp only [Except.error.injEq] at h
        exact ⟨err, h.symm⟩
      · exact ih _ _ _ h
    · simp at h

theorem uploadPages_reported (env : Env) (node : NodeId) (block : Block)
    (blocksize address : Nat) :
    ∀ (fuel page_offset : Nat) (t : List Event),
      reportedAddress (uploadPages env node block blocksize address fuel page_offset t).1 = none
      ∨ reportedAddress (uploadPages env node block blocksize address fuel page_offset t).1
          = some address := by
  intro fuel
  induction fuel with
  | zero =>
    intro po t
    left
    unfold uploadPages
    split <;> rfl
  | succ fuel ih =>
    intro po t
    unfold uploadPages
    split
    · simp only [ExpectSystemMessage]
      split
      · right; rfl
      · split
        · rename_i e t3 heq
          obtain ⟨c, hc⟩ := writeChunks_reported env node block blocksize po address _ _ _ e
            (by rw [heq])
          right
          rw [hc]
          rfl
        · split
          · right; rfl
          · split
            · left; rfl
            · simp only [Put]
              split
              · left; rfl
              · exact ih _ _
    · left; rfl

theorem uploadBlocks_reported (env : Env) (node : NodeId) (address fuel : Nat) :
    ∀ (blocks : List Block) (t : List Event),
      reportedAddress (uploadBlocks env node address fuel blocks t).1 = none
      ∨ reportedAddress (uploadBlocks env node address fuel blocks t).1 = some address := by
  intro blocks
  induction blocks with
  | nil => intro t; left; rfl
  | cons b bs ih =>
    intro t
    unfold uploadBlocks
    have hp := uploadPages_reported env node b (b.Data.length % 2 ^ 32) address fuel 0 t
    revert hp
    generalize uploadPages env node b (b.Data.length % 2 ^ 32) address fuel 0 t = w
    obtain ⟨r, t1⟩ := w
    intro hp
    cases r with
    | ok => exact ih t1
    | error e => exact hp
    | unfinished => exact hp
    | panic => exact hp

/-- C20: the address that the error of an upload reports is never the address of the
page being written. The variable `address` that the three error formats print is declared
and never assigned, so the reported address is 0 for every image, every transport and
every failing page; for the three-byte image at `0x2000` whose checksum WRITE is not
acknowledged the error reports address 0 while the page written is at `0x2000`. -/
theorem Upload_error_reports_address_zero :
    (∀ (env : Env) (node : Node) (firmware : NodeFirmware) (fuel : Nat),
      reportedAddress (uploadFirmware env node firmware fuel).1 = none
      ∨ reportedAddress (uploadFirmware env node firmware fuel).1 = some 0)
    ∧ (uploadFirmware nackSecondWrite sampleNode smallImage 1).1
        = JobResult.error (FwError.FinalWrite 5 0 "timeout")
    ∧ setAddresses (uploadFirmware nackSecondWrite sampleNode smallImage 1).2
        = [0x2000, 0x2000] := by
  refine ⟨?_, by decide, by decide⟩
  intro env node firmware fuel
  unfold uploadFirmware
  simp only [ExpectSystemMessage]
  split
  · left; rfl
  · split
    · left; rfl
    · rename_i payload t2 heq payload2 t4 heq2
      have hb := uploadBlocks_reported env node.Id 0 fuel firmware.Code t4
      revert hb
      generalize uploadBlocks env node.Id 0 fuel firmware.Code t4 = w
      obtain ⟨r, t5⟩ := w
      intro hb
      cases r with
      | ok =>
        simp only [Put]
        split
        · left; rfl
        · left; rfl
      | error e => exact hb
      | unfinished => exact hb
      | panic => exact hb

/-! ## C15: attribute templates -/

/-- C16: `DecodeString` does not return an error for every string that is not in the
canonical form: for the empty string and for `00:11`, which have fewer than eight groups,
it returns nil, whatever the receiver. Its loop checks the groups and the separators that
are there and never the number of groups; the only test of a length, `len(id) < 8`, is on
the array. -/
theorem DecodeString_accepts_short_strings :
    (∀ id : Udid8, Udid8.DecodeString id "".data = DecodeResult.nil)
    ∧ (∀ id : Udid8, Udid8.DecodeString id "00:11".data = DecodeResult.nil)
    ∧ (∀ id : Udid8, Udid8.DecodeString id "00-11".data
        = DecodeResult.error "expected ':' in hex identifier") := by
  have h : ∀ id : Udid8, ¬ id.val.length < 8 := fun id => by rw [id.property]; decide
  refine ⟨?_, ?_, ?_⟩ <;> intro id <;> unfold Udid8.DecodeString <;> rw [if_neg (h id)] <;>
    decide

/-! ## C17: the textual form of a hardware identifier -/

theorem hextable_get (d : Nat) (h : d < hextable.length) : hextable[d] = lowerHexDigit d := by
  have h16 : d < 16 := h
  interval_cases d <;> rfl

theorem lowerHexDigit_inj (a b : Nat) (ha : a < 16) (hb : b < 16)
    (h : lowerHexDigit a = lowerHexDigit b) : a = b := by
  interval_cases a <;> interval_cases b <;> first | rfl | (exact absurd h (by decide))

theorem Udid8_cases (id : Udid8) :
    ∃ b0 b1 b2 b3 b4 b5 b6 b7 : Byte, id.val = [b0, b1, b2, b3, b4, b5, b6, b7] := by
  obtain ⟨l, hl⟩ := id
  rcases l with _ | ⟨b0, _ | ⟨b1, _ | ⟨b2, _ | ⟨b3, _ | ⟨b4, _ | ⟨b5, _ | ⟨b6, _ | ⟨b7, _ | ⟨b8, l⟩⟩⟩⟩⟩⟩⟩⟩⟩
    <;> simp at hl
  exact ⟨b0, b1, b2, b3, b4, b5, b6, b7, rfl⟩

theorem String_eq (id : Udid8) (b0 b1 b2 b3 b4 b5 b6 b7 : Byte)
    (h : id.val = [b0, b1, b2, b3, b4, b5, b6, b7]) :
    Udid8.String id
      = [lowerHexDigit (b0.val / 16), lowerHexDigit (b0.val % 16), ':',
         lowerHexDigit (b1.val / 16), lowerHexDigit (b1.val % 16), ':',
         lowerHexDigit (b2.val / 16), lowerHexDigit (b2.val % 16), ':',
         lowerHexDigit (b3.val / 16), lowerHexDigit (b3.val % 16), ':',
         lowerHexDigit (b4.val / 16), lowerHexDigit (b4.val % 16), ':',
         lowerHexDigit (b5.val / 16), lowerHexDigit (b5.val % 16), ':',
         lowerHexDigit (b6.val / 16), lowerHexDigit (b6.val % 16), ':',
         lowerHexDigit (b7.val / 16), lowerHexDigit (b7.val % 16)] := by
  have hr : List.range 8 = [0, 1, 2, 3, 4, 5, 6, 7] := rfl
  unfold Udid8.String
  rw [h, hr]
  simp [EncodeToString, hextable_get]

theorem byte_of_digits (a b : Byte) (h1 : a.val / 16 = b.val / 16) (h2 : a.val % 16 = b.val % 16) :
    a = b := by
  apply Fin.ext
  omega

/-- C17: for every 8-byte identifier `id`, `id.String()` has 23 characters, has `:` at
the indices 2, 5, ..., 20, and its group `i` (the two characters from index `3*i`) is the
two-digit lowercase hexadecimal representation of byte `i`: the digit of value `b / 16`,
then the digit of value `b % 16`, each taken from `0123456789abcdef`. So `String` is
injective. The example of the specification is `00:11:22:33:44:55:66:77`. -/
theorem String_canonical :
    (∀ id : Udid8,
      (Udid8.String id).length = 23
      ∧ (∀ k : Nat, k < 7 → (Udid8.String id).get? (3 * k + 2) = some ':')
      ∧ (∀ (i : Nat) (b : Byte), id.val.get? i = some b →
          ((Udid8.String id).drop (3 * i)).take 2
            = [lowerHexDigit (b.val / 16), lowerHexDigit (b.val % 16)]))
    ∧ (∀ d : Nat, d < 16 →
        lowerHexDigit d ∈ "0123456789abcdef".data ∧ fromHexChar (lowerHexDigit d) = some d)
    ∧ Function.Injective Udid8.String
    ∧ Udid8.String ⟨[0x00, 0x11, 0x22, 0x33, 0x44, 0x55, 0x66, 0x77], rfl⟩
        = "00:11:22:33:44:55:66:77".data := by
  refine ⟨?_, ?_, ?_, by decide⟩
  · intro id
    obtain ⟨b0, b1, b2, b3, b4, b5, b6, b7, h⟩ := Udid8_cases id
    rw [String_eq id _ _ _ _ _ _ _ _ h]
    refine ⟨rfl, ?_, ?_⟩
    · intro k hk
      interval_cases k <;> rfl
    · intro i b hib
      rw [h] at hib
      have hi : i < 8 := by
        by_contra hge
        rw [List.get?_eq_none.2 (by simp; omega)] at hib
        cases hib
      interval_cases i <;> simp at hib <;> subst hib <;> rfl
  · intro d hd
    interval_cases d <;> decide
  · intro id1 id2 heq
    obtain ⟨a0, a1, a2, a3, a4, a5, a6, a7, h1⟩ := Udid8_cases id1
    obtain ⟨b0, b1, b2, b3, b4, b5, b6, b7, h2⟩ := Udid8_cases id2
    rw [String_eq id1 _ _ _ _ _ _ _ _ h1, String_eq id2 _ _ _ _ _ _ _ _ h2] at heq
    simp only [List.cons.injEq, and_true, true_and] at heq
    obtain ⟨e0, f0, e1, f1, e2, f2, e3, f3, e4, f4, e5, f5, e6, f6, e7, f7⟩ := heq
    have hd : ∀ a b : Byte, lowerHexDigit (a.val / 16) = lowerHexDigit (b.val / 16) →
        lowerHexDigit (a.val % 16) = lowerHexDigit (b.val % 16) → a = b := by
      intro a b hh hl
      have ha := a.isLt
      have hb := b.isLt
      exact byte_of_digits a b
        (lowerHexDigit_inj _ _ (by omega) (by omega) hh)
        (lowerHexDigit_inj _ _ (by omega) (by omega) hl)
    apply Subtype.ext
    rw [h1, h2, hd a0 b0 e0 f0, hd a1 b1 e1 f1, hd a2 b2 e2 f2, hd a3 b3 e3 f3,
      hd a4 b4 e4 f4, hd a5 b5 e5 f5, hd a6 b6 e6 f6, hd a7 b7 e7 f7]

end Nocand
